import Mathlib

/-!
# Virtual-memory manager of pintos-kaist2: a shallow embedding

The development embeds `vm/vm.c`, `vm/file.c` and the `mmap`/`munmap` system
calls of `userprog/syscall.c`.

Conventions of the embedding.

* C pointers are natural numbers; a pointer that may be `NULL` is an
  `Option Nat`.  Dereferencing `NULL`, a failed `ASSERT` and `NOT_REACHED`
  make the embedded function return `none` (the kernel panics or faults).
* The kernel heap is a family of total maps from addresses to records
  (`pages`, `frames`, `entries`); `malloc` hands out the fresh address
  `next`, and `free` only records the block in `freed`: the bytes of a block
  stay readable and the block is not handed out again.
* Kernel memory reached through a frame is `mem kva ofs`, the byte at offset
  `ofs` of the page starting at the page-aligned address `kva`.
* `thread_current ()` is `cur`; the per-thread data (`spt`, `pml4`, `rsp`,
  the descriptor table) are maps indexed by thread, and a
  `struct supplemental_page_table *` is the index of its thread.
-/

namespace Pintos

/-! ## Constants of `threads/vaddr.h`, `threads/loader.h` and `vm/vm.h` -/

/-- Modelled from the spec: the page size of `threads/vaddr.h` (not among
the sources), `1 << 12`. -/
def PGSIZE : Nat := 4096

/-- Modelled from the spec: the start of kernel space, `KERN_BASE` of
`threads/vaddr.h` and `threads/loader.h` (not among the sources). -/
def KERN_BASE : Nat := 0x8004000000

/-- Modelled from the spec: the top-of-stack constant `USER_STACK` of
`threads/vaddr.h` (not among the sources). -/
def USER_STACK : Nat := 0x47480000

/-- Modelled from the spec: `pg_round_down` of `threads/vaddr.h` (not among
the sources) clears the offset bits of an address. -/
def pg_round_down (va : Nat) : Nat := va / PGSIZE * PGSIZE

/-- Modelled from the spec: `pg_ofs` of `threads/vaddr.h` (not among the
sources), the offset of an address inside its page. -/
def pg_ofs (va : Nat) : Nat := va % PGSIZE

/-- Modelled from the spec: `is_user_vaddr` of `threads/vaddr.h` (not among
the sources). -/
def is_user_vaddr (va : Nat) : Bool := decide (va < KERN_BASE)

/-- Modelled from the spec: `is_kernel_vaddr` of `threads/vaddr.h` (not
among the sources). -/
def is_kernel_vaddr (va : Nat) : Bool := decide (KERN_BASE ≤ va)

/-- Wrap-around of 64-bit unsigned arithmetic (`size_t`, `uint64_t`,
pointers). -/
def u64 (n : Int) : Nat := (n % 18446744073709551616).toNat

/-- Conversion to a 32-bit signed integer (`int`, `off_t`). -/
def i32 (n : Int) : Int := (n + 2147483648) % 4294967296 - 2147483648

/-- The value `VM_UNINIT` of `enum vm_type`. -/
def VM_UNINIT : Nat := 0

/-- The value `VM_ANON` of `enum vm_type`. -/
def VM_ANON : Nat := 1

/-- The value `VM_FILE` of `enum vm_type`. -/
def VM_FILE : Nat := 2

/-- The value `VM_PAGE_CACHE` of `enum vm_type`. -/
def VM_PAGE_CACHE : Nat := 3

/-- The marker bit `VM_MARKER_0`, `1 << 3`. -/
def VM_MARKER_0 : Nat := 8

/-- The marker bit `VM_MARKER_1`, `1 << 4`. -/
def VM_MARKER_1 : Nat := 16

/-- The macro `VM_TYPE(type)`: `(type) & 7`. -/
def VM_TYPE (type : Nat) : Nat := type &&& 7

/-! ## Records -/

/-- The three operation tables a page can point at (`uninit_ops`, `anon_ops`
and `file_ops`). -/
inductive page_operations where
  | uninit_ops
  | anon_ops
  | file_ops
  deriving DecidableEq, Repr

/-- The field `type` of an operation table. -/
def page_operations.type : page_operations → Nat
  | .uninit_ops => VM_UNINIT
  | .anon_ops => VM_ANON
  | .file_ops => VM_FILE

/-- The deferred initialisers (`vm_initializer *`) that occur in the kernel. -/
inductive vm_initializer where
  | lazy_load_segment
  deriving DecidableEq, Repr

/-- The type-specific initialisers chosen by
`vm_alloc_page_with_initializer`. -/
inductive page_initializer where
  | anon_initializer
  | file_backed_initializer
  deriving DecidableEq, Repr

/-- The record `struct vm_entry` of `userprog/process.h`. -/
structure vm_entry where
  f : Nat
  offset : Int
  read_bytes : Nat
  zero_bytes : Nat
  deriving DecidableEq, Repr, Inhabited

/-- Modelled from the spec: `struct uninit_page` of `vm/uninit.h` (not among
the sources): the deferred initialiser, the target type, the argument and
the type-specific initialiser. -/
structure uninit_page where
  init : Option vm_initializer
  type : Nat
  aux : Option Nat
  page_initializer : page_initializer
  deriving DecidableEq, Repr

/-- The record `struct anon_page` of `vm/anon.h`. -/
structure anon_page where
  slot_num : Nat
  deriving DecidableEq, Repr

/-- Modelled from the spec: `struct file_page` of `vm/file.h` (not among the
sources), with the four fields `vm/file.c` uses. -/
structure file_page where
  file : Nat
  offset : Int
  read_bytes : Nat
  zero_bytes : Nat
  deriving DecidableEq, Repr

/-- The record `struct page`.  The members of its union are kept as three
separate fields; the code reads a member only while it is the live one, or
(in `file_backed_initializer`) reads `uninit.aux` before it writes `file`. -/
structure page where
  operations : page_operations
  va : Nat
  frame : Option Nat
  writable : Bool
  mapped_page_count : Int
  uninit : uninit_page
  anon : anon_page
  file : file_page
  deriving DecidableEq, Repr

instance : Inhabited page :=
  ⟨{ operations := .uninit_ops, va := 0, frame := none, writable := false,
     mapped_page_count := 0,
     uninit := { init := none, type := 0, aux := none,
                 page_initializer := .anon_initializer },
     anon := { slot_num := 0 },
     file := { file := 0, offset := 0, read_bytes := 0, zero_bytes := 0 } }⟩

/-- The record `struct frame` (its list element is the membership of the
address in `frame_table`). -/
structure frame where
  kva : Nat
  page : Option Nat
  deriving DecidableEq, Repr, Inhabited

/-- The record `struct slot`. -/
structure slot where
  page : Nat
  slot_num : Nat
  deriving DecidableEq, Repr

/-- Modelled from the spec: one present entry of the hardware page table
(`threads/mmu.c`, not among the sources): the frame address, the write
permission and the accessed and dirty bits. -/
structure pte where
  kva : Nat
  writable : Bool
  accessed : Bool
  dirty : Bool
  deriving DecidableEq, Repr

/-- The state of the kernel that the virtual-memory code reads and writes. -/
structure KState where
  /-- The next fresh heap address. -/
  next : Nat
  /-- The blocks given back with `free`. -/
  freed : List Nat
  pages : Nat → page
  frames : Nat → frame
  entries : Nat → vm_entry
  /-- The running thread. -/
  cur : Nat
  /-- The field `spt.hash_table` of every thread: the pages in the table. -/
  spt : Nat → List Nat
  /-- The field `pml4` of every thread. -/
  pml4 : Nat → Nat → Option pte
  /-- The field `rsp` of every thread (saved at the user-to-kernel
  transition). -/
  rsp : Nat → Nat
  /-- The descriptor table of every thread. -/
  fdt : Nat → Int → Option Nat
  /-- The global `frame_table`, in allocation order. -/
  frame_table : List Nat
  /-- The global `swap_table`. -/
  swap_table : List slot
  /-- The number of slots of the swap device. -/
  swap_size : Nat
  /-- The bytes stored in every swap slot. -/
  swap_disk : Nat → Nat → Nat
  /-- The free pages of the user pool. -/
  user_pool : List Nat
  /-- Kernel memory, by page and offset. -/
  mem : Nat → Nat → Nat
  /-- Whether the hardware page table can take one more mapping. -/
  pml4_full : Bool
  /-- The inode behind every open file handle. -/
  file_inode : Nat → Nat
  /-- The length of every inode. -/
  inode_length : Nat → Nat
  /-- The bytes of every inode, by position. -/
  inode_data : Nat → Nat → Nat
  /-- The file handles closed so far. -/
  closed : List Nat
  /-- The value found in the return register when a function with a result
  falls off its end (`file_backed_swap_in`, `file_backed_swap_out`). -/
  junk : Bool
  /-- What the page record at a block reads as once the block has been given
  back with `free`: the allocator is not among the sources, and the bytes of
  a freed block are its own. -/
  garbage : Nat → page

/-! ## The kernel heap -/

/-- The allocator `malloc` (`threads/malloc.c`, not among the sources): the
kernel heap does not run out and the block is fresh, one that was never
handed out before. -/
def malloc (s : KState) : Option Nat × KState :=
  (some s.next, { s with next := s.next + 1 })

/-- The call `free (p)`: the block goes back to the allocator and its bytes
are no longer those the program wrote; a later read of the page record at
`p`, a use after free, finds `garbage p`. -/
def free (s : KState) (p : Nat) : KState :=
  let m : Nat → page := fun q => if q = p then s.garbage p else s.pages q
  { s with freed := p :: s.freed, pages := m }

/-- The write of the record `v` at the page address `p`. -/
def set_page (s : KState) (p : Nat) (v : page) : KState :=
  { s with pages := fun q => if q = p then v else s.pages q }

/-- The write of the record `v` at the frame address `fp`. -/
def set_frame (s : KState) (fp : Nat) (v : frame) : KState :=
  { s with frames := fun q => if q = fp then v else s.frames q }

/-- The write of the record `v` at the address `e` of a `struct vm_entry`. -/
def set_entry (s : KState) (e : Nat) (v : vm_entry) : KState :=
  { s with entries := fun q => if q = e then v else s.entries q }

/-- The write of the element list `h` into the table of thread `t`. -/
def set_spt (s : KState) (t : Nat) (h : List Nat) : KState :=
  { s with spt := fun u => if u = t then h else s.spt u }

/-! ## The hash table of the supplemental page table -/

/-- The comparison `page_less`: `a->va < b->va`. -/
def page_less (a b : page) : Bool := decide (a.va < b.va)

/-- Modelled from the spec: `hash_find` of `lib/kernel/hash.c` (not among
the sources) returns the element of the table equal to the key, two elements
being equal when neither is less than the other.  The table is the list of
its elements: `page_hash` depends on `va` alone, so equal elements share a
bucket. -/
def hash_find (pages : Nat → page) (h : List Nat) (key : page) : Option Nat :=
  h.find? (fun e => !page_less (pages e) key && !page_less key (pages e))

/-- Modelled from the spec: `hash_insert` of `lib/kernel/hash.c` (not among
the sources) returns the equal element already in the table, or inserts the
new element and returns `NULL`. -/
def hash_insert (pages : Nat → page) (h : List Nat) (new : Nat) :
    Option Nat × List Nat :=
  match hash_find pages h (pages new) with
  | some old => (some old, h)
  | none => (none, new :: h)

/-- The function `spt_find_page` with the heap traffic of its scratch page
spelled out: the page is allocated, carries the rounded-down address as the
key of `hash_find`, and is freed before the function returns. -/
def spt_find_page_heap (s : KState) (spt : Nat) (va : Nat) :
    Option (Option Nat × KState) :=
  match malloc s with
  | (none, _) => none
  | (some pg, s1) =>
    let s2 := set_page s1 pg { s1.pages pg with va := pg_round_down va }
    let e := hash_find s2.pages (s2.spt spt) (s2.pages pg)
    let s3 := free s2 pg
    match e with
    | none => some (none, s3)
    | some x => some (some x, s3)

/-- The lookup `spt_find_page` as its callers see it: the result of the
search for the rounded-down address.  The scratch page of
`spt_find_page_heap` is back on the heap when the function returns and is
left out of the state. -/
def spt_find_page (s : KState) (spt : Nat) (va : Nat) : Option Nat :=
  let key : page := { (default : page) with va := pg_round_down va }
  match hash_find s.pages (s.spt spt) key with
  | none => none
  | some e => some e

/-- The insertion `spt_insert_page`: true when `hash_insert` returned
`NULL`. -/
def spt_insert_page (s : KState) (spt : Nat) (p : Nat) : Bool × KState :=
  match hash_insert s.pages (s.spt spt) p with
  | (none, h) => (true, set_spt s spt h)
  | (some _, h) => (false, set_spt s spt h)

/-! ## Collaborators: the hardware page table, the user pool, memory, files -/

/-- Modelled from the spec: the lookup of the hardware page table
(`threads/mmu.c`, not among the sources); the walk ignores the offset bits
of the address. -/
def pml4_get (s : KState) (t : Nat) (va : Nat) : Option pte :=
  s.pml4 t (va / PGSIZE)

/-- The write of the entry `e` for the page of `va` in the page table of
thread `t`. -/
def pml4_put (s : KState) (t : Nat) (va : Nat) (e : Option pte) : KState :=
  let m : Nat → Nat → Option pte := fun u n =>
    if u = t ∧ n = va / PGSIZE then e else s.pml4 u n
  { s with pml4 := m }

/-- Modelled from the spec: `install_mapping(addr_space, va, pa, writable)
-> bool`, the function `pml4_set_page` of `threads/mmu.c` (not among the
sources); it fails when no page-table page can be had. -/
def pml4_set_page (s : KState) (t : Nat) (upage kpage : Nat) (rw : Bool) :
    Bool × KState :=
  if s.pml4_full then (false, s)
  else (true, pml4_put s t upage
    (some { kva := kpage, writable := rw, accessed := false, dirty := false }))

/-- Modelled from the spec: `clear_mapping(addr_space, va)`, the function
`pml4_clear_page` of `threads/mmu.c` (not among the sources). -/
def pml4_clear_page (s : KState) (t : Nat) (upage : Nat) : KState :=
  pml4_put s t upage none

/-- Modelled from the spec: `is_accessed(addr_space, va) -> bool`
(`pml4_is_accessed`, not among the sources). -/
def pml4_is_accessed (s : KState) (t : Nat) (va : Nat) : Bool :=
  match pml4_get s t va with
  | some e => e.accessed
  | none => false

/-- Modelled from the spec: `clear_accessed(...)` (`pml4_set_accessed`, not
among the sources). -/
def pml4_set_accessed (s : KState) (t : Nat) (va : Nat) (b : Bool) : KState :=
  match pml4_get s t va with
  | some e => pml4_put s t va (some { e with accessed := b })
  | none => s

/-- Modelled from the spec: `is_dirty(...)` (`pml4_is_dirty`, not among the
sources). -/
def pml4_is_dirty (s : KState) (t : Nat) (va : Nat) : Bool :=
  match pml4_get s t va with
  | some e => e.dirty
  | none => false

/-- Modelled from the spec: `clear_dirty(...)` (`pml4_set_dirty`, not among
the sources). -/
def pml4_set_dirty (s : KState) (t : Nat) (va : Nat) (b : Bool) : KState :=
  match pml4_get s t va with
  | some e => pml4_put s t va (some { e with dirty := b })
  | none => s

/-- Modelled from the spec: `try_allocate_physical_frame() ->
frame_or_none`, the call `palloc_get_page (PAL_USER)` of `threads/palloc.c`
(not among the sources): the next free page of the user pool, its bytes
untouched, or `NULL` when the pool is exhausted. -/
def palloc_get_page (s : KState) : Option Nat × KState :=
  match s.user_pool with
  | [] => (none, s)
  | a :: rest => (some a, { s with user_pool := rest })

/-- The call `memset (kva, 0, PGSIZE)`. -/
def memset_zero (s : KState) (kva : Nat) : KState :=
  { s with mem := fun k o => if k = kva ∧ o < PGSIZE then 0 else s.mem k o }

/-- The call `memcpy (dst, src, PGSIZE)`. -/
def memcpy_page (s : KState) (dst src : Nat) : KState :=
  let m : Nat → Nat → Nat := fun k o =>
    if k = dst ∧ o < PGSIZE then s.mem src o else s.mem k o
  { s with mem := m }

/-- Modelled from the spec: `length` of the file layer (`file_length`, not
among the sources). -/
def file_length (s : KState) (f : Nat) : Int :=
  (s.inode_length (s.file_inode f) : Int)

/-- Modelled from the spec: the duplicated file handle of `mmap`
(`file_reopen`, not among the sources): a fresh handle on the same inode. -/
def file_reopen (s : KState) (f : Nat) : Nat × KState :=
  let m : Nat → Nat := fun h =>
    if h = s.next then s.file_inode f else s.file_inode h
  (s.next, { s with next := s.next + 1, file_inode := m })

/-- Modelled from the spec: `close` of the file layer (`file_close`, not
among the sources). -/
def file_close (s : KState) (f : Nat) : KState :=
  { s with closed := f :: s.closed }

/-- Modelled from the spec: `write_at` of the file layer (`file_write_at`,
not among the sources): the bytes of the buffer overwrite the file from
`ofs`, without growing it. -/
def file_write_at (s : KState) (f : Nat) (buf : Nat) (size : Nat)
    (ofs : Int) : KState :=
  let ino := s.file_inode f
  let data : Nat → Nat → Nat := fun j i =>
    if j = ino ∧ ofs ≤ (i : Int) ∧ (i : Int) < ofs + size ∧ i < s.inode_length ino then
      s.mem buf ((i : Int) - ofs).toNat
    else s.inode_data j i
  { s with inode_data := data }

/-- Modelled from the spec: the descriptor lookup `process_get_file` of
`userprog/process.c` (not among the sources). -/
def process_get_file (s : KState) (fd : Int) : Option Nat :=
  s.fdt s.cur fd

/-! ## Page operations -/

/-- Modelled from the spec: `uninit_new` of `vm/uninit.c` (not among the
sources) writes an uninitialized page: the address, no frame, and the
deferred initialiser, target type, argument and type initialiser. -/
def uninit_new (s : KState) (p : Nat) (va : Nat) (init : Option vm_initializer)
    (type : Nat) (aux : Option Nat) (initializer : page_initializer) : KState :=
  set_page s p
    { operations := .uninit_ops, va := va, frame := none, writable := false,
      mapped_page_count := 0,
      uninit := { init := init, type := type, aux := aux,
                  page_initializer := initializer },
      anon := { slot_num := 0 },
      file := { file := 0, offset := 0, read_bytes := 0, zero_bytes := 0 } }

/-- The function `page_get_type`. -/
def page_get_type (pg : page) : Nat :=
  let ty := VM_TYPE pg.operations.type
  if ty = VM_UNINIT then VM_TYPE pg.uninit.type else ty

/-- The function `vm_alloc_page_with_initializer`. -/
def vm_alloc_page_with_initializer (s : KState) (type : Nat) (upage : Nat)
    (writable : Bool) (init : Option vm_initializer) (aux : Option Nat) :
    Option (Bool × KState) :=
  if VM_TYPE type = VM_UNINIT then none
  else
    match spt_find_page s s.cur upage with
    | some _ => some (false, s)
    | none =>
      match malloc s with
      | (none, s1) => some (false, s1)
      | (some p, s1) =>
        let page_initializer : Option page_initializer :=
          if VM_TYPE type = VM_ANON then some .anon_initializer
          else if VM_TYPE type = VM_FILE then some .file_backed_initializer
          else none
        match page_initializer with
        | none => none
        | some initializer =>
          let s2 := uninit_new s1 p upage init type aux initializer
          let s3 := set_page s2 p { s2.pages p with writable := writable }
          some (spt_insert_page s3 s3.cur p)

/-- The macro `vm_alloc_page(type, upage, writable)`. -/
def vm_alloc_page (s : KState) (type : Nat) (upage : Nat) (writable : Bool) :
    Option (Bool × KState) :=
  vm_alloc_page_with_initializer s type upage writable none none

/-- The function `file_backed_initializer`. -/
def file_backed_initializer (s : KState) (p : Nat) (_type : Nat)
    (_kva : Option Nat) : Option (Bool × KState) :=
  match (s.pages p).uninit.aux with
  | none => none
  | some a =>
    let vme := s.entries a
    some (true, set_page s p
      { s.pages p with
        operations := .file_ops,
        file := { file := vme.f, offset := vme.offset,
                  read_bytes := vme.read_bytes, zero_bytes := vme.zero_bytes } })

/-- Modelled from the spec: `anon_initializer` of `vm/anon.c` (not among the
sources), the `swap_in` of a page that becomes anonymous: it populates the
frame at `kva` from the backing of the page, which is zero-fill, and turns
the page into an anonymous page. -/
def anon_initializer (s : KState) (p : Nat) (_type : Nat) (kva : Option Nat) :
    Option (Bool × KState) :=
  let s1 := match kva with
    | some k => memset_zero s k
    | none => s
  some (true, set_page s1 p { s1.pages p with operations := .anon_ops })

/-- Modelled from the spec: the deferred initialiser `lazy_load_segment` of
`userprog/process.c` (not among the sources) fills the frame of the page
with `read_bytes` bytes of the file from `offset` and zeroes the next
`zero_bytes`; it fails when the file is too short. -/
def lazy_load_segment (s : KState) (p : Nat) (aux : Option Nat) :
    Option (Bool × KState) :=
  match aux, (s.pages p).frame with
  | some a, some fr =>
    let vme := s.entries a
    let ino := s.file_inode vme.f
    let kva := (s.frames fr).kva
    if 0 ≤ vme.offset ∧ vme.offset + vme.read_bytes ≤ s.inode_length ino then
      let m : Nat → Nat → Nat := fun k o =>
        if k = kva ∧ o < vme.read_bytes then s.inode_data ino (vme.offset.toNat + o)
        else if k = kva ∧ o < vme.read_bytes + vme.zero_bytes then 0
        else s.mem k o
      some (true, { s with mem := m })
    else some (false, s)
  | _, _ => none

/-- Modelled from the spec: the `swap_in` of an uninitialized page
(`vm/uninit.c`, not among the sources) runs the type initialiser and then
the deferred initialiser, when there is one. -/
def uninit_swap_in (s : KState) (p : Nat) (kva : Nat) : Option (Bool × KState) :=
  let u := (s.pages p).uninit
  let r := match u.page_initializer with
    | .anon_initializer => anon_initializer s p u.type (some kva)
    | .file_backed_initializer => file_backed_initializer s p u.type (some kva)
  match r with
  | none => none
  | some (false, s1) => some (false, s1)
  | some (true, s1) =>
    match u.init with
    | none => some (true, s1)
    | some .lazy_load_segment => lazy_load_segment s1 p u.aux

/-- Modelled from the spec: the `swap_in` of an anonymous page (`vm/anon.c`,
not among the sources) populates the frame from the backing of the page: a
page holding a slot reads its content back and frees the slot, a page
holding none is zero-filled. -/
def anon_swap_in (s : KState) (p : Nat) (kva : Nat) : Option (Bool × KState) :=
  match s.swap_table.find? (fun sl => decide (sl.page = p)) with
  | none => some (true, memset_zero s kva)
  | some sl =>
    let m : Nat → Nat → Nat := fun k o =>
      if k = kva ∧ o < PGSIZE then s.swap_disk sl.slot_num o else s.mem k o
    some (true, { s with
      mem := m, swap_table := s.swap_table.filter (fun x => decide (x.page ≠ p)) })

/-- The function `file_backed_swap_in`: its body does nothing. -/
def file_backed_swap_in (s : KState) (_p : Nat) (_kva : Nat) :
    Option (Bool × KState) :=
  some (s.junk, s)

/-- The macro `swap_in(page, v)`. -/
def swap_in (s : KState) (p : Nat) (kva : Nat) : Option (Bool × KState) :=
  match (s.pages p).operations with
  | .uninit_ops => uninit_swap_in s p kva
  | .anon_ops => anon_swap_in s p kva
  | .file_ops => file_backed_swap_in s p kva

/-- The first slot number from `n` slots that no entry of the table uses. -/
def free_slot (tbl : List slot) (n : Nat) : Option Nat :=
  (List.range n).find? (fun i => tbl.all (fun sl => decide (sl.slot_num ≠ i)))

/-- Modelled from the spec: the `swap_out` of an anonymous page
(`vm/anon.c`, not among the sources) requests a slot, writes the content of
the frame to it, records the slot on the page and detaches the hardware
mapping; it fails when no slot is free. -/
def anon_swap_out (s : KState) (p : Nat) : Option (Bool × KState) :=
  match (s.pages p).frame with
  | none => none
  | some fr =>
    match free_slot s.swap_table s.swap_size with
    | none => some (false, s)
    | some n =>
      let kva := (s.frames fr).kva
      let d : Nat → Nat → Nat := fun i o =>
        if i = n then s.mem kva o else s.swap_disk i o
      let s1 := { s with
        swap_disk := d, swap_table := { page := p, slot_num := n } :: s.swap_table }
      let s2 := set_page s1 p { s1.pages p with anon := { slot_num := n } }
      some (true, pml4_clear_page s2 s2.cur (s2.pages p).va)

/-- The function `file_backed_swap_out`: its body does nothing. -/
def file_backed_swap_out (s : KState) (_p : Nat) : Option (Bool × KState) :=
  some (s.junk, s)

/-- The macro `swap_out(page)`.  Modelled from the spec: the table of an
uninitialized page (`vm/uninit.c`, not among the sources) has no `swap_out`,
so the call through it faults. -/
def swap_out (s : KState) (p : Nat) : Option (Bool × KState) :=
  match (s.pages p).operations with
  | .uninit_ops => none
  | .anon_ops => anon_swap_out s p
  | .file_ops => file_backed_swap_out s p

/-- The function `file_backed_destroy`.  The members `uninit`, `anon` and
`file` of `struct page` are one union: on a dirty page whose live member is
not `file`, the read of `file_page->file` finds the bytes of the other
member, which are no file, and `file_write_at` faults. -/
def file_backed_destroy (s : KState) (p : Nat) : Option KState :=
  let pg := s.pages p
  match pml4_get s s.cur pg.va with
  | some e =>
    if e.dirty then
      match pg.operations with
      | .file_ops =>
        let s' := file_write_at s pg.file.file e.kva pg.file.read_bytes pg.file.offset
        let s1 := pml4_set_dirty s' s'.cur pg.va false
        some (pml4_clear_page s1 s1.cur pg.va)
      | _ => none
    else some (pml4_clear_page s s.cur pg.va)
  | none => some (pml4_clear_page s s.cur pg.va)

/-- Modelled from the spec: the `destroy` of an uninitialized page
(`vm/uninit.c`, not among the sources) holds no resource of its own. -/
def uninit_destroy (s : KState) (_p : Nat) : KState := s

/-- Modelled from the spec: the `destroy` of an anonymous page (`vm/anon.c`,
not among the sources) frees its swap slot. -/
def anon_destroy (s : KState) (p : Nat) : KState :=
  { s with swap_table := s.swap_table.filter (fun x => decide (x.page ≠ p)) }

/-- The macro `destroy(page)`.  Through the table of operations
`file_backed_destroy` runs on a page whose live member is `file`, where it
returns: the last branch is never taken. -/
def destroy (s : KState) (p : Nat) : KState :=
  match (s.pages p).operations with
  | .uninit_ops => uninit_destroy s p
  | .anon_ops => anon_destroy s p
  | .file_ops =>
    match file_backed_destroy s p with
    | some s1 => s1
    | none => s

/-- The function `vm_dealloc_page`. -/
def vm_dealloc_page (s : KState) (p : Nat) : KState :=
  free (destroy s p) p

/-- The function `spt_remove_page`. -/
def spt_remove_page (s : KState) (_spt : Nat) (p : Option Nat) : KState :=
  match p with
  | some q => vm_dealloc_page s q
  | none => s

/-! ## The frame table and eviction -/

/-- The scan of `vm_get_victim` over the rest of the frame table; `victim`
is the value of the variable when the scan reaches this point. -/
def vm_get_victim_scan (s : KState) : List Nat → Option Nat → Option Nat × KState
  | [], victim => (victim, s)
  | f :: rest, _ =>
    match (s.frames f).page with
    | none => (some f, s)
    | some p =>
      if pml4_is_accessed s s.cur (s.pages p).va then
        vm_get_victim_scan (pml4_set_accessed s s.cur (s.pages p).va false)
          rest (some f)
      else (some f, s)

/-- The function `vm_get_victim`. -/
def vm_get_victim (s : KState) : Option Nat × KState :=
  vm_get_victim_scan s s.frame_table none

/-- The function `vm_evict_frame`. -/
def vm_evict_frame (s : KState) : Option (Option Nat × KState) :=
  match vm_get_victim s with
  | (none, _) => none
  | (some victim, s1) =>
    match (s1.frames victim).page with
    | some q =>
      match swap_out s1 q with
      | none => none
      | some (_, s2) => some (some victim, s2)
    | none => some (some victim, s1)

/-- The function `vm_get_frame`. -/
def vm_get_frame (s : KState) : Option (Nat × KState) :=
  match palloc_get_page s with
  | (none, s1) =>
    match vm_evict_frame s1 with
    | none => none
    | some (none, _) => none
    | some (some fr, s2) =>
      let s3 := memset_zero s2 (s2.frames fr).kva
      some (fr, set_frame s3 fr { s3.frames fr with page := none })
  | (some addr, s1) =>
    match malloc s1 with
    | (none, _) => none
    | (some fr, s2) =>
      let s3 := set_frame s2 fr { kva := addr, page := none }
      some (fr, { s3 with frame_table := s3.frame_table ++ [fr] })

/-- The two assignments `frame->page = page; page->frame = frame;` of
`vm_do_claim_page`. -/
def set_links (s : KState) (fr p : Nat) : KState :=
  let s2 := set_frame s fr { s.frames fr with page := some p }
  set_page s2 p { s2.pages p with frame := some fr }

/-- The function `vm_do_claim_page`. -/
def vm_do_claim_page (s : KState) (p : Nat) : Option (Bool × KState) :=
  match vm_get_frame s with
  | none => none
  | some (fr, s1) =>
    let s3 := set_links s1 fr p
    match pml4_set_page s3 s3.cur (s3.pages p).va (s3.frames fr).kva
        (s3.pages p).writable with
    | (false, s4) => some (false, s4)
    | (true, s4) => swap_in s4 p (s4.frames fr).kva

/-- The function `vm_claim_page`. -/
def vm_claim_page (s : KState) (va : Nat) : Option (Bool × KState) :=
  match spt_find_page s s.cur va with
  | none => some (false, s)
  | some p => vm_do_claim_page s p

/-! ## The fault handler -/

/-- The function `vm_stack_growth`; the result of the allocation is
dropped. -/
def vm_stack_growth (s : KState) (addr : Nat) : Option KState :=
  match vm_alloc_page s (VM_ANON ||| VM_MARKER_0) (pg_round_down addr) true with
  | none => none
  | some (_, s1) => some s1

/-- The function `vm_try_handle_fault`; `f_rsp` is the field `rsp` of the
interrupt frame. -/
def vm_try_handle_fault (s : KState) (f_rsp : Nat) (addr : Nat)
    (user write not_present : Bool) : Option (Bool × KState) :=
  if addr = 0 ∨ is_kernel_vaddr addr = true then some (false, s)
  else if not_present then
    let rsp := if user then f_rsp else s.rsp s.cur
    let grown :=
      if USER_STACK - 2 ^ 20 ≤ u64 ((rsp : Int) - 8) ∧ u64 ((rsp : Int) - 8) ≤ addr ∧
          addr ≤ USER_STACK then
        vm_stack_growth s addr
      else some s
    match grown with
    | none => none
    | some s1 =>
      match spt_find_page s1 s1.cur addr with
      | none => some (false, s1)
      | some p =>
        if write = true ∧ (s1.pages p).writable = false then some (false, s1)
        else vm_do_claim_page s1 p
  else some (false, s)

/-- The stack pointer `vm_try_handle_fault` tests: the field `rsp` of the
interrupt frame for a fault in user mode, the field `rsp` of the running
thread otherwise. -/
def fault_rsp (s : KState) (f_rsp : Nat) (user : Bool) : Nat :=
  if user then f_rsp else s.rsp s.cur

/-- The steps of `vm_try_handle_fault` that follow the stack-growth test: the
lookup, the permission check and the claim. -/
def fault_claim (s : KState) (addr : Nat) (write : Bool) : Option (Bool × KState) :=
  match spt_find_page s s.cur addr with
  | none => some (false, s)
  | some p =>
    if write = true ∧ (s.pages p).writable = false then some (false, s)
    else vm_do_claim_page s p

/-! ## Copy and teardown of a supplemental page table -/

/-- One turn of the loop of `supplemental_page_table_copy`, for the source
page `sp`: `none` is a fault, `some (false, _)` a `return false`. -/
def supplemental_page_table_copy_step (s : KState) (dst : Nat) (sp : Nat) :
    Option (Bool × KState) :=
  let src_page := s.pages sp
  let type := src_page.operations.type
  let va := src_page.va
  let writable := src_page.writable
  if type = VM_UNINIT then
    match vm_alloc_page_with_initializer s (page_get_type src_page) va writable
        src_page.uninit.init src_page.uninit.aux with
    | none => none
    | some (_, s1) => some (true, s1)
  else if type = VM_FILE then
    match malloc s with
    | (none, _) => none
    | (some vme, s0) =>
      let s1 := set_entry s0 vme
        { f := src_page.file.file, offset := src_page.file.offset,
          read_bytes := src_page.file.read_bytes,
          zero_bytes := src_page.file.zero_bytes }
      match vm_alloc_page_with_initializer s1 type va writable none (some vme) with
      | none => none
      | some (false, s2) => some (false, s2)
      | some (true, s2) =>
        match spt_find_page s2 dst va with
        | none => none
        | some pg =>
          match file_backed_initializer s2 pg type none with
          | none => none
          | some (_, s3) =>
            let s4 := set_page s3 pg { s3.pages pg with frame := (s3.pages sp).frame }
            match (s4.pages sp).frame with
            | none => none
            | some sf =>
              some (true, (pml4_set_page s4 s4.cur (s4.pages pg).va (s4.frames sf).kva
                (s4.pages sp).writable).2)
  else
    match vm_alloc_page s type va writable with
    | none => none
    | some (false, s1) => some (false, s1)
    | some (true, s1) =>
      match vm_claim_page s1 va with
      | none => none
      | some (false, s2) => some (false, s2)
      | some (true, s2) =>
        match spt_find_page s2 dst va with
        | none => none
        | some dp =>
          match (s2.pages dp).frame, (s2.pages sp).frame with
          | some df, some sf =>
            some (true, memcpy_page s2 (s2.frames df).kva (s2.frames sf).kva)
          | _, _ => none

/-- The loop of `supplemental_page_table_copy` over the elements of the
source table. -/
def supplemental_page_table_copy_loop (dst : Nat) :
    List Nat → KState → Option (Bool × KState)
  | [], s => some (true, s)
  | sp :: rest, s =>
    match supplemental_page_table_copy_step s dst sp with
    | none => none
    | some (false, s1) => some (false, s1)
    | some (true, s1) => supplemental_page_table_copy_loop dst rest s1

/-- The function `supplemental_page_table_copy`; the iterator visits the
elements of the source table as they stand at the call. -/
def supplemental_page_table_copy (s : KState) (dst src : Nat) :
    Option (Bool × KState) :=
  supplemental_page_table_copy_loop dst (s.spt src) s

/-- The function `supplemental_page_table_kill`: `hash_clear` runs
`hash_page_destroy` on every element and empties the table. -/
def supplemental_page_table_kill (s : KState) (spt : Nat) : KState :=
  set_spt ((s.spt spt).foldl vm_dealloc_page s) spt []

/-! ## Memory-mapped files -/

/-- The loop of `do_mmap`; `fuel` bounds the number of turns, and running
out of it is reported as `none`. -/
def do_mmap_loop (f : Nat) (writable : Bool) (start_addr : Nat)
    (total_page_count : Int) :
    Nat → KState → Nat → Nat → Nat → Int → Option (Option Nat × KState)
  | 0, _, _, _, _, _ => none
  | fuel + 1, s, read_bytes, zero_bytes, addr, offset =>
    if read_bytes > 0 ∨ zero_bytes > 0 then
      let page_read_bytes := if read_bytes < PGSIZE then read_bytes else PGSIZE
      let page_zero_bytes := PGSIZE - page_read_bytes
      match malloc s with
      | (none, _) => none
      | (some vme, s0) =>
        let s1 := set_entry s0 vme
          { f := f, offset := offset, read_bytes := page_read_bytes,
            zero_bytes := page_zero_bytes }
        match vm_alloc_page_with_initializer s1 VM_FILE addr writable
            (some .lazy_load_segment) (some vme) with
        | none => none
        | some (false, s2) => some (none, file_close s2 f)
        | some (true, s2) =>
          match spt_find_page s2 s2.cur start_addr with
          | none => none
          | some p =>
            let s3 := set_page s2 p
              { s2.pages p with mapped_page_count := total_page_count }
            do_mmap_loop f writable start_addr total_page_count fuel s3
              (u64 ((read_bytes : Int) - page_read_bytes))
              (u64 ((zero_bytes : Int) - page_zero_bytes))
              (u64 ((addr : Int) + PGSIZE))
              (i32 (u64 (offset + page_read_bytes)))
    else some (some start_addr, s)

/-- The function `do_mmap`.  The loop gets more turns than it can use. -/
def do_mmap (s : KState) (addr : Nat) (length : Nat) (writable : Bool)
    (file : Nat) (offset : Int) : Option (Option Nat × KState) :=
  let (f, s0) := file_reopen s file
  let start_addr := addr
  let total_page_count : Int :=
    if length ≤ PGSIZE then 1
    else if length % PGSIZE ≠ 0 then i32 (length / PGSIZE + 1)
    else i32 (length / PGSIZE)
  let read_bytes : Nat :=
    if u64 (file_length s0 f) < length then u64 (file_length s0 f) else length
  let zero_bytes : Nat := PGSIZE - read_bytes % PGSIZE
  if u64 ((read_bytes + zero_bytes : Nat) : Int) % PGSIZE ≠ 0 then none
  else if pg_ofs addr ≠ 0 then none
  else if offset % PGSIZE ≠ 0 then none
  else
    do_mmap_loop f writable start_addr total_page_count
      (read_bytes / PGSIZE + 2) s0 read_bytes zero_bytes addr offset

/-- The loop of `do_munmap`, with `n` turns left. -/
def do_munmap_loop (spt : Nat) : Nat → KState → Nat → Option Nat → Option KState
  | 0, s, _, _ => some s
  | n + 1, s, addr, p =>
    let r := match p with
      | some q => file_backed_destroy s q
      | none => some s
    match r with
    | none => none
    | some s1 =>
      let addr1 := u64 ((addr : Int) + PGSIZE)
      do_munmap_loop spt n s1 addr1 (spt_find_page s1 spt addr1)

/-- The function `do_munmap`. -/
def do_munmap (s : KState) (addr : Nat) : Option KState :=
  let spt := s.cur
  match spt_find_page s spt addr with
  | none => none
  | some p =>
    let count := (s.pages p).mapped_page_count
    do_munmap_loop spt count.toNat s addr (some p)

/-- The loop of `do_munmap` with the value of `addr` at the head of each of
its turns written down: the addresses the loop goes over, in order, and the
state it leaves. -/
def do_munmap_trace (spt : Nat) :
    Nat → KState → Nat → Option Nat → Option (List Nat × KState)
  | 0, s, _, _ => some ([], s)
  | n + 1, s, addr, p =>
    let r := match p with
      | some q => file_backed_destroy s q
      | none => some s
    match r with
    | none => none
    | some s1 =>
      let addr1 := u64 ((addr : Int) + PGSIZE)
      match do_munmap_trace spt n s1 addr1 (spt_find_page s1 spt addr1) with
      | none => none
      | some (l, s2) => some (addr :: l, s2)

/-- The way a system call ends: it returns a value, or the process exits. -/
inductive outcome (α : Type) where
  | ret (v : α)
  | exit (status : Int)
  deriving DecidableEq, Repr

/-- The system call `mmap`; `none` inside the result is the `NULL` return. -/
def mmap (s : KState) (addr : Nat) (length : Nat) (writable : Bool) (fd : Int)
    (offset : Int) : Option (Option Nat × KState) :=
  if addr = 0 ∨ addr ≠ pg_round_down addr then some (none, s)
  else if u64 offset ≠ pg_round_down (u64 offset) then some (none, s)
  else if is_user_vaddr addr = false ∨
      is_user_vaddr (u64 ((addr : Int) + length)) = false then some (none, s)
  else if (spt_find_page s s.cur addr).isSome then some (none, s)
  else
    match process_get_file s fd with
    | none => some (none, s)
    | some f =>
      if file_length s f = 0 ∨ i32 length ≤ 0 then some (none, s)
      else do_mmap s addr length writable f offset

/-- The function `check_address`: the address if it passes, or the exit
status. -/
def check_address (addr : Nat) : outcome Unit :=
  if addr = 0 then .exit (-1)
  else if is_user_vaddr addr = false then .exit (-1)
  else .ret ()

/-- The system call `munmap`. -/
def munmap (s : KState) (addr : Nat) : Option (outcome Unit × KState) :=
  match check_address addr with
  | .exit st => some (.exit st, s)
  | .ret _ =>
    if addr % PGSIZE ≠ 0 then some (.exit (-1), s)
    else
      match do_munmap s addr with
      | none => none
      | some s1 => some (.ret (), s1)

/-! ## Sequences of table operations -/

/-- The number of pages in the table of thread `t` whose `va` is `va`. -/
def va_count (s : KState) (t : Nat) (va : Nat) : Nat :=
  ((s.spt t).filter (fun p => decide ((s.pages p).va = va))).length

/-! ## Relations between states -/

/-- Two page records that agree on every field outside the members `anon`
and `file` of the union. -/
def page_agree (a b : page) : Prop :=
  a.operations = b.operations ∧ a.va = b.va ∧ a.frame = b.frame ∧
  a.writable = b.writable ∧ a.uninit = b.uninit ∧
  a.mapped_page_count = b.mapped_page_count

/-! ## Mutual consistency of pages and frames -/

/-- Mutual consistency: a frame of the frame table that names a page is
named by that page. -/
def consistent (s : KState) : Prop :=
  ∀ f ∈ s.frame_table, ∀ p, (s.frames f).page = some p → (s.pages p).frame = some f

/-- Every page that a frame of the frame table names, and every page of a
table, is an allocated block. -/
def allocated (s : KState) : Prop :=
  (∀ f ∈ s.frame_table, ∀ p, (s.frames f).page = some p → p < s.next) ∧
  (∀ t, ∀ e ∈ s.spt t, e < s.next)

/-- No frame of the frame table names the page `p`. -/
def unheld (s : KState) (p : Nat) : Prop :=
  ∀ f ∈ s.frame_table, (s.frames f).page ≠ some p

/-- The states reached from `s0` through completed calls of
`vm_alloc_page_with_initializer`, `vm_claim_page`, `vm_try_handle_fault`,
`vm_get_frame` and `supplemental_page_table_copy` (into the table of the
running thread) and through context switches, where `vm_claim_page` and
`vm_try_handle_fault` are only called at an address whose page no frame
holds. -/
inductive reach (s0 : KState) : KState → Prop where
  | start : reach s0 s0
  | switch {s : KState} (t : Nat) : reach s0 s → reach s0 { s with cur := t }
  | alloc {s s' : KState} {type upage : Nat} {w b : Bool}
      {init : Option vm_initializer} {aux : Option Nat} :
      reach s0 s →
      vm_alloc_page_with_initializer s type upage w init aux = some (b, s') →
      reach s0 s'
  | claim {s s' : KState} {va : Nat} {b : Bool} :
      reach s0 s →
      (∀ p, spt_find_page s s.cur va = some p → unheld s p) →
      vm_claim_page s va = some (b, s') →
      reach s0 s'
  | fault {s s' : KState} {f_rsp addr : Nat} {user write not_present b : Bool} :
      reach s0 s →
      (∀ p, spt_find_page s s.cur addr = some p → unheld s p) →
      vm_try_handle_fault s f_rsp addr user write not_present = some (b, s') →
      reach s0 s'
  | get_frame {s s' : KState} {fr : Nat} :
      reach s0 s →
      vm_get_frame s = some (fr, s') →
      reach s0 s'
  | copy {s s' : KState} {src : Nat} {b : Bool} :
      reach s0 s →
      supplemental_page_table_copy s s.cur src = some (b, s') →
      reach s0 s'

/-! ## What the victim scan reads -/

/-- The accessed bit `vm_get_victim` reads for the frame `f`: that of the
address of its page in the page table of the running thread; `none` when the
frame has no page. -/
def frame_accessed (s : KState) (f : Nat) : Option Bool :=
  match (s.frames f).page with
  | none => none
  | some p => some (pml4_is_accessed s s.cur (s.pages p).va)

/-- The pages of the two frames, when both have one, lie at different page
addresses. -/
def frames_apart (s : KState) (f g : Nat) : Prop :=
  ∀ p q, (s.frames f).page = some p → (s.frames g).page = some q →
    (s.pages p).va / PGSIZE ≠ (s.pages q).va / PGSIZE

/-- The page `p` is an uninitialized, non-resident page at `va` with the
writable flag `w`, whose deferred initialiser is `lazy_load_segment`, whose
target type is `VM_FILE` and whose argument is the `struct vm_entry` at
`vme`: a page as the loop of `do_mmap` creates it. -/
def mmap_page (s : KState) (p vme va : Nat) (w : Bool) : Prop :=
  (s.pages p).operations = .uninit_ops ∧ (s.pages p).va = va ∧
  (s.pages p).frame = none ∧ (s.pages p).writable = w ∧
  (s.pages p).uninit.init = some .lazy_load_segment ∧
  (s.pages p).uninit.type = VM_FILE ∧ (s.pages p).uninit.aux = some vme

/-- No page that the table of the running thread holds at one of the `n` page
addresses from `addr` is dirty without being file-backed: on each of them
`file_backed_destroy` returns. -/
def munmap_clean (s : KState) (addr n : Nat) : Prop :=
  ∀ i, i < n → ∀ p, spt_find_page s s.cur (addr + i * PGSIZE) = some p →
    pml4_is_dirty s s.cur (s.pages p).va = true → (s.pages p).operations = .file_ops

/-! ## Sample states -/

/-- The kernel right after `vm_init`: nothing allocated, every table empty,
one thread. -/
def boot : KState :=
  { next := 1, freed := [], pages := fun _ => default, frames := fun _ => default,
    entries := fun _ => default, cur := 0, spt := fun _ => [],
    pml4 := fun _ _ => none, rsp := fun _ => USER_STACK, fdt := fun _ _ => none,
    frame_table := [], swap_table := [], swap_size := 0,
    swap_disk := fun _ _ => 0, user_pool := [], mem := fun _ _ => 0,
    pml4_full := false, file_inode := fun _ => 0, inode_length := fun _ => 0,
    inode_data := fun _ _ => 0, closed := [], junk := false,
    garbage := fun _ => default }

/-- An uninitialized page of target type `VM_ANON` at the address `va`. -/
def sample_page (va : Nat) : page :=
  { (default : page) with va := va, uninit := { init := none, type := VM_ANON, aux := none,
                                                page_initializer := .anon_initializer } }

/-- A state whose running thread has one page, the block `3`, at `0x1000`
in its table; a freed block still reads as that page record. -/
def one_page_state : KState :=
  { boot with next := 5, pages := fun _ => sample_page 0x1000, spt := fun _ => [3],
              garbage := fun _ => sample_page 0x1000 }

/-- A state in which descriptor `3` of the running thread is an open file of
5000 bytes and no page is mapped. -/
def mmap_state : KState :=
  { boot with next := 10, fdt := fun t fd => if t = 0 ∧ fd = 3 then some 5 else none,
              file_inode := fun h => if h = 5 then 7 else 0,
              inode_length := fun i => if i = 7 then 5000 else 0,
              inode_data := fun i _ => if i = 7 then 65 else 0 }

/-- A state whose user pool has one free page, at `0x8004200000`, every byte
of which is `0xcc`, and whose frame table is empty. -/
def fresh_pool_state : KState :=
  { boot with user_pool := [0x8004200000],
              mem := fun k _ => if k = 0x8004200000 then 0xcc else 0 }

/-- A file-backed page at `va`, resident in the frame `fr`. -/
def file_page_in (va fr : Nat) : page :=
  { (default : page) with operations := .file_ops, va := va, frame := some fr }

/-- An anonymous page at `va`, resident in the frame `fr`, writable. -/
def anon_page_in (va fr : Nat) : page :=
  { (default : page) with operations := .anon_ops, va := va, frame := some fr,
                          writable := true }

/-- A state with an exhausted user pool whose frame table holds one frame,
the block `2`, in which the file-backed page `3` (at `0x1000`) is
resident. -/
def evict_file_state : KState :=
  { boot with next := 5, user_pool := [], frame_table := [2],
              frames := fun _ => { kva := 0x8004200000, page := some 3 },
              pages := fun _ => file_page_in 0x1000 2,
              spt := fun t => if t = 0 then [3] else [] }

/-- A state at `fork`: the running thread `1` has an empty table, thread `0`
has one anonymous page, the block `3` at `0x1000`, resident in the only
frame of the frame table (the block `2`), every byte of which is `7`; the
user pool is exhausted. -/
def fork_state : KState :=
  { boot with next := 5, cur := 1, user_pool := [], frame_table := [2],
              frames := fun _ => { kva := 0x8004200000, page := some 3 },
              pages := fun _ => anon_page_in 0x1000 2,
              spt := fun t => if t = 0 then [3] else [],
              mem := fun k _ => if k = 0x8004200000 then 7 else 0,
              swap_size := 4 }

/-- A state whose user pool has two free pages and whose frame table is
empty. -/
def two_pool_state : KState :=
  { boot with user_pool := [0x8004200000, 0x8004201000] }

/-- The state `two_pool_state` with a hardware page table that cannot take a
mapping, so that `pml4_set_page` fails. -/
def two_pool_full_state : KState :=
  { two_pool_state with pml4_full := true }

/-- The state after `vm_alloc_page (VM_ANON, 0x1000, 1)` in
`two_pool_state`. -/
def allocated_state : KState :=
  ((vm_alloc_page two_pool_state VM_ANON 0x1000 true).getD (false, boot)).2

/-- The state after `vm_claim_page (0x1000)` in `allocated_state`. -/
def claimed_state : KState :=
  ((vm_claim_page allocated_state 0x1000).getD (false, boot)).2

/-- The state of `fork_state` with one free page left in the user pool. -/
def fork_pool_state : KState :=
  { fork_state with user_pool := [0x8004201000] }

/-- The state after the copy of the table of thread `0` into the table of
the running thread of `fork_pool_state`. -/
def forked_state : KState :=
  ((supplemental_page_table_copy fork_pool_state 1 0).getD (false, boot)).2

/-- A page table entry whose accessed bit is set. -/
def accessed_pte : pte :=
  { kva := 0, writable := true, accessed := true, dirty := false }

/-- A state whose frame table holds the frames `2` and `4`, with the
anonymous pages `3` (at `0x1000`) and `5` (at `0x2000`) resident, both with
the accessed bit set in the page table of the running thread. -/
def accessed_state : KState :=
  { boot with next := 9, frame_table := [2, 4],
              frames := fun f => if f = 2 then { kva := 0x8004200000, page := some 3 }
                                 else { kva := 0x8004201000, page := some 5 },
              pages := fun p => if p = 3 then anon_page_in 0x1000 2 else anon_page_in 0x2000 4,
              pml4 := fun _ _ => some accessed_pte }

/-- A state whose frame table holds the frames `2`, `4` and `6`: the pages
`3` and `5` of the first two both lie at `0x1000`, whose accessed bit is set
in the page table of the running thread, and the frame `6` has no page. -/
def alias_state : KState :=
  { boot with next := 9, frame_table := [2, 4, 6],
              frames := fun f => if f = 2 then { kva := 0x8004200000, page := some 3 }
                                 else if f = 4 then { kva := 0x8004201000, page := some 5 }
                                 else { kva := 0x8004202000, page := none },
              pages := fun p => if p = 3 then anon_page_in 0x1000 2 else anon_page_in 0x1000 4,
              pml4 := fun _ _ => some accessed_pte }

/-- The state `accessed_state` with a third frame, `6`, that has no page. -/
def second_chance_state : KState :=
  { accessed_state with frame_table := [2, 4, 6],
                        frames := fun f => if f = 2 then { kva := 0x8004200000, page := some 3 }
                                 else if f = 4 then { kva := 0x8004201000, page := some 5 }
                                 else { kva := 0x8004202000, page := none } }

/-- The state `mmap_state` in which the running thread has one page, the
block `3`, at `0x2000` in its table. -/
def overlap_state : KState :=
  { mmap_state with pages := fun _ => sample_page 0x2000,
                    spt := fun t => if t = 0 then [3] else [] }

/-- An uninitialized, writable page at `va` whose target type is
`VM_ANON | VM_MARKER_0`, as `vm_stack_growth` allocates it. -/
def stack_page (va : Nat) : page :=
  { (default : page) with va := va, writable := true,
                          uninit := { init := none, type := VM_ANON ||| VM_MARKER_0,
                                      aux := none,
                                      page_initializer := .anon_initializer } }

/-- A state at `fork`: the running thread `1` has an empty table and thread
`0` has one page, the block `3`, uninitialized at `0x1000` with the target
type `VM_ANON | VM_MARKER_0`. -/
def lazy_fork_state : KState :=
  { boot with next := 5, cur := 1, pages := fun _ => stack_page 0x1000,
              spt := fun t => if t = 0 then [3] else [] }

/-- The state `lazy_fork_state` in which the table of the running thread `1`
already holds a page, the block `4`, at `0x1000`. -/
def occupied_fork_state : KState :=
  { lazy_fork_state with spt := fun t => if t = 0 then [3] else [4] }

/-- A page table entry whose dirty bit is set. -/
def dirty_pte : pte :=
  { kva := 0x8004200000, writable := true, accessed := true, dirty := true }

/-- The state `mmap_state` in which the running thread has one anonymous
page, the block `3`, at `0x4000`, resident and dirty. -/
def dirty_anon_state : KState :=
  { mmap_state with pages := fun _ => anon_page_in 0x4000 2,
                    spt := fun t => if t = 0 then [3] else [],
                    pml4 := fun t n => if t = 0 ∧ n = 4 then some dirty_pte else none }

theorem page_eq_iff (a b : page) :
    (!page_less a b && !page_less b a) = true ↔ a.va = b.va := by
  simp only [page_less, Bool.and_eq_true, Bool.not_eq_true', decide_eq_false_iff_not]
  omega

theorem hash_find_some {pages : Nat → page} {h : List Nat} {key : page} {e : Nat}
    (hf : hash_find pages h key = some e) : e ∈ h ∧ (pages e).va = key.va := by
  unfold hash_find at hf
  have h1 := List.find?_some hf
  exact ⟨List.mem_of_find?_eq_some hf, (page_eq_iff _ _).1 h1⟩

theorem hash_find_none {pages : Nat → page} {h : List Nat} {key : page} :
    hash_find pages h key = none ↔ ∀ e ∈ h, (pages e).va ≠ key.va := by
  unfold hash_find
  rw [List.find?_eq_none]
  constructor
  · intro hn e he hva
    exact hn e he ((page_eq_iff _ _).2 hva)
  · intro hn e he hva
    exact hn e he ((page_eq_iff _ _).1 hva)

/-- The search depends on the table and on the addresses of its pages only. -/
theorem hash_find_congr {pages pages' : Nat → page} {h : List Nat} {key key' : page}
    (hp : ∀ e ∈ h, (pages' e).va = (pages e).va) (hk : key'.va = key.va) :
    hash_find pages' h key' = hash_find pages h key := by
  unfold hash_find
  induction h with
  | nil => rfl
  | cons a t ih =>
    have ha := hp a (List.mem_cons_self _ _)
    have iht := ih (fun e he => hp e (List.mem_cons_of_mem _ he))
    simp only [page_less, hk] at iht
    simp only [List.find?_cons, page_less, ha, hk]
    split
    · rfl
    · exact iht

theorem spt_find_page_eq (s : KState) (spt va : Nat) :
    spt_find_page s spt va
      = hash_find s.pages (s.spt spt) { (default : page) with va := pg_round_down va } := by
  unfold spt_find_page
  simp only []
  split <;> simp_all

theorem set_spt_self (s : KState) (t : Nat) : set_spt s t (s.spt t) = s := by
  cases s
  simp only [set_spt, KState.mk.injEq, and_true, true_and]
  funext u
  split
  · next h => rw [h]
  · rfl

/-! ## The fields each primitive leaves alone -/

@[simp] theorem set_page_next (s : KState) (p : Nat) (v : page) :
    (set_page s p v).next = s.next := rfl

@[simp] theorem set_page_frames (s : KState) (p : Nat) (v : page) :
    (set_page s p v).frames = s.frames := rfl

@[simp] theorem set_page_cur (s : KState) (p : Nat) (v : page) :
    (set_page s p v).cur = s.cur := rfl

@[simp] theorem set_page_spt (s : KState) (p : Nat) (v : page) :
    (set_page s p v).spt = s.spt := rfl

@[simp] theorem set_page_frame_table (s : KState) (p : Nat) (v : page) :
    (set_page s p v).frame_table = s.frame_table := rfl

@[simp] theorem set_page_user_pool (s : KState) (p : Nat) (v : page) :
    (set_page s p v).user_pool = s.user_pool := rfl

@[simp] theorem set_page_mem (s : KState) (p : Nat) (v : page) :
    (set_page s p v).mem = s.mem := rfl

@[simp] theorem set_frame_next (s : KState) (fp : Nat) (v : frame) :
    (set_frame s fp v).next = s.next := rfl

@[simp] theorem set_frame_pages (s : KState) (fp : Nat) (v : frame) :
    (set_frame s fp v).pages = s.pages := rfl

@[simp] theorem set_frame_cur (s : KState) (fp : Nat) (v : frame) :
    (set_frame s fp v).cur = s.cur := rfl

@[simp] theorem set_frame_spt (s : KState) (fp : Nat) (v : frame) :
    (set_frame s fp v).spt = s.spt := rfl

@[simp] theorem set_frame_frame_table (s : KState) (fp : Nat) (v : frame) :
    (set_frame s fp v).frame_table = s.frame_table := rfl

@[simp] theorem set_frame_user_pool (s : KState) (fp : Nat) (v : frame) :
    (set_frame s fp v).user_pool = s.user_pool := rfl

@[simp] theorem set_frame_mem (s : KState) (fp : Nat) (v : frame) :
    (set_frame s fp v).mem = s.mem := rfl

@[simp] theorem set_entry_next (s : KState) (e : Nat) (v : vm_entry) :
    (set_entry s e v).next = s.next := rfl

@[simp] theorem set_entry_pages (s : KState) (e : Nat) (v : vm_entry) :
    (set_entry s e v).pages = s.pages := rfl

@[simp] theorem set_entry_frames (s : KState) (e : Nat) (v : vm_entry) :
    (set_entry s e v).frames = s.frames := rfl

@[simp] theorem set_entry_cur (s : KState) (e : Nat) (v : vm_entry) :
    (set_entry s e v).cur = s.cur := rfl

@[simp] theorem set_entry_spt (s : KState) (e : Nat) (v : vm_entry) :
    (set_entry s e v).spt = s.spt := rfl

@[simp] theorem set_entry_frame_table (s : KState) (e : Nat) (v : vm_entry) :
    (set_entry s e v).frame_table = s.frame_table := rfl

@[simp] theorem set_entry_user_pool (s : KState) (e : Nat) (v : vm_entry) :
    (set_entry s e v).user_pool = s.user_pool := rfl

@[simp] theorem set_entry_mem (s : KState) (e : Nat) (v : vm_entry) :
    (set_entry s e v).mem = s.mem := rfl

@[simp] theorem set_spt_next (s : KState) (t : Nat) (h : List Nat) :
    (set_spt s t h).next = s.next := rfl

@[simp] theorem set_spt_pages (s : KState) (t : Nat) (h : List Nat) :
    (set_spt s t h).pages = s.pages := rfl

@[simp] theorem set_spt_frames (s : KState) (t : Nat) (h : List Nat) :
    (set_spt s t h).frames = s.frames := rfl

@[simp] theorem set_spt_cur (s : KState) (t : Nat) (h : List Nat) :
    (set_spt s t h).cur = s.cur := rfl

@[simp] theorem set_spt_frame_table (s : KState) (t : Nat) (h : List Nat) :
    (set_spt s t h).frame_table = s.frame_table := rfl

@[simp] theorem set_spt_user_pool (s : KState) (t : Nat) (h : List Nat) :
    (set_spt s t h).user_pool = s.user_pool := rfl

@[simp] theorem set_spt_mem (s : KState) (t : Nat) (h : List Nat) :
    (set_spt s t h).mem = s.mem := rfl

@[simp] theorem free_next (s : KState) (p : Nat) :
    (free s p).next = s.next := rfl

@[simp] theorem free_pages_same (s : KState) (p : Nat) :
    (free s p).pages p = s.garbage p := by
  simp [free]

theorem free_pages_other (s : KState) (p q : Nat) (h : q ≠ p) :
    (free s p).pages q = s.pages q := by
  simp [free, h]

@[simp] theorem free_frames (s : KState) (p : Nat) :
    (free s p).frames = s.frames := rfl

@[simp] theorem free_cur (s : KState) (p : Nat) :
    (free s p).cur = s.cur := rfl

@[simp] theorem free_spt (s : KState) (p : Nat) :
    (free s p).spt = s.spt := rfl

@[simp] theorem free_frame_table (s : KState) (p : Nat) :
    (free s p).frame_table = s.frame_table := rfl

@[simp] theorem free_user_pool (s : KState) (p : Nat) :
    (free s p).user_pool = s.user_pool := rfl

@[simp] theorem free_mem (s : KState) (p : Nat) :
    (free s p).mem = s.mem := rfl

@[simp] theorem pml4_put_next (s : KState) (t va : Nat) (e : Option pte) :
    (pml4_put s t va e).next = s.next := rfl

@[simp] theorem pml4_put_pages (s : KState) (t va : Nat) (e : Option pte) :
    (pml4_put s t va e).pages = s.pages := rfl

@[simp] theorem pml4_put_frames (s : KState) (t va : Nat) (e : Option pte) :
    (pml4_put s t va e).frames = s.frames := rfl

@[simp] theorem pml4_put_cur (s : KState) (t va : Nat) (e : Option pte) :
    (pml4_put s t va e).cur = s.cur := rfl

@[simp] theorem pml4_put_spt (s : KState) (t va : Nat) (e : Option pte) :
    (pml4_put s t va e).spt = s.spt := rfl

@[simp] theorem pml4_put_frame_table (s : KState) (t va : Nat) (e : Option pte) :
    (pml4_put s t va e).frame_table = s.frame_table := rfl

@[simp] theorem pml4_put_user_pool (s : KState) (t va : Nat) (e : Option pte) :
    (pml4_put s t va e).user_pool = s.user_pool := rfl

@[simp] theorem pml4_put_mem (s : KState) (t va : Nat) (e : Option pte) :
    (pml4_put s t va e).mem = s.mem := rfl

@[simp] theorem pml4_clear_page_next (s : KState) (t va : Nat) :
    (pml4_clear_page s t va).next = s.next := rfl

@[simp] theorem pml4_clear_page_pages (s : KState) (t va : Nat) :
    (pml4_clear_page s t va).pages = s.pages := rfl

@[simp] theorem pml4_clear_page_frames (s : KState) (t va : Nat) :
    (pml4_clear_page s t va).frames = s.frames := rfl

@[simp] theorem pml4_clear_page_cur (s : KState) (t va : Nat) :
    (pml4_clear_page s t va).cur = s.cur := rfl

@[simp] theorem pml4_clear_page_spt (s : KState) (t va : Nat) :
    (pml4_clear_page s t va).spt = s.spt := rfl

@[simp] theorem pml4_clear_page_frame_table (s : KState) (t va : Nat) :
    (pml4_clear_page s t va).frame_table = s.frame_table := rfl

@[simp] theorem pml4_clear_page_user_pool (s : KState) (t va : Nat) :
    (pml4_clear_page s t va).user_pool = s.user_pool := rfl

@[simp] theorem pml4_clear_page_mem (s : KState) (t va : Nat) :
    (pml4_clear_page s t va).mem = s.mem := rfl

@[simp] theorem pml4_set_accessed_next (s : KState) (t va : Nat) (b : Bool) :
    (pml4_set_accessed s t va b).next = s.next := by unfold pml4_set_accessed; split <;> rfl

@[simp] theorem pml4_set_accessed_pages (s : KState) (t va : Nat) (b : Bool) :
    (pml4_set_accessed s t va b).pages = s.pages := by unfold pml4_set_accessed; split <;> rfl

@[simp] theorem pml4_set_accessed_frames (s : KState) (t va : Nat) (b : Bool) :
    (pml4_set_accessed s t va b).frames = s.frames := by unfold pml4_set_accessed; split <;> rfl

@[simp] theorem pml4_set_accessed_cur (s : KState) (t va : Nat) (b : Bool) :
    (pml4_set_accessed s t va b).cur = s.cur := by unfold pml4_set_accessed; split <;> rfl

@[simp] theorem pml4_set_accessed_spt (s : KState) (t va : Nat) (b : Bool) :
    (pml4_set_accessed s t va b).spt = s.spt := by unfold pml4_set_accessed; split <;> rfl

@[simp] theorem pml4_set_accessed_frame_table (s : KState) (t va : Nat) (b : Bool) :
    (pml4_set_accessed s t va b).frame_table = s.frame_table := by unfold pml4_set_accessed; split <;> rfl

@[simp] theorem pml4_set_accessed_user_pool (s : KState) (t va : Nat) (b : Bool) :
    (pml4_set_accessed s t va b).user_pool = s.user_pool := by unfold pml4_set_accessed; split <;> rfl

@[simp] theorem pml4_set_accessed_mem (s : KState) (t va : Nat) (b : Bool) :
    (pml4_set_accessed s t va b).mem = s.mem := by unfold pml4_set_accessed; split <;> rfl

@[simp] theorem pml4_set_dirty_next (s : KState) (t va : Nat) (b : Bool) :
    (pml4_set_dirty s t va b).next = s.next := by unfold pml4_set_dirty; split <;> rfl

@[simp] theorem pml4_set_dirty_pages (s : KState) (t va : Nat) (b : Bool) :
    (pml4_set_dirty s t va b).pages = s.pages := by unfold pml4_set_dirty; split <;> rfl

@[simp] theorem pml4_set_dirty_frames (s : KState) (t va : Nat) (b : Bool) :
    (pml4_set_dirty s t va b).frames = s.frames := by unfold pml4_set_dirty; split <;> rfl

@[simp] theorem pml4_set_dirty_cur (s : KState) (t va : Nat) (b : Bool) :
    (pml4_set_dirty s t va b).cur = s.cur := by unfold pml4_set_dirty; split <;> rfl

@[simp] theorem pml4_set_dirty_spt (s : KState) (t va : Nat) (b : Bool) :
    (pml4_set_dirty s t va b).spt = s.spt := by unfold pml4_set_dirty; split <;> rfl

@[simp] theorem pml4_set_dirty_frame_table (s : KState) (t va : Nat) (b : Bool) :
    (pml4_set_dirty s t va b).frame_table = s.frame_table := by unfold pml4_set_dirty; split <;> rfl

@[simp] theorem pml4_set_dirty_user_pool (s : KState) (t va : Nat) (b : Bool) :
    (pml4_set_dirty s t va b).user_pool = s.user_pool := by unfold pml4_set_dirty; split <;> rfl

@[simp] theorem pml4_set_dirty_mem (s : KState) (t va : Nat) (b : Bool) :
    (pml4_set_dirty s t va b).mem = s.mem := by unfold pml4_set_dirty; split <;> rfl

@[simp] theorem memset_zero_next (s : KState) (kva : Nat) :
    (memset_zero s kva).next = s.next := rfl

@[simp] theorem memset_zero_pages (s : KState) (kva : Nat) :
    (memset_zero s kva).pages = s.pages := rfl

@[simp] theorem memset_zero_frames (s : KState) (kva : Nat) :
    (memset_zero s kva).frames = s.frames := rfl

@[simp] theorem memset_zero_cur (s : KState) (kva : Nat) :
    (memset_zero s kva).cur = s.cur := rfl

@[simp] theorem memset_zero_spt (s : KState) (kva : Nat) :
    (memset_zero s kva).spt = s.spt := rfl

@[simp] theorem memset_zero_frame_table (s : KState) (kva : Nat) :
    (memset_zero s kva).frame_table = s.frame_table := rfl

@[simp] theorem memset_zero_user_pool (s : KState) (kva : Nat) :
    (memset_zero s kva).user_pool = s.user_pool := rfl

@[simp] theorem memcpy_page_next (s : KState) (dst src : Nat) :
    (memcpy_page s dst src).next = s.next := rfl

@[simp] theorem memcpy_page_pages (s : KState) (dst src : Nat) :
    (memcpy_page s dst src).pages = s.pages := rfl

@[simp] theorem memcpy_page_frames (s : KState) (dst src : Nat) :
    (memcpy_page s dst src).frames = s.frames := rfl

@[simp] theorem memcpy_page_cur (s : KState) (dst src : Nat) :
    (memcpy_page s dst src).cur = s.cur := rfl

@[simp] theorem memcpy_page_spt (s : KState) (dst src : Nat) :
    (memcpy_page s dst src).spt = s.spt := rfl

@[simp] theorem memcpy_page_frame_table (s : KState) (dst src : Nat) :
    (memcpy_page s dst src).frame_table = s.frame_table := rfl

@[simp] theorem memcpy_page_user_pool (s : KState) (dst src : Nat) :
    (memcpy_page s dst src).user_pool = s.user_pool := rfl

@[simp] theorem file_write_at_next (s : KState) (f buf size : Nat) (ofs : Int) :
    (file_write_at s f buf size ofs).next = s.next := rfl

@[simp] theorem file_write_at_pages (s : KState) (f buf size : Nat) (ofs : Int) :
    (file_write_at s f buf size ofs).pages = s.pages := rfl

@[simp] theorem file_write_at_frames (s : KState) (f buf size : Nat) (ofs : Int) :
    (file_write_at s f buf size ofs).frames = s.frames := rfl

@[simp] theorem file_write_at_cur (s : KState) (f buf size : Nat) (ofs : Int) :
    (file_write_at s f buf size ofs).cur = s.cur := rfl

@[simp] theorem file_write_at_spt (s : KState) (f buf size : Nat) (ofs : Int) :
    (file_write_at s f buf size ofs).spt = s.spt := rfl

@[simp] theorem file_write_at_frame_table (s : KState) (f buf size : Nat) (ofs : Int) :
    (file_write_at s f buf size ofs).frame_table = s.frame_table := rfl

@[simp] theorem file_write_at_user_pool (s : KState) (f buf size : Nat) (ofs : Int) :
    (file_write_at s f buf size ofs).user_pool = s.user_pool := rfl

@[simp] theorem file_write_at_mem (s : KState) (f buf size : Nat) (ofs : Int) :
    (file_write_at s f buf size ofs).mem = s.mem := rfl

@[simp] theorem file_close_next (s : KState) (f : Nat) :
    (file_close s f).next = s.next := rfl

@[simp] theorem file_close_pages (s : KState) (f : Nat) :
    (file_close s f).pages = s.pages := rfl

@[simp] theorem file_close_frames (s : KState) (f : Nat) :
    (file_close s f).frames = s.frames := rfl

@[simp] theorem file_close_cur (s : KState) (f : Nat) :
    (file_close s f).cur = s.cur := rfl

@[simp] theorem file_close_spt (s : KState) (f : Nat) :
    (file_close s f).spt = s.spt := rfl

@[simp] theorem file_close_frame_table (s : KState) (f : Nat) :
    (file_close s f).frame_table = s.frame_table := rfl

@[simp] theorem file_close_user_pool (s : KState) (f : Nat) :
    (file_close s f).user_pool = s.user_pool := rfl

@[simp] theorem file_close_mem (s : KState) (f : Nat) :
    (file_close s f).mem = s.mem := rfl

@[simp] theorem set_page_pages_same (s : KState) (p : Nat) (v : page) :
    (set_page s p v).pages p = v := by simp [set_page]

theorem set_page_pages_other (s : KState) (p : Nat) (v : page) {q : Nat} (h : q ≠ p) :
    (set_page s p v).pages q = s.pages q := by simp [set_page, h]

@[simp] theorem set_frame_frames_same (s : KState) (fp : Nat) (v : frame) :
    (set_frame s fp v).frames fp = v := by simp [set_frame]

theorem set_frame_frames_other (s : KState) (fp : Nat) (v : frame) {q : Nat} (h : q ≠ fp) :
    (set_frame s fp v).frames q = s.frames q := by simp [set_frame, h]

@[simp] theorem set_spt_spt_same (s : KState) (t : Nat) (h : List Nat) :
    (set_spt s t h).spt t = h := by simp [set_spt]

theorem set_spt_spt_other (s : KState) (t : Nat) (h : List Nat) {u : Nat} (hu : u ≠ t) :
    (set_spt s t h).spt u = s.spt u := by simp [set_spt, hu]

@[simp] theorem free_freed (s : KState) (p : Nat) : (free s p).freed = p :: s.freed := rfl

/-! ## The supplemental page table: lookup, insertion, removal -/

theorem pg_round_down_idem (va : Nat) : pg_round_down (pg_round_down va) = pg_round_down va := by
  unfold pg_round_down PGSIZE
  omega

theorem spt_find_page_some {s : KState} {spt va e : Nat}
    (h : spt_find_page s spt va = some e) :
    e ∈ s.spt spt ∧ (s.pages e).va = pg_round_down va := by
  rw [spt_find_page_eq] at h
  exact hash_find_some h

theorem spt_find_page_none {s : KState} {spt va : Nat} :
    spt_find_page s spt va = none ↔ ∀ e ∈ s.spt spt, (s.pages e).va ≠ pg_round_down va := by
  rw [spt_find_page_eq]
  exact hash_find_none

/-- The lookup reads the table of the thread and the addresses of its pages
only. -/
theorem spt_find_page_congr {s s' : KState} {spt : Nat} (va : Nat)
    (ht : s'.spt spt = s.spt spt)
    (hp : ∀ e ∈ s.spt spt, (s'.pages e).va = (s.pages e).va) :
    spt_find_page s' spt va = spt_find_page s spt va := by
  rw [spt_find_page_eq, spt_find_page_eq, ht]
  exact hash_find_congr hp rfl

theorem spt_insert_page_fst (s : KState) (spt p : Nat) :
    (spt_insert_page s spt p).1 = (hash_find s.pages (s.spt spt) (s.pages p)).isNone := by
  unfold spt_insert_page hash_insert
  cases hash_find s.pages (s.spt spt) (s.pages p) <;> rfl

theorem spt_insert_page_snd (s : KState) (spt p : Nat) :
    (spt_insert_page s spt p).2 =
      if (hash_find s.pages (s.spt spt) (s.pages p)).isNone then set_spt s spt (p :: s.spt spt)
      else s := by
  unfold spt_insert_page hash_insert
  cases hash_find s.pages (s.spt spt) (s.pages p)
  · rfl
  · simp [set_spt_self]

/-- Claim C8.  For every supplemental page table whose pages are allocated
blocks and every address `va`, aligned or not, `spt_find_page` returns a page
of the table whose `va` is `pg_round_down va` when there is one and `NULL`
when there is none, and the call leaves every table and every allocated page
as it was (only the scratch block of the call is written). -/
theorem spt_find_page_spec (s : KState) (spt va : Nat)
    (hwf : ∀ e ∈ s.spt spt, e < s.next) :
    ∃ s', spt_find_page_heap s spt va = some (spt_find_page s spt va, s') ∧
      s'.spt = s.spt ∧ (∀ q, q < s.next → s'.pages q = s.pages q) ∧
      (∀ e, spt_find_page s spt va = some e →
          e ∈ s.spt spt ∧ (s.pages e).va = pg_round_down va) ∧
      (spt_find_page s spt va = none →
          ∀ e ∈ s.spt spt, (s.pages e).va ≠ pg_round_down va) := by
  have hkey : hash_find
      (set_page (malloc s).2 s.next
        { (malloc s).2.pages s.next with va := pg_round_down va }).pages
      (s.spt spt)
      ((set_page (malloc s).2 s.next
        { (malloc s).2.pages s.next with va := pg_round_down va }).pages s.next)
      = spt_find_page s spt va := by
    rw [spt_find_page_eq]
    apply hash_find_congr
    · intro e he
      have hlt := hwf e he
      have hne : e ≠ s.next := by omega
      simp [set_page, malloc, hne]
    · simp [set_page]
  refine ⟨free (set_page (malloc s).2 s.next
      { (malloc s).2.pages s.next with va := pg_round_down va }) s.next, ?_, rfl, ?_, ?_, ?_⟩
  · unfold spt_find_page_heap
    simp only [malloc] at hkey ⊢
    simp only [set_page] at hkey ⊢
    rw [hkey]
    cases spt_find_page s spt va <;> rfl
  · intro q hq
    have hne : q ≠ s.next := by omega
    simp [free, set_page, malloc, hne]
  · intro e he
    exact spt_find_page_some he
  · intro hn
    exact spt_find_page_none.1 hn

/-- The instance of C8 on a table that holds one page at `0x1000`, searched
with the unaligned address `0x1234`. -/
theorem spt_find_page_spec_witness :
    (∀ e ∈ one_page_state.spt 0, e < one_page_state.next) ∧
    ∃ s', spt_find_page_heap one_page_state 0 0x1234
        = some (spt_find_page one_page_state 0 0x1234, s') ∧
      s'.spt = one_page_state.spt ∧
      (∀ q, q < one_page_state.next → s'.pages q = one_page_state.pages q) ∧
      (∀ e, spt_find_page one_page_state 0 0x1234 = some e →
          e ∈ one_page_state.spt 0 ∧ (one_page_state.pages e).va = pg_round_down 0x1234) ∧
      (spt_find_page one_page_state 0 0x1234 = none →
          ∀ e ∈ one_page_state.spt 0, (one_page_state.pages e).va ≠ pg_round_down 0x1234) :=
  ⟨by decide, spt_find_page_spec one_page_state 0 0x1234 (by decide)⟩

/-! ## Insertion, removal and the uniqueness of addresses -/

theorem pg_round_down_of_ofs {va : Nat} (h : pg_ofs va = 0) : pg_round_down va = va := by
  unfold pg_ofs PGSIZE at h
  unfold pg_round_down PGSIZE
  omega

/-- Claim C7.  For every table and every page `p` (its address page-aligned,
as the address of a page is), `spt_insert_page` returns false exactly when
the table already holds a page with the `va` of `p`, and then the state is
unchanged; otherwise it returns true, `spt_find_page` at the `va` of `p`
returns `p` afterwards, and the lookup of every address of another page is
as before. -/
theorem spt_insert_page_spec (s : KState) (spt p : Nat)
    (hal : pg_ofs (s.pages p).va = 0) :
    ((spt_insert_page s spt p).1 = false ↔
        ∃ e ∈ s.spt spt, (s.pages e).va = (s.pages p).va) ∧
    ((spt_insert_page s spt p).1 = false → (spt_insert_page s spt p).2 = s) ∧
    ((spt_insert_page s spt p).1 = true →
        spt_find_page (spt_insert_page s spt p).2 spt (s.pages p).va = some p ∧
        ∀ va, pg_round_down va ≠ (s.pages p).va →
          spt_find_page (spt_insert_page s spt p).2 spt va = spt_find_page s spt va) := by
  rw [spt_insert_page_fst, spt_insert_page_snd]
  cases hf : hash_find s.pages (s.spt spt) (s.pages p) with
  | none =>
    have hn := hash_find_none.1 hf
    refine ⟨?_, ?_, ?_⟩
    · simp only [Option.isNone_none, Bool.true_eq_false, false_iff, not_exists, not_and]
      intro e he
      exact hn e he
    · intro h; simp at h
    · intro _
      simp only [Option.isNone_none, if_true]
      constructor
      · rw [spt_find_page_eq]
        simp only [set_spt_spt_same, set_spt_pages, hash_find, List.find?_cons,
          pg_round_down_of_ofs hal, page_less, Nat.lt_irrefl, decide_False, Bool.not_false,
          Bool.and_self]
      · intro va hva
        rw [spt_find_page_eq, spt_find_page_eq]
        simp only [set_spt_spt_same, set_spt_pages, hash_find, List.find?_cons, page_less]
        have : (!decide ((s.pages p).va < pg_round_down va)
            && !decide (pg_round_down va < (s.pages p).va)) = false := by
          simp only [Bool.and_eq_false_imp, Bool.not_eq_true', decide_eq_false_iff_not,
            Bool.not_eq_false', decide_eq_true_eq]
          omega
        rw [this]
  | some e =>
    have hs := hash_find_some hf
    refine ⟨?_, ?_, ?_⟩
    · simp only [Option.isNone_some, true_iff]
      exact ⟨e, hs.1, hs.2⟩
    · intro _; simp
    · intro h; simp at h

/-- The instance of C7 for the block `4` (a page at `0x1000`) and a table
that already holds the block `3` at `0x1000`. -/
theorem spt_insert_page_spec_witness :
    pg_ofs (one_page_state.pages 4).va = 0 ∧
    (((spt_insert_page one_page_state 0 4).1 = false ↔
        ∃ e ∈ one_page_state.spt 0,
          (one_page_state.pages e).va = (one_page_state.pages 4).va) ∧
    ((spt_insert_page one_page_state 0 4).1 = false →
        (spt_insert_page one_page_state 0 4).2 = one_page_state) ∧
    ((spt_insert_page one_page_state 0 4).1 = true →
        spt_find_page (spt_insert_page one_page_state 0 4).2 0
          (one_page_state.pages 4).va = some 4 ∧
        ∀ va, pg_round_down va ≠ (one_page_state.pages 4).va →
          spt_find_page (spt_insert_page one_page_state 0 4).2 0 va
            = spt_find_page one_page_state 0 va)) :=
  ⟨by decide, spt_insert_page_spec one_page_state 0 4 (by decide)⟩

/-- Claim C5, on the code.  After `spt_remove_page` of the one page of a
table the page is freed, yet the table still holds it and `spt_find_page` at
its address still returns it. -/
theorem spt_remove_page_keeps_entry :
    (spt_remove_page one_page_state 0 (some 3)).spt 0 = [3] ∧
    (spt_remove_page one_page_state 0 (some 3)).freed = [3] ∧
    spt_find_page (spt_remove_page one_page_state 0 (some 3)) 0 0x1000 = some 3 := by
  decide

/-- An insertion alone keeps the addresses of a table distinct: `hash_insert`
refuses a page whose `va` the table already holds. -/
theorem va_count_insert (s : KState) (t p : Nat)
    (h : ∀ va, va_count s t va ≤ 1) (va : Nat) :
    va_count (spt_insert_page s t p).2 t va ≤ 1 := by
  rw [spt_insert_page_snd]
  cases hf : hash_find s.pages (s.spt t) (s.pages p) with
  | some e => simpa using h va
  | none =>
    have hn := hash_find_none.1 hf
    simp only [Option.isNone_none, if_true, va_count, set_spt_spt_same, set_spt_pages,
      List.filter_cons]
    by_cases hva : (s.pages p).va = va
    · have hz : (s.spt t).filter (fun q => decide ((s.pages q).va = va)) = [] := by
        rw [List.filter_eq_nil_iff]
        intro e he
        simp only [decide_eq_true_eq]
        rw [← hva]
        exact hn e he
      simp [hva, hz]
    · simpa [hva, va_count] using h va

/-- Claim C1, on the code.  `mmap (0x2000, 3 * 4096, 0, fd, 0)` on a file of
5000 bytes succeeds with `0x2000`, yet the table then holds two pages, at
`0x3000` and `0x2000`, and none at `0x4000`, while the page at `0x2000`
records a `mapped_page_count` of 3. -/
theorem mmap_scenario_two_pages :
    (mmap mmap_state 0x2000 (3 * 4096) false 3 0).map
      (fun r => (r.1, (r.2.spt 0).map (fun p => (r.2.pages p).va),
                 spt_find_page r.2 0 0x4000,
                 (spt_find_page r.2 0 0x2000).map
                   (fun p => (r.2.pages p).mapped_page_count)))
      = some (some 0x2000, [0x3000, 0x2000], none, some 3) := by
  decide

/-- Claim C2, on the code.  After `mmap` of the 5000 bytes of a file at
`0x2000` and `munmap (0x2000)`, both calls returning, `spt_find_page` still
finds a page at `0x2000` and at `0x3000`, and no block was freed. -/
theorem munmap_leaves_entries :
    (mmap mmap_state 0x2000 5000 false 3 0).bind
      (fun r => (munmap r.2 0x2000).map
        (fun q => (r.1, q.1, (spt_find_page q.2 0 0x2000).isSome,
                   (spt_find_page q.2 0 0x3000).isSome, q.2.freed)))
      = some (some 0x2000, .ret (), true, true, []) := by
  decide

/-! ## Effects of eviction -/

theorem page_agree_refl (a : page) : page_agree a a :=
  ⟨rfl, rfl, rfl, rfl, rfl, rfl⟩

theorem page_agree_trans {a b c : page} (h1 : page_agree a b) (h2 : page_agree b c) :
    page_agree a c :=
  ⟨h1.1.trans h2.1, h1.2.1.trans h2.2.1, h1.2.2.1.trans h2.2.2.1,
   h1.2.2.2.1.trans h2.2.2.2.1, h1.2.2.2.2.1.trans h2.2.2.2.2.1,
   h1.2.2.2.2.2.trans h2.2.2.2.2.2⟩

theorem pml4_set_accessed_state (s : KState) (t va : Nat) (b : Bool) :
    pml4_set_accessed s t va b = { s with pml4 := (pml4_set_accessed s t va b).pml4 } := by
  unfold pml4_set_accessed
  split <;> rfl

theorem with_pml4_congr {s1 s : KState} {k : Nat → Nat → Option pte}
    (h : s1 = { s with pml4 := k }) (m : Nat → Nat → Option pte) :
    { s1 with pml4 := m } = { s with pml4 := m } := by
  rw [h]

/-- The scan of the victim writes the hardware page table only. -/
theorem vm_get_victim_scan_state (l : List Nat) :
    ∀ (s : KState) (v : Option Nat),
      (vm_get_victim_scan s l v).2
        = { s with pml4 := (vm_get_victim_scan s l v).2.pml4 } := by
  induction l with
  | nil => intro s v; rfl
  | cons f rest ih =>
    intro s v
    unfold vm_get_victim_scan
    split
    · rfl
    · split
      · rw [ih]
        exact with_pml4_congr (pml4_set_accessed_state _ _ _ _) _
      · rfl

/-- The victim is a frame of the scanned list, or the frame the scan started
with. -/
theorem vm_get_victim_scan_mem (l : List Nat) :
    ∀ (s : KState) (v : Option Nat) (f : Nat),
      (vm_get_victim_scan s l v).1 = some f → f ∈ l ∨ v = some f := by
  induction l with
  | nil => intro s v f h; exact Or.inr h
  | cons g rest ih =>
    intro s v f h
    unfold vm_get_victim_scan at h
    split at h
    · simp only [Option.some.injEq] at h
      subst h
      exact Or.inl (List.mem_cons_self _ _)
    · split at h
      · rcases ih _ _ _ h with hm | hv
        · exact Or.inl (List.mem_cons_of_mem _ hm)
        · simp only [Option.some.injEq] at hv
          subst hv
          exact Or.inl (List.mem_cons_self _ _)
      · simp only [Option.some.injEq] at h
        subst h
        exact Or.inl (List.mem_cons_self _ _)

theorem vm_get_victim_state (s : KState) :
    (vm_get_victim s).2 = { s with pml4 := (vm_get_victim s).2.pml4 } :=
  vm_get_victim_scan_state _ s none

theorem vm_get_victim_mem (s : KState) (f : Nat) (h : (vm_get_victim s).1 = some f) :
    f ∈ s.frame_table := by
  rcases vm_get_victim_scan_mem _ s none f h with hm | hv
  · exact hm
  · cases hv

/-- What `swap_out` leaves alone: the frames, the frame table, memory, the
heap pointer, the tables, the running thread, the user pool, and every field
of every page outside the union members. -/
theorem swap_out_effect {s s' : KState} {q : Nat} {b : Bool}
    (h : swap_out s q = some (b, s')) :
    s'.frames = s.frames ∧ s'.frame_table = s.frame_table ∧ s'.mem = s.mem ∧
    s'.next = s.next ∧ s'.spt = s.spt ∧ s'.cur = s.cur ∧
    s'.user_pool = s.user_pool ∧ (∀ x, page_agree (s'.pages x) (s.pages x)) := by
  unfold swap_out at h
  split at h
  · cases h
  · unfold anon_swap_out at h
    split at h
    · cases h
    · split at h
      · simp only [Option.some.injEq, Prod.mk.injEq] at h
        obtain ⟨-, rfl⟩ := h
        exact ⟨rfl, rfl, rfl, rfl, rfl, rfl, rfl, fun x => page_agree_refl _⟩
      · simp only [Option.some.injEq, Prod.mk.injEq] at h
        obtain ⟨-, rfl⟩ := h
        refine ⟨rfl, rfl, rfl, rfl, rfl, rfl, rfl, ?_⟩
        intro x
        by_cases hx : x = q
        · subst hx
          simp [page_agree, pml4_clear_page, set_page]
        · simp [page_agree, pml4_clear_page, set_page, hx]
  · unfold file_backed_swap_out at h
    simp only [Option.some.injEq, Prod.mk.injEq] at h
    obtain ⟨-, rfl⟩ := h
    exact ⟨rfl, rfl, rfl, rfl, rfl, rfl, rfl, fun x => page_agree_refl _⟩

/-- What `vm_evict_frame` leaves alone, and where its victim comes from. -/
theorem vm_evict_frame_effect {s s' : KState} {v : Option Nat}
    (h : vm_evict_frame s = some (v, s')) :
    (∃ f, v = some f ∧ f ∈ s.frame_table) ∧
    s'.frames = s.frames ∧ s'.frame_table = s.frame_table ∧ s'.mem = s.mem ∧
    s'.next = s.next ∧ s'.spt = s.spt ∧ s'.cur = s.cur ∧
    s'.user_pool = s.user_pool ∧ (∀ x, page_agree (s'.pages x) (s.pages x)) := by
  unfold vm_evict_frame at h
  have hst := vm_get_victim_state s
  split at h
  · cases h
  · next victim s1 hv =>
    have hmem : victim ∈ s.frame_table := vm_get_victim_mem s victim (by rw [hv])
    have hs1 : s1 = { s with pml4 := s1.pml4 } := by
      have := hst
      rw [hv] at this
      exact this
    split at h
    · next q hq =>
      split at h
      · cases h
      · next b s2 hso =>
        simp only [Option.some.injEq, Prod.mk.injEq] at h
        obtain ⟨rfl, rfl⟩ := h
        obtain ⟨e1, e2, e3, e4, e5, e6, e7, e8⟩ := swap_out_effect hso
        refine ⟨⟨victim, rfl, hmem⟩, ?_, ?_, ?_, ?_, ?_, ?_, ?_, ?_⟩
        · rw [e1, hs1]
        · rw [e2, hs1]
        · rw [e3, hs1]
        · rw [e4, hs1]
        · rw [e5, hs1]
        · rw [e6, hs1]
        · rw [e7, hs1]
        · intro x
          have := e8 x
          rw [hs1] at this
          exact this
    · simp only [Option.some.injEq, Prod.mk.injEq] at h
      obtain ⟨rfl, rfl⟩ := h
      refine ⟨⟨victim, rfl, hmem⟩, ?_, ?_, ?_, ?_, ?_, ?_, ?_, ?_⟩
      · rw [hs1]
      · rw [hs1]
      · rw [hs1]
      · rw [hs1]
      · rw [hs1]
      · rw [hs1]
      · rw [hs1]
      · intro x; rw [hs1]; exact page_agree_refl _

/-! ## Effects of `vm_get_frame` -/

theorem palloc_get_page_nil {s : KState} (h : s.user_pool = []) :
    palloc_get_page s = (none, s) := by
  unfold palloc_get_page
  rw [h]

theorem palloc_get_page_cons {s : KState} {a : Nat} {rest : List Nat}
    (h : s.user_pool = a :: rest) :
    palloc_get_page s = (some a, { s with user_pool := rest }) := by
  unfold palloc_get_page
  rw [h]

/-- The frame `vm_get_frame` returns when the user pool is exhausted: a frame
of the table, zeroed and without page; the other frames, the links of the
pages and the rest of memory are as before. -/
theorem vm_get_frame_evict_effect {s s' : KState} {fr : Nat}
    (hpool : s.user_pool = []) (h : vm_get_frame s = some (fr, s')) :
    fr ∈ s.frame_table ∧ s'.frame_table = s.frame_table ∧ s'.next = s.next ∧
    s'.spt = s.spt ∧ s'.cur = s.cur ∧ s'.user_pool = [] ∧
    s'.frames fr = { kva := (s.frames fr).kva, page := none } ∧
    (∀ f, f ≠ fr → s'.frames f = s.frames f) ∧
    (∀ x, page_agree (s'.pages x) (s.pages x)) ∧
    (∀ k o, s'.mem k o = if k = (s.frames fr).kva ∧ o < PGSIZE then 0 else s.mem k o) := by
  unfold vm_get_frame at h
  rw [palloc_get_page_nil hpool] at h
  simp only [] at h
  split at h
  · cases h
  · cases h
  · next v s2 hev =>
    simp only [Option.some.injEq, Prod.mk.injEq] at h
    obtain ⟨rfl, rfl⟩ := h
    obtain ⟨⟨f, hf, hmem⟩, e1, e2, e3, e4, e5, e6, e7, e8⟩ := vm_evict_frame_effect hev
    simp only [Option.some.injEq] at hf
    subst hf
    refine ⟨hmem, ?_, ?_, ?_, ?_, ?_, ?_, ?_, ?_, ?_⟩
    · simp [e2]
    · simp [e4]
    · simp [e5]
    · simp [e6]
    · simp [e7, hpool]
    · simp [e1]
    · intro f hne
      simp [set_frame_frames_other _ _ _ hne, e1]
    · intro x
      simpa using e8 x
    · intro k o
      simp [memset_zero, e1, e3]

/-- The frame `vm_get_frame` returns when the user pool has a free page: a
fresh record for that page, appended to the frame table. -/
theorem vm_get_frame_fresh_effect {s s' : KState} {fr a : Nat} {rest : List Nat}
    (hpool : s.user_pool = a :: rest) (h : vm_get_frame s = some (fr, s')) :
    fr = s.next ∧ s'.frame_table = s.frame_table ++ [s.next] ∧ s'.next = s.next + 1 ∧
    s'.spt = s.spt ∧ s'.cur = s.cur ∧ s'.user_pool = rest ∧
    s'.frames s.next = { kva := a, page := none } ∧
    (∀ f, f ≠ s.next → s'.frames f = s.frames f) ∧
    s'.pages = s.pages ∧ s'.mem = s.mem := by
  unfold vm_get_frame at h
  rw [palloc_get_page_cons hpool] at h
  simp only [malloc, Option.some.injEq, Prod.mk.injEq] at h
  obtain ⟨rfl, rfl⟩ := h
  refine ⟨rfl, rfl, rfl, rfl, rfl, rfl, ?_, ?_, rfl, rfl⟩
  · simp [set_frame]
  · intro f hne
    simp [set_frame, hne]

/-- Claim C10, as stated, fails: the frame `2` holds the file-backed page
`3`; after its eviction the returned frame `2` has no page, but the page `3`
still names the frame `2` as its frame. -/
theorem vm_get_frame_keeps_back_reference :
    evict_file_state.user_pool = [] ∧ (evict_file_state.frames 2).page = some 3 ∧
    (vm_get_frame evict_file_state).map
      (fun r => (r.1, (r.2.frames r.1).page, (r.2.pages 3).frame))
      = some (2, none, some 2) := by
  decide

/-- Claim C10, amended.  When the user pool is exhausted and `vm_get_frame`
returns the frame `fr`, evicted while it held the page `q`, the returned
frame has `page = NULL`, and the page `q` has the `frame` field it had before
the call. -/
theorem vm_get_frame_evict_links (s s' : KState) (fr q : Nat)
    (hpool : s.user_pool = []) (h : vm_get_frame s = some (fr, s'))
    (_hq : (s.frames fr).page = some q) :
    (s'.frames fr).page = none ∧ (s'.pages q).frame = (s.pages q).frame := by
  obtain ⟨-, -, -, -, -, -, hfr, -, hpg, -⟩ := vm_get_frame_evict_effect hpool h
  exact ⟨by rw [hfr], (hpg q).2.2.1⟩

/-- The instance of the amended C10 on the frame table with the one frame
`2`, which holds the file-backed page `3`. -/
theorem vm_get_frame_evict_links_witness :
    evict_file_state.user_pool = [] ∧
    vm_get_frame evict_file_state
      = some (2, ((vm_get_frame evict_file_state).getD (0, boot)).2) ∧
    (evict_file_state.frames 2).page = some 3 ∧
    ((((vm_get_frame evict_file_state).getD (0, boot)).2.frames 2).page = none ∧
     (((vm_get_frame evict_file_state).getD (0, boot)).2.pages 3).frame
       = (evict_file_state.pages 3).frame) :=
  ⟨rfl, rfl, rfl,
   vm_get_frame_evict_links evict_file_state ((vm_get_frame evict_file_state).getD (0, boot)).2 2 3
     rfl rfl rfl⟩

/-! ## Effects of page allocation -/

/-- The state a successful `vm_alloc_page_with_initializer` leaves: only the
heap pointer, the fresh block and the table of the running thread change;
the fresh block holds the new uninitialized page, which heads that table. -/
theorem vm_alloc_true {s s1 : KState} {type upage : Nat} {w : Bool}
    {init : Option vm_initializer} {aux : Option Nat}
    (h : vm_alloc_page_with_initializer s type upage w init aux = some (true, s1)) :
    spt_find_page s s.cur upage = none ∧
    (∀ e ∈ s.spt s.cur, (s.pages e).va ≠ upage) ∧
    s1 = { s with next := s.next + 1, pages := s1.pages, spt := s1.spt } ∧
    s1.spt s.cur = s.next :: s.spt s.cur ∧
    (∀ t, t ≠ s.cur → s1.spt t = s.spt t) ∧
    (∀ x, x ≠ s.next → s1.pages x = s.pages x) ∧
    ∃ pi, (VM_TYPE type = VM_ANON → pi = page_initializer.anon_initializer) ∧
      s1.pages s.next =
        { operations := .uninit_ops, va := upage, frame := none, writable := w,
          mapped_page_count := 0,
          uninit := { init := init, type := type, aux := aux, page_initializer := pi },
          anon := { slot_num := 0 },
          file := { file := 0, offset := 0, read_bytes := 0, zero_bytes := 0 } } := by
  unfold vm_alloc_page_with_initializer at h
  split at h
  · cases h
  · split at h
    · simp at h
    · next hfind =>
      simp only [malloc] at h
      split at h
      · cases h
      · next pi hpi =>
        simp only [Option.some.injEq] at h
        rw [Prod.ext_iff] at h
        obtain ⟨h1, h2⟩ := h
        rw [spt_insert_page_fst] at h1
        rw [spt_insert_page_snd] at h2
        simp only [h1, if_true] at h2
        simp only [Option.isNone_iff_eq_none] at h1
        have hn := hash_find_none.1 h1
        subst h2
        refine ⟨hfind, ?_, rfl, ?_, ?_, ?_, pi, ?_, ?_⟩
        · intro e he
          have := hn e (by simpa [uninit_new] using he)
          by_cases hes : e = s.next
          · subst hes; intro _; simp [uninit_new] at this
          · simpa [uninit_new, set_page, hes] using this
        · simp [uninit_new]
        · intro t ht
          simp [uninit_new, set_spt, ht]
        · intro x hx
          simp [uninit_new, set_page, hx]
        · intro ha
          simp only [ha, if_true, Option.some.injEq] at hpi
          exact hpi.symm
        · simp [uninit_new, set_page]

/-! ## Effects of a claim -/

theorem set_page_links (t : KState) (p : Nat) (v : page)
    (h1 : v.va = (t.pages p).va) (h2 : v.frame = (t.pages p).frame) (x : Nat) :
    ((set_page t p v).pages x).va = (t.pages x).va ∧
      ((set_page t p v).pages x).frame = (t.pages x).frame := by
  by_cases hx : x = p
  · subst hx; simp [h1, h2]
  · simp [set_page_pages_other _ _ _ hx]

theorem lazy_load_segment_effect {t t' : KState} {p : Nat} {a : Option Nat} {c : Bool}
    (hl : lazy_load_segment t p a = some (c, t')) :
    t'.frames = t.frames ∧ t'.frame_table = t.frame_table ∧ t'.next = t.next ∧
    t'.spt = t.spt ∧ t'.cur = t.cur ∧ t'.user_pool = t.user_pool ∧ t'.pages = t.pages := by
  unfold lazy_load_segment at hl
  split at hl
  · dsimp only at hl
    split at hl
    · simp only [Option.some.injEq, Prod.mk.injEq] at hl
      obtain ⟨-, rfl⟩ := hl
      exact ⟨rfl, rfl, rfl, rfl, rfl, rfl, rfl⟩
    · simp only [Option.some.injEq, Prod.mk.injEq] at hl
      obtain ⟨-, rfl⟩ := hl
      exact ⟨rfl, rfl, rfl, rfl, rfl, rfl, rfl⟩
  · cases hl

theorem anon_initializer_effect {s t : KState} {p ty : Nat} {kva : Option Nat} {c : Bool}
    (h : anon_initializer s p ty kva = some (c, t)) :
    t.frames = s.frames ∧ t.frame_table = s.frame_table ∧ t.next = s.next ∧
    t.spt = s.spt ∧ t.cur = s.cur ∧ t.user_pool = s.user_pool ∧
    (∀ x, (t.pages x).va = (s.pages x).va ∧ (t.pages x).frame = (s.pages x).frame) := by
  simp only [anon_initializer, Option.some.injEq, Prod.mk.injEq] at h
  obtain ⟨-, rfl⟩ := h
  cases kva with
  | none => exact ⟨rfl, rfl, rfl, rfl, rfl, rfl, set_page_links s _ _ rfl rfl⟩
  | some k => exact ⟨rfl, rfl, rfl, rfl, rfl, rfl, set_page_links (memset_zero s k) _ _ rfl rfl⟩

theorem file_backed_initializer_effect {s t : KState} {p ty : Nat} {kva : Option Nat}
    {c : Bool} (h : file_backed_initializer s p ty kva = some (c, t)) :
    t.frames = s.frames ∧ t.frame_table = s.frame_table ∧ t.next = s.next ∧
    t.spt = s.spt ∧ t.cur = s.cur ∧ t.user_pool = s.user_pool ∧
    (∀ x, (t.pages x).va = (s.pages x).va ∧ (t.pages x).frame = (s.pages x).frame) := by
  unfold file_backed_initializer at h
  split at h
  · cases h
  · simp only [Option.some.injEq, Prod.mk.injEq] at h
    obtain ⟨-, rfl⟩ := h
    exact ⟨rfl, rfl, rfl, rfl, rfl, rfl, set_page_links s _ _ rfl rfl⟩

/-- What `swap_in` leaves alone: the frames, the frame table, the heap
pointer, the tables, the running thread, the user pool, and the address and
the frame of every page. -/
theorem swap_in_effect {s s' : KState} {p kva : Nat} {b : Bool}
    (h : swap_in s p kva = some (b, s')) :
    s'.frames = s.frames ∧ s'.frame_table = s.frame_table ∧ s'.next = s.next ∧
    s'.spt = s.spt ∧ s'.cur = s.cur ∧ s'.user_pool = s.user_pool ∧
    (∀ x, (s'.pages x).va = (s.pages x).va ∧ (s'.pages x).frame = (s.pages x).frame) := by
  have hcont : ∀ (r : Option (Bool × KState)),
      (∀ c t, r = some (c, t) →
        t.frames = s.frames ∧ t.frame_table = s.frame_table ∧ t.next = s.next ∧
        t.spt = s.spt ∧ t.cur = s.cur ∧ t.user_pool = s.user_pool ∧
        (∀ x, (t.pages x).va = (s.pages x).va ∧ (t.pages x).frame = (s.pages x).frame)) →
      (match r with
        | none => none
        | some (false, s1) => some (false, s1)
        | some (true, s1) =>
          match (s.pages p).uninit.init with
          | none => some (true, s1)
          | some .lazy_load_segment => lazy_load_segment s1 p (s.pages p).uninit.aux)
        = some (b, s') →
      s'.frames = s.frames ∧ s'.frame_table = s.frame_table ∧ s'.next = s.next ∧
        s'.spt = s.spt ∧ s'.cur = s.cur ∧ s'.user_pool = s.user_pool ∧
        (∀ x, (s'.pages x).va = (s.pages x).va ∧ (s'.pages x).frame = (s.pages x).frame) := by
    intro r hr hm
    cases r with
    | none => cases hm
    | some ct =>
      obtain ⟨c, t⟩ := ct
      have e := hr c t rfl
      cases c with
      | false =>
        simp only [Option.some.injEq, Prod.mk.injEq] at hm
        obtain ⟨-, rfl⟩ := hm
        exact e
      | true =>
        simp only at hm
        cases hi : (s.pages p).uninit.init with
        | none =>
          simp only [hi, Option.some.injEq, Prod.mk.injEq] at hm
          obtain ⟨-, rfl⟩ := hm
          exact e
        | some i =>
          cases i
          simp only [hi] at hm
          obtain ⟨l1, l2, l3, l4, l5, l6, l7⟩ := lazy_load_segment_effect hm
          obtain ⟨e1, e2, e3, e4, e5, e6, e7⟩ := e
          refine ⟨l1.trans e1, l2.trans e2, l3.trans e3, l4.trans e4, l5.trans e5,
            l6.trans e6, ?_⟩
          intro x
          rw [l7]
          exact e7 x
  unfold swap_in at h
  cases hops : (s.pages p).operations with
  | uninit_ops =>
    simp only [hops] at h
    unfold uninit_swap_in at h
    dsimp only at h
    cases hpi : (s.pages p).uninit.page_initializer with
    | anon_initializer =>
      simp only [hpi] at h
      exact hcont (anon_initializer s p (s.pages p).uninit.type (some kva))
        (fun c t hr => anon_initializer_effect hr) h
    | file_backed_initializer =>
      simp only [hpi] at h
      exact hcont (file_backed_initializer s p (s.pages p).uninit.type (some kva))
        (fun c t hr => file_backed_initializer_effect hr) h
  | anon_ops =>
    simp only [hops] at h
    unfold anon_swap_in at h
    split at h
    · simp only [Option.some.injEq, Prod.mk.injEq] at h
      obtain ⟨-, rfl⟩ := h
      exact ⟨rfl, rfl, rfl, rfl, rfl, rfl, fun x => ⟨rfl, rfl⟩⟩
    · simp only [Option.some.injEq, Prod.mk.injEq] at h
      obtain ⟨-, rfl⟩ := h
      exact ⟨rfl, rfl, rfl, rfl, rfl, rfl, fun x => ⟨rfl, rfl⟩⟩
  | file_ops =>
    simp only [hops, file_backed_swap_in, Option.some.injEq, Prod.mk.injEq] at h
    obtain ⟨-, rfl⟩ := h
    exact ⟨rfl, rfl, rfl, rfl, rfl, rfl, fun x => ⟨rfl, rfl⟩⟩

theorem set_links_frames_same (s : KState) (fr p : Nat) :
    (set_links s fr p).frames fr = { s.frames fr with page := some p } := by
  simp [set_links]

theorem set_links_frames_other (s : KState) (fr p : Nat) {f : Nat} (h : f ≠ fr) :
    (set_links s fr p).frames f = s.frames f := by
  simp [set_links, set_frame_frames_other _ _ _ h]

theorem set_links_pages_same (s : KState) (fr p : Nat) :
    (set_links s fr p).pages p = { s.pages p with frame := some fr } := by
  simp [set_links]

theorem set_links_pages_other (s : KState) (fr p : Nat) {x : Nat} (h : x ≠ p) :
    (set_links s fr p).pages x = s.pages x := by
  simp [set_links, set_page_pages_other _ _ _ h]

theorem set_links_state (s : KState) (fr p : Nat) :
    set_links s fr p
      = { s with frames := (set_links s fr p).frames, pages := (set_links s fr p).pages } :=
  rfl

/-- The state in which `vm_do_claim_page` calls `swap_in`: the links are set
and the mapping is installed. -/
theorem vm_do_claim_page_inv {s s' : KState} {p : Nat} {b : Bool}
    (h : vm_do_claim_page s p = some (b, s')) :
    ∃ fr s2, vm_get_frame s = some (fr, s2) ∧
      ((b = false ∧ s' = set_links s2 fr p) ∨
       swap_in (pml4_put (set_links s2 fr p) s2.cur ((set_links s2 fr p).pages p).va
           (some { kva := (s2.frames fr).kva,
                   writable := ((set_links s2 fr p).pages p).writable,
                   accessed := false, dirty := false }))
         p (s2.frames fr).kva = some (b, s')) := by
  unfold vm_do_claim_page at h
  cases hgf : vm_get_frame s with
  | none => simp [hgf] at h
  | some r =>
    obtain ⟨fr, s2⟩ := r
    refine ⟨fr, s2, rfl, ?_⟩
    simp only [hgf, pml4_set_page] at h
    have hk : ((set_links s2 fr p).frames fr).kva = (s2.frames fr).kva := by
      simp [set_links]
    have hc : (set_links s2 fr p).cur = s2.cur := rfl
    cases hfull : (set_links s2 fr p).pml4_full with
    | true =>
      simp only [hfull, if_true, Option.some.injEq, Prod.mk.injEq] at h
      exact Or.inl ⟨h.1.symm, h.2.symm⟩
    | false =>
      simp only [hfull, Bool.false_eq_true, if_false, pml4_put_frames, hk, hc] at h
      exact Or.inr h

/-! ## Mutual consistency is kept by the calls -/

/-- A call that keeps the frames, the frame table, the heap pointer, the
tables and the frame of every page keeps consistency and allocation. -/
theorem consistent_of_same_links {s s' : KState}
    (hf : s'.frames = s.frames) (hft : s'.frame_table = s.frame_table)
    (hn : s'.next = s.next) (hs : s'.spt = s.spt)
    (hp : ∀ x, (s'.pages x).frame = (s.pages x).frame)
    (h : consistent s ∧ allocated s) : consistent s' ∧ allocated s' := by
  obtain ⟨hc, ha1, ha2⟩ := h
  refine ⟨?_, ?_, ?_⟩
  · intro f hfm p hfp
    rw [hft] at hfm
    rw [hf] at hfp
    rw [hp]
    exact hc f hfm p hfp
  · intro f hfm p hfp
    rw [hft] at hfm
    rw [hf] at hfp
    rw [hn]
    exact ha1 f hfm p hfp
  · intro t e he
    rw [hs] at he
    rw [hn]
    exact ha2 t e he

/-- The effect of `vm_get_frame` on the links. -/
theorem vm_get_frame_links {s s' : KState} {fr : Nat}
    (h : vm_get_frame s = some (fr, s')) (hca : consistent s ∧ allocated s) :
    (consistent s' ∧ allocated s') ∧ (s'.frames fr).page = none ∧
    (∀ p, unheld s p → unheld s' p) ∧ s'.spt = s.spt ∧ s'.cur = s.cur ∧
    s.next ≤ s'.next ∧ (∀ x, page_agree (s'.pages x) (s.pages x)) := by
  obtain ⟨hc, ha1, ha2⟩ := hca
  cases hpool : s.user_pool with
  | nil =>
    obtain ⟨-, e2, e3, e4, e5, -, e7, e8, e9, -⟩ := vm_get_frame_evict_effect hpool h
    have hfr : ∀ f p, (s'.frames f).page = some p → f ≠ fr ∧ (s.frames f).page = some p := by
      intro f p hfp
      by_cases hf : f = fr
      · subst hf; rw [e7] at hfp; cases hfp
      · rw [e8 f hf] at hfp; exact ⟨hf, hfp⟩
    refine ⟨⟨?_, ?_, ?_⟩, by rw [e7], ?_, e4, e5, by omega, e9⟩
    · intro f hfm p hfp
      rw [e2] at hfm
      rw [(e9 p).2.2.1]
      exact hc f hfm p (hfr f p hfp).2
    · intro f hfm p hfp
      rw [e2] at hfm
      rw [e3]
      exact ha1 f hfm p (hfr f p hfp).2
    · intro t e he
      rw [e4] at he
      rw [e3]
      exact ha2 t e he
    · intro p hu f hfm hfp
      rw [e2] at hfm
      exact hu f hfm (hfr f p hfp).2
  | cons a rest =>
    obtain ⟨-, e2, e3, e4, e5, -, e7, e8, e9, -⟩ := vm_get_frame_fresh_effect hpool h
    have hfrs : fr = s.next := (vm_get_frame_fresh_effect hpool h).1
    have hfr : ∀ f p, (s'.frames f).page = some p → f ≠ s.next ∧ (s.frames f).page = some p := by
      intro f p hfp
      by_cases hf : f = s.next
      · subst hf; rw [e7] at hfp; cases hfp
      · rw [e8 f hf] at hfp; exact ⟨hf, hfp⟩
    have hmem : ∀ f p, f ∈ s'.frame_table → (s'.frames f).page = some p → f ∈ s.frame_table := by
      intro f p hfm hfp
      rw [e2, List.mem_append, List.mem_singleton] at hfm
      rcases hfm with hfm | hfm
      · exact hfm
      · exact absurd hfm (hfr f p hfp).1
    refine ⟨⟨?_, ?_, ?_⟩, by rw [hfrs, e7], ?_, e4, e5, by omega, ?_⟩
    · intro f hfm p hfp
      rw [e9]
      exact hc f (hmem f p hfm hfp) p (hfr f p hfp).2
    · intro f hfm p hfp
      have := ha1 f (hmem f p hfm hfp) p (hfr f p hfp).2
      omega
    · intro t e he
      rw [e4] at he
      have := ha2 t e he
      omega
    · intro p hu f hfm hfp
      exact hu f (hmem f p hfm hfp) (hfr f p hfp).2
    · intro x; rw [e9]; exact page_agree_refl _

/-- Setting the links of a frame without page and a page that no frame holds
keeps consistency. -/
theorem set_links_consistent {s : KState} (fr : Nat) {p : Nat}
    (hca : consistent s ∧ allocated s) (hu : unheld s p) (hp : p < s.next) :
    consistent (set_links s fr p) ∧ allocated (set_links s fr p) := by
  obtain ⟨hc, ha1, ha2⟩ := hca
  have hfr : ∀ f q, ((set_links s fr p).frames f).page = some q →
      (f = fr ∧ q = p) ∨ (f ≠ fr ∧ (s.frames f).page = some q) := by
    intro f q hfq
    by_cases hf : f = fr
    · subst hf
      rw [set_links_frames_same] at hfq
      simp only [Option.some.injEq] at hfq
      exact Or.inl ⟨rfl, hfq.symm⟩
    · rw [set_links_frames_other _ _ _ hf] at hfq
      exact Or.inr ⟨hf, hfq⟩
  refine ⟨?_, ?_, ?_⟩
  · intro f hfm q hfq
    rcases hfr f q hfq with ⟨rfl, rfl⟩ | ⟨hne, hq⟩
    · rw [set_links_pages_same]
    · have hqp : q ≠ p := by
        intro hqp
        subst hqp
        exact hu f hfm hq
      rw [set_links_pages_other _ _ _ hqp]
      exact hc f hfm q hq
  · intro f hfm q hfq
    rcases hfr f q hfq with ⟨rfl, rfl⟩ | ⟨hne, hq⟩
    · exact hp
    · exact ha1 f hfm q hq
  · exact ha2

/-- A completed `vm_do_claim_page` of an allocated page that no frame holds
keeps consistency. -/
theorem vm_do_claim_page_consistent {s s' : KState} {p : Nat} {b : Bool}
    (h : vm_do_claim_page s p = some (b, s')) (hca : consistent s ∧ allocated s)
    (hu : unheld s p) (hp : p < s.next) : consistent s' ∧ allocated s' := by
  obtain ⟨fr, s2, hgf, hrest⟩ := vm_do_claim_page_inv h
  obtain ⟨hca2, -, hu2, -, -, hn2, -⟩ := vm_get_frame_links hgf hca
  have hl := set_links_consistent fr hca2 (hu2 p hu) (by omega)
  rcases hrest with ⟨-, rfl⟩ | hsw
  · exact hl
  · obtain ⟨e1, e2, e3, e4, -, -, e7⟩ := swap_in_effect hsw
    exact consistent_of_same_links e1 e2 e3 e4 (fun x => (e7 x).2)
      (consistent_of_same_links rfl rfl rfl rfl (fun x => rfl) hl)

/-! ## Allocation, faults and copies keep mutual consistency -/

/-- What a failed `vm_alloc_page_with_initializer` leaves alone. -/
theorem vm_alloc_false {s s1 : KState} {type upage : Nat} {w : Bool}
    {init : Option vm_initializer} {aux : Option Nat}
    (h : vm_alloc_page_with_initializer s type upage w init aux = some (false, s1)) :
    s1.frames = s.frames ∧ s1.frame_table = s.frame_table ∧ s1.cur = s.cur ∧
    s1.spt = s.spt ∧ s.next ≤ s1.next ∧ (∀ x, x < s.next → s1.pages x = s.pages x) := by
  unfold vm_alloc_page_with_initializer at h
  split at h
  · cases h
  · split at h
    · simp only [Option.some.injEq, Prod.mk.injEq, true_and] at h
      subst h
      exact ⟨rfl, rfl, rfl, rfl, Nat.le_refl _, fun x _ => rfl⟩
    · simp only [malloc] at h
      split at h
      · cases h
      · simp only [Option.some.injEq] at h
        rw [Prod.ext_iff] at h
        obtain ⟨h1, h2⟩ := h
        rw [spt_insert_page_fst] at h1
        rw [spt_insert_page_snd] at h2
        simp only [h1, Bool.false_eq_true, if_false] at h2
        subst h2
        refine ⟨rfl, rfl, rfl, rfl, ?_, ?_⟩
        · simp [uninit_new]
        · intro x hx
          have : x ≠ s.next := by omega
          simp [uninit_new, set_page, this]

/-- A completed `vm_alloc_page_with_initializer` keeps consistency. -/
theorem vm_alloc_consistent {s s1 : KState} {type upage : Nat} {w b : Bool}
    {init : Option vm_initializer} {aux : Option Nat}
    (h : vm_alloc_page_with_initializer s type upage w init aux = some (b, s1))
    (hca : consistent s ∧ allocated s) : consistent s1 ∧ allocated s1 := by
  obtain ⟨hc, ha1, ha2⟩ := hca
  cases b with
  | false =>
    obtain ⟨e1, e2, -, e4, e5, e6⟩ := vm_alloc_false h
    refine ⟨?_, ?_, ?_⟩
    · intro f hfm p hfp
      rw [e2] at hfm
      rw [e1] at hfp
      rw [e6 p (ha1 f hfm p hfp)]
      exact hc f hfm p hfp
    · intro f hfm p hfp
      rw [e2] at hfm
      rw [e1] at hfp
      have := ha1 f hfm p hfp
      omega
    · intro t e he
      rw [e4] at he
      have := ha2 t e he
      omega
  | true =>
    obtain ⟨-, -, hst, hsc, hso, hpo, -⟩ := vm_alloc_true h
    have e1 : s1.frames = s.frames := by rw [hst]
    have e2 : s1.frame_table = s.frame_table := by rw [hst]
    have e3 : s1.next = s.next + 1 := by rw [hst]
    refine ⟨?_, ?_, ?_⟩
    · intro f hfm p hfp
      rw [e2] at hfm
      rw [e1] at hfp
      have hlt := ha1 f hfm p hfp
      rw [hpo p (by omega)]
      exact hc f hfm p hfp
    · intro f hfm p hfp
      rw [e2] at hfm
      rw [e1] at hfp
      have := ha1 f hfm p hfp
      omega
    · intro t e he
      by_cases ht : t = s.cur
      · subst ht
        rw [hsc, List.mem_cons] at he
        rcases he with he | he
        · omega
        · have := ha2 _ e he
          omega
      · rw [hso t ht] at he
        have := ha2 t e he
        omega

/-- After a successful allocation at `upage`, the lookup of an address of
the same page finds the fresh block. -/
theorem vm_alloc_true_find {s s1 : KState} {type upage : Nat} {w : Bool}
    {init : Option vm_initializer} {aux : Option Nat}
    (h : vm_alloc_page_with_initializer s type upage w init aux = some (true, s1))
    {va p : Nat} (hrd : pg_round_down va = pg_round_down upage)
    (hf : spt_find_page s1 s.cur va = some p) : p = s.next := by
  obtain ⟨hnone, -, -, hsc, -, hpo, -⟩ := vm_alloc_true h
  obtain ⟨hmem, hva⟩ := spt_find_page_some hf
  rw [hsc, List.mem_cons] at hmem
  by_cases hp : p = s.next
  · exact hp
  · rcases hmem with hmem | hmem
    · exact hmem
    · rw [hpo p hp, hrd] at hva
      exact absurd hva (spt_find_page_none.1 hnone p hmem)

/-- A fresh block is held by no frame. -/
theorem unheld_of_allocated {s : KState} (ha : allocated s) {p : Nat} (hp : s.next ≤ p) :
    unheld s p := by
  intro f hfm hfp
  have := ha.1 f hfm p hfp
  omega

/-- A completed `vm_claim_page` at an address whose page no frame holds
keeps consistency. -/
theorem vm_claim_page_consistent {s s' : KState} {va : Nat} {b : Bool}
    (h : vm_claim_page s va = some (b, s')) (hca : consistent s ∧ allocated s)
    (hu : ∀ p, spt_find_page s s.cur va = some p → unheld s p) :
    consistent s' ∧ allocated s' := by
  unfold vm_claim_page at h
  cases hf : spt_find_page s s.cur va with
  | none =>
    simp only [hf, Option.some.injEq, Prod.mk.injEq] at h
    obtain ⟨-, rfl⟩ := h
    exact hca
  | some p =>
    simp only [hf] at h
    exact vm_do_claim_page_consistent h hca (hu p hf)
      (hca.2.2 _ p (spt_find_page_some hf).1)

/-- A completed `vm_try_handle_fault` at an address whose page no frame holds
keeps consistency. -/
theorem vm_try_handle_fault_consistent {s s' : KState} {f_rsp addr : Nat}
    {user write not_present b : Bool}
    (h : vm_try_handle_fault s f_rsp addr user write not_present = some (b, s'))
    (hca : consistent s ∧ allocated s)
    (hu : ∀ p, spt_find_page s s.cur addr = some p → unheld s p) :
    consistent s' ∧ allocated s' := by
  unfold vm_try_handle_fault at h
  split at h
  · simp only [Option.some.injEq, Prod.mk.injEq] at h
    obtain ⟨-, rfl⟩ := h
    exact hca
  · split at h
    · dsimp only at h
      -- the state after the stack-growth test
      have hgrow : ∀ (g : Option KState),
          (g = vm_stack_growth s addr ∨ g = some s) →
          (match g with
            | none => none
            | some s1 =>
              match spt_find_page s1 s1.cur addr with
              | none => some (false, s1)
              | some p =>
                if write = true ∧ (s1.pages p).writable = false then some (false, s1)
                else vm_do_claim_page s1 p) = some (b, s') →
          consistent s' ∧ allocated s' := by
        intro g hg hm
        have hs1 : ∀ s1, g = some s1 →
            (consistent s1 ∧ allocated s1) ∧
            (∀ p, spt_find_page s1 s1.cur addr = some p → unheld s1 p) := by
          intro s1 hgs
          rcases hg with hg | hg
          · rw [hg] at hgs
            unfold vm_stack_growth vm_alloc_page at hgs
            split at hgs
            · cases hgs
            · next bb t ht =>
              simp only [Option.some.injEq] at hgs
              subst hgs
              refine ⟨vm_alloc_consistent ht hca, ?_⟩
              intro p hp
              cases bb with
              | true =>
                have hcur : t.cur = s.cur := by
                  rw [(vm_alloc_true ht).2.2.1]
                rw [hcur] at hp
                have hps := vm_alloc_true_find ht (pg_round_down_idem addr).symm hp
                have hft : t.frame_table = s.frame_table := by
                  rw [(vm_alloc_true ht).2.2.1]
                have hfs : t.frames = s.frames := by rw [(vm_alloc_true ht).2.2.1]
                intro f hfm hfp
                rw [hft] at hfm
                rw [hfs] at hfp
                have := hca.2.1 f hfm p hfp
                omega
              | false =>
                obtain ⟨e1, e2, e3, e4, e5, e6⟩ := vm_alloc_false ht
                have hfind : spt_find_page t t.cur addr = spt_find_page s s.cur addr := by
                  rw [e3]
                  apply spt_find_page_congr
                  · rw [e4]
                  · intro e he
                    rw [e6 e (hca.2.2 _ e he)]
                rw [hfind] at hp
                intro f hfm hfp
                rw [e2] at hfm
                rw [e1] at hfp
                exact hu p hp f hfm hfp
          · simp only [hg, Option.some.injEq] at hgs
            subst hgs
            exact ⟨hca, hu⟩
        cases g with
        | none => cases hm
        | some s1 =>
          obtain ⟨hca1, hu1⟩ := hs1 s1 rfl
          simp only at hm
          cases hf : spt_find_page s1 s1.cur addr with
          | none =>
            simp only [hf, Option.some.injEq, Prod.mk.injEq] at hm
            obtain ⟨-, rfl⟩ := hm
            exact hca1
          | some p =>
            simp only [hf] at hm
            split at hm
            · simp only [Option.some.injEq, Prod.mk.injEq] at hm
              obtain ⟨-, rfl⟩ := hm
              exact hca1
            · exact vm_do_claim_page_consistent hm hca1 (hu1 p hf)
                (hca1.2.2 _ p (spt_find_page_some hf).1)
      generalize hg : (if USER_STACK - 2 ^ 20 ≤ u64 (((if user = true then f_rsp
          else s.rsp s.cur : Nat) : Int) - 8) ∧
          u64 (((if user = true then f_rsp else s.rsp s.cur : Nat) : Int) - 8) ≤ addr ∧
          addr ≤ USER_STACK then vm_stack_growth s addr else some s) = g at h
      have hg' : g = vm_stack_growth s addr ∨ g = some s := by
        rw [← hg]
        exact ite_eq_or_eq _ _ _
      exact hgrow g hg' h
    · simp only [Option.some.injEq, Prod.mk.injEq] at h
      obtain ⟨-, rfl⟩ := h
      exact hca

/-! ## The copy of a table keeps mutual consistency -/

theorem vm_alloc_cur {s s1 : KState} {type upage : Nat} {w b : Bool}
    {init : Option vm_initializer} {aux : Option Nat}
    (h : vm_alloc_page_with_initializer s type upage w init aux = some (b, s1)) :
    s1.cur = s.cur := by
  cases b with
  | false => exact (vm_alloc_false h).2.2.1
  | true => rw [(vm_alloc_true h).2.2.1]

theorem vm_do_claim_page_cur {s s' : KState} {p : Nat} {b : Bool}
    (h : vm_do_claim_page s p = some (b, s')) : s'.cur = s.cur := by
  obtain ⟨fr, s2, hgf, hrest⟩ := vm_do_claim_page_inv h
  have hc2 : s2.cur = s.cur := by
    cases hpool : s.user_pool with
    | nil => exact (vm_get_frame_evict_effect hpool hgf).2.2.2.2.1
    | cons a rest => exact (vm_get_frame_fresh_effect hpool hgf).2.2.2.2.1
  rcases hrest with ⟨-, rfl⟩ | hsw
  · exact hc2
  · rw [(swap_in_effect hsw).2.2.2.2.1]
    exact hc2

theorem vm_claim_page_cur {s s' : KState} {va : Nat} {b : Bool}
    (h : vm_claim_page s va = some (b, s')) : s'.cur = s.cur := by
  unfold vm_claim_page at h
  cases hf : spt_find_page s s.cur va with
  | none =>
    simp only [hf, Option.some.injEq, Prod.mk.injEq] at h
    obtain ⟨-, rfl⟩ := h
    rfl
  | some p =>
    simp only [hf] at h
    exact vm_do_claim_page_cur h

/-- After a successful allocation the fresh block is held by no frame. -/
theorem vm_alloc_true_unheld {s s1 : KState} {type upage : Nat} {w : Bool}
    {init : Option vm_initializer} {aux : Option Nat}
    (h : vm_alloc_page_with_initializer s type upage w init aux = some (true, s1))
    (ha : allocated s) : unheld s1 s.next := by
  have hst := (vm_alloc_true h).2.2.1
  have hft : s1.frame_table = s.frame_table := by rw [hst]
  have hfs : s1.frames = s.frames := by rw [hst]
  intro f hfm hfp
  rw [hft] at hfm
  rw [hfs] at hfp
  have := ha.1 f hfm _ hfp
  omega

/-- Writing the `frame` field of a page that no frame holds keeps
consistency. -/
theorem set_page_frame_consistent {s : KState} {p : Nat} (v : page)
    (hca : consistent s ∧ allocated s) (hu : unheld s p) :
    consistent (set_page s p v) ∧ allocated (set_page s p v) := by
  obtain ⟨hc, ha1, ha2⟩ := hca
  refine ⟨?_, ha1, ha2⟩
  intro f hfm q hfq
  have hqp : q ≠ p := by
    intro hqp
    subst hqp
    exact hu f hfm hfq
  rw [set_page_pages_other _ _ _ hqp]
  exact hc f hfm q hfq

/-- One turn of the loop of the copy, into the table of the running thread,
keeps consistency and the running thread. -/
theorem copy_step_consistent {s s' : KState} {sp : Nat} {b : Bool}
    (h : supplemental_page_table_copy_step s s.cur sp = some (b, s'))
    (hca : consistent s ∧ allocated s) :
    (consistent s' ∧ allocated s') ∧ s'.cur = s.cur := by
  unfold supplemental_page_table_copy_step at h
  dsimp only at h
  split at h
  · -- an uninitialized source page
    cases ha : vm_alloc_page_with_initializer s (page_get_type (s.pages sp)) (s.pages sp).va
        (s.pages sp).writable (s.pages sp).uninit.init (s.pages sp).uninit.aux with
    | none => simp [ha] at h
    | some r =>
      obtain ⟨bb, t⟩ := r
      simp only [ha, Option.some.injEq, Prod.mk.injEq] at h
      obtain ⟨-, rfl⟩ := h
      exact ⟨vm_alloc_consistent ha hca, vm_alloc_cur ha⟩
  · split at h
    · -- a file-backed source page
      simp only [malloc] at h
      have hca1 : consistent (set_entry { s with next := s.next + 1 } s.next
            { f := (s.pages sp).file.file, offset := (s.pages sp).file.offset,
              read_bytes := (s.pages sp).file.read_bytes,
              zero_bytes := (s.pages sp).file.zero_bytes }) ∧
          allocated (set_entry { s with next := s.next + 1 } s.next
            { f := (s.pages sp).file.file, offset := (s.pages sp).file.offset,
              read_bytes := (s.pages sp).file.read_bytes,
              zero_bytes := (s.pages sp).file.zero_bytes }) := by
        obtain ⟨hc, ha1, ha2⟩ := hca
        refine ⟨hc, ?_, ?_⟩
        · intro f hfm p hfp
          have := ha1 f hfm p hfp
          simp only [set_entry_next]
          omega
        · intro t e he
          have := ha2 t e he
          simp only [set_entry_next]
          omega
      generalize hs1 : set_entry { s with next := s.next + 1 } s.next
            { f := (s.pages sp).file.file, offset := (s.pages sp).file.offset,
              read_bytes := (s.pages sp).file.read_bytes,
              zero_bytes := (s.pages sp).file.zero_bytes } = s1 at h hca1
      have hcur1 : s1.cur = s.cur := by rw [← hs1]; rfl
      cases ha : vm_alloc_page_with_initializer s1 (s.pages sp).operations.type
          (s.pages sp).va (s.pages sp).writable none (some s.next) with
      | none => simp [ha] at h
      | some r =>
        obtain ⟨bb, s2⟩ := r
        simp only [ha] at h
        have hca2 := vm_alloc_consistent ha hca1
        have hcur2 : s2.cur = s.cur := (vm_alloc_cur ha).trans hcur1
        cases bb with
        | false =>
          simp only [Option.some.injEq, Prod.mk.injEq] at h
          obtain ⟨-, rfl⟩ := h
          exact ⟨hca2, hcur2⟩
        | true =>
          simp only at h
          cases hf : spt_find_page s2 s.cur (s.pages sp).va with
          | none => simp [hf] at h
          | some pg =>
            simp only [hf] at h
            have hpg : pg = s1.next :=
              vm_alloc_true_find ha rfl (by rw [hcur1]; exact hf)
            have hu2 : unheld s2 pg := by
              rw [hpg]
              exact vm_alloc_true_unheld ha hca1.2
            cases hi : file_backed_initializer s2 pg (s.pages sp).operations.type none with
            | none => simp [hi] at h
            | some r3 =>
              obtain ⟨b3, s3⟩ := r3
              simp only [hi] at h
              obtain ⟨e1, e2, e3, e4, e5, -, e7⟩ := file_backed_initializer_effect hi
              have hca3 : consistent s3 ∧ allocated s3 :=
                consistent_of_same_links e1 e2 e3 e4 (fun x => (e7 x).2) hca2
              have hu3 : unheld s3 pg := by
                intro f hfm hfp
                rw [e2] at hfm
                rw [e1] at hfp
                exact hu2 f hfm hfp
              split at h
              · cases h
              · simp only [Option.some.injEq, Prod.mk.injEq] at h
                obtain ⟨-, rfl⟩ := h
                have hca4 := set_page_frame_consistent
                  { s3.pages pg with frame := (s3.pages sp).frame } hca3 hu3
                refine ⟨?_, ?_⟩
                · unfold pml4_set_page
                  split
                  · exact hca4
                  · exact consistent_of_same_links rfl rfl rfl rfl (fun x => rfl) hca4
                · unfold pml4_set_page
                  split
                  · exact e5.trans hcur2
                  · exact e5.trans hcur2
    · -- an anonymous source page
      cases ha : vm_alloc_page s (s.pages sp).operations.type (s.pages sp).va
          (s.pages sp).writable with
      | none => simp [ha] at h
      | some r =>
        obtain ⟨bb, s1⟩ := r
        simp only [ha] at h
        unfold vm_alloc_page at ha
        have hca1 := vm_alloc_consistent ha hca
        have hcur1 : s1.cur = s.cur := vm_alloc_cur ha
        cases bb with
        | false =>
          simp only [Option.some.injEq, Prod.mk.injEq] at h
          obtain ⟨-, rfl⟩ := h
          exact ⟨hca1, hcur1⟩
        | true =>
          simp only at h
          cases hc : vm_claim_page s1 (s.pages sp).va with
          | none => simp [hc] at h
          | some r2 =>
            obtain ⟨b2, s2⟩ := r2
            simp only [hc] at h
            have hca2 : consistent s2 ∧ allocated s2 := by
              apply vm_claim_page_consistent hc hca1
              intro p hp
              rw [hcur1] at hp
              rw [vm_alloc_true_find ha rfl hp]
              exact vm_alloc_true_unheld ha hca.2
            have hcur2 : s2.cur = s.cur := (vm_claim_page_cur hc).trans hcur1
            cases b2 with
            | false =>
              simp only [Option.some.injEq, Prod.mk.injEq] at h
              obtain ⟨-, rfl⟩ := h
              exact ⟨hca2, hcur2⟩
            | true =>
              simp only at h
              split at h
              · cases h
              · split at h
                · simp only [Option.some.injEq, Prod.mk.injEq] at h
                  obtain ⟨-, rfl⟩ := h
                  exact ⟨consistent_of_same_links rfl rfl rfl rfl (fun x => rfl) hca2, hcur2⟩
                · cases h

/-- The loop of the copy, into the table of the running thread, keeps
consistency. -/
theorem copy_loop_consistent (l : List Nat) :
    ∀ {s s' : KState} {b : Bool},
      supplemental_page_table_copy_loop s.cur l s = some (b, s') →
      consistent s ∧ allocated s → consistent s' ∧ allocated s' := by
  induction l with
  | nil =>
    intro s s' b h hca
    simp only [supplemental_page_table_copy_loop, Option.some.injEq, Prod.mk.injEq] at h
    obtain ⟨-, rfl⟩ := h
    exact hca
  | cons sp rest ih =>
    intro s s' b h hca
    unfold supplemental_page_table_copy_loop at h
    cases hst : supplemental_page_table_copy_step s s.cur sp with
    | none => simp [hst] at h
    | some r =>
      obtain ⟨bb, s1⟩ := r
      simp only [hst] at h
      obtain ⟨hca1, hcur1⟩ := copy_step_consistent hst hca
      cases bb with
      | false =>
        simp only [Option.some.injEq, Prod.mk.injEq] at h
        obtain ⟨-, rfl⟩ := h
        exact hca1
      | true =>
        simp only at h
        rw [← hcur1] at h
        exact ih h hca1

/-- Claim C9, as stated, fails: after `vm_alloc_page` and two completed calls
of `vm_claim_page` at `0x1000`, the frame `2` of the frame table names the
page `1` while the page `1` names the frame `3`.  This is so when both claims
return true, and also when both return false because `pml4_set_page`
fails. -/
theorem double_claim_breaks_consistency :
    (vm_alloc_page two_pool_state VM_ANON 0x1000 true).bind
      (fun r => (vm_claim_page r.2 0x1000).bind
        (fun q => (vm_claim_page q.2 0x1000).map
          (fun u => (r.1, q.1, u.1, u.2.frame_table, (u.2.frames 2).page,
                     (u.2.pages 1).frame))))
      = some (true, true, true, [2, 3], some 1, some 3) ∧
    (vm_alloc_page two_pool_full_state VM_ANON 0x1000 true).bind
      (fun r => (vm_claim_page r.2 0x1000).bind
        (fun q => (vm_claim_page q.2 0x1000).map
          (fun u => (r.1, q.1, u.1, u.2.frame_table, (u.2.frames 2).page,
                     (u.2.pages 1).frame))))
      = some (true, false, false, [2, 3], some 1, some 3) :=
  ⟨rfl, rfl⟩

/-- Claim C9, amended.  From a consistent state whose linked pages are
allocated blocks, every state reached through completed calls of
`vm_alloc_page_with_initializer`, `vm_claim_page`, `vm_try_handle_fault`,
`vm_get_frame` and `supplemental_page_table_copy` (into the table of the
running thread), where `vm_claim_page` and `vm_try_handle_fault` are called
only at addresses whose page no frame holds, is consistent: a frame `f` of
the frame table with `f.page = p` has `p.frame = f`. -/
theorem reach_consistent (s0 s : KState) (h0 : consistent s0) (ha : allocated s0)
    (hr : reach s0 s) : consistent s := by
  have : consistent s ∧ allocated s := by
    induction hr with
    | start => exact ⟨h0, ha⟩
    | switch t _ ih => exact ih
    | alloc _ h ih => exact vm_alloc_consistent h ih
    | claim _ hu h ih => exact vm_claim_page_consistent h ih hu
    | fault _ hu h ih => exact vm_try_handle_fault_consistent h ih hu
    | get_frame _ h ih => exact (vm_get_frame_links h ih).1
    | copy _ h ih => exact copy_loop_consistent _ h ih
  exact this.1

/-- The instance of the amended C9 on the state reached from
`two_pool_state` by `vm_alloc_page` and one `vm_claim_page` at `0x1000`. -/
theorem reach_consistent_witness :
    consistent two_pool_state ∧ allocated two_pool_state ∧
    reach two_pool_state claimed_state ∧ consistent claimed_state :=
  have hc : consistent two_pool_state := fun f hf => absurd hf (List.not_mem_nil f)
  have ha : allocated two_pool_state :=
    ⟨fun f hf => absurd hf (List.not_mem_nil f), fun _ e he => absurd he (List.not_mem_nil e)⟩
  have hr : reach two_pool_state claimed_state :=
    @reach.claim two_pool_state allocated_state claimed_state 0x1000 true
      (@reach.alloc two_pool_state two_pool_state allocated_state VM_ANON 0x1000 true true
        none none reach.start rfl)
      (fun _ _ f hf => absurd hf (List.not_mem_nil f)) rfl
  ⟨hc, ha, hr, reach_consistent two_pool_state claimed_state hc ha hr⟩

/-! ## The copy of a resident anonymous page -/

theorem swap_in_uninit_anon {X : KState} {p kva : Nat}
    (hops : (X.pages p).operations = .uninit_ops)
    (hpi : (X.pages p).uninit.page_initializer = .anon_initializer)
    (hinit : (X.pages p).uninit.init = none) :
    swap_in X p kva
      = some (true, set_page (memset_zero X kva) p
          { X.pages p with operations := .anon_ops }) := by
  unfold swap_in uninit_swap_in
  simp [hops, hpi, hinit, anon_initializer]

theorem vm_get_frame_agree {s s' : KState} {fr : Nat}
    (h : vm_get_frame s = some (fr, s')) :
    (∀ x, page_agree (s'.pages x) (s.pages x)) ∧ s'.spt = s.spt ∧ s'.cur = s.cur := by
  cases hpool : s.user_pool with
  | nil =>
    obtain ⟨-, -, -, e4, e5, -, -, -, e9, -⟩ := vm_get_frame_evict_effect hpool h
    exact ⟨e9, e4, e5⟩
  | cons a rest =>
    obtain ⟨-, -, -, e4, e5, -, -, -, e9, -⟩ := vm_get_frame_fresh_effect hpool h
    exact ⟨fun x => by rw [e9]; exact page_agree_refl _, e4, e5⟩

/-- The state after the successful claim of an uninitialized page of type
`VM_ANON` without deferred initialiser: the links are set, the mapping is
installed and the frame is zero-filled. -/
theorem vm_do_claim_fresh_anon {s1 s2 : KState} {p : Nat}
    (hops : (s1.pages p).operations = .uninit_ops)
    (hpi : (s1.pages p).uninit.page_initializer = .anon_initializer)
    (hinit : (s1.pages p).uninit.init = none)
    (h : vm_do_claim_page s1 p = some (true, s2)) :
    ∃ fr t2, vm_get_frame s1 = some (fr, t2) ∧
      s2 = set_page
        (memset_zero
          (pml4_put (set_links t2 fr p) t2.cur ((set_links t2 fr p).pages p).va
            (some { kva := (t2.frames fr).kva,
                    writable := ((set_links t2 fr p).pages p).writable,
                    accessed := false, dirty := false }))
          (t2.frames fr).kva)
        p { (set_links t2 fr p).pages p with operations := .anon_ops } := by
  obtain ⟨fr, t2, hgf, hrest⟩ := vm_do_claim_page_inv h
  refine ⟨fr, t2, hgf, ?_⟩
  rcases hrest with ⟨hb, -⟩ | hsw
  · cases hb
  · obtain ⟨hagree, -, -⟩ := vm_get_frame_agree hgf
    have ha := hagree p
    rw [swap_in_uninit_anon] at hsw
    · simp only [Option.some.injEq, Prod.mk.injEq, true_and] at hsw
      rw [← hsw]
      rfl
    · simp [set_links, ha.1, hops]
    · simp [set_links, ha.2.2.2.2.1, hpi]
    · simp [set_links, ha.2.2.2.2.1, hinit]

/-- Claim C3, on the code.  When the user pool is exhausted and the only
frame of the table is the frame `2` of the source page `3`, the copy returns
true, the destination page `5` at `0x1000` has the frame `2` of the source
page as its frame, and the first byte of that frame is `0`, not the `7` of
the source content. -/
theorem copy_evicts_source_frame :
    (supplemental_page_table_copy fork_state 1 0).map
      (fun r => (r.1, spt_find_page r.2 1 0x1000, (r.2.pages 5).frame, (r.2.pages 3).frame,
                 r.2.mem (r.2.frames 2).kva 0, fork_state.mem (fork_state.frames 2).kva 0))
      = some (true, some 5, some 2, some 2, 0, 7) := by
  rfl

/-- The copy of a resident anonymous page on the path that duplicates.  For a
source table that holds one anonymous page `sp` (an allocated block at a
page-aligned address) resident in the allocated frame `sf`, whose kernel
page no other frame and no free page of the user pool shares, a successful
copy into the table of the running thread leaves at the same address a page
`dp` and a frame `df` that point at each other.  When the user pool is not
exhausted `df` is not `sf`; and whenever `df` is not `sf`, the two frames
lie at different kernel addresses, the content of `df` is the content the
source frame had, and the source frame is unchanged. -/
theorem copy_anon_page (s s' : KState) (src sp sf : Nat)
    (htab : s.spt src = [sp])
    (hops : (s.pages sp).operations = .anon_ops)
    (hfr : (s.pages sp).frame = some sf)
    (hal : pg_ofs (s.pages sp).va = 0)
    (hsp : sp < s.next) (hsf : sf < s.next)
    (hkva : ∀ f ∈ s.frame_table, f ≠ sf → (s.frames f).kva ≠ (s.frames sf).kva)
    (hpool : ∀ a ∈ s.user_pool, a ≠ (s.frames sf).kva)
    (hcopy : supplemental_page_table_copy s s.cur src = some (true, s')) :
    ∃ dp df, spt_find_page s' s.cur (s.pages sp).va = some dp ∧
      (s'.pages dp).frame = some df ∧ (s'.frames df).page = some dp ∧
      (s.user_pool ≠ [] → df ≠ sf) ∧
      (df ≠ sf →
        (s'.frames df).kva ≠ (s'.frames sf).kva ∧
        (∀ o, o < PGSIZE → s'.mem (s'.frames df).kva o = s.mem (s.frames sf).kva o) ∧
        (∀ o, s'.mem (s'.frames sf).kva o = s.mem (s.frames sf).kva o)) := by
  -- the loop makes one turn
  unfold supplemental_page_table_copy at hcopy
  rw [htab] at hcopy
  unfold supplemental_page_table_copy_loop at hcopy
  cases hstep : supplemental_page_table_copy_step s s.cur sp with
  | none => simp [hstep] at hcopy
  | some r =>
    obtain ⟨bb, sx⟩ := r
    simp only [hstep] at hcopy
    cases bb with
    | false => simp at hcopy
    | true =>
      simp only [supplemental_page_table_copy_loop, Option.some.injEq, Prod.mk.injEq,
        true_and] at hcopy
      subst hcopy
      -- the turn takes the branch of an anonymous page
      unfold supplemental_page_table_copy_step at hstep
      have hty : (s.pages sp).operations.type = VM_ANON := by rw [hops]; rfl
      simp only [hty] at hstep
      have h1 : ¬ VM_ANON = VM_UNINIT := by decide
      have h2 : ¬ VM_ANON = VM_FILE := by decide
      simp only [h1, h2, if_false] at hstep
      cases hall : vm_alloc_page s VM_ANON (s.pages sp).va (s.pages sp).writable with
      | none => simp [hall] at hstep
      | some r1 =>
        obtain ⟨b1, s1⟩ := r1
        simp only [hall] at hstep
        cases b1 with
        | false => simp at hstep
        | true =>
          simp only at hstep
          unfold vm_alloc_page at hall
          obtain ⟨hnone, hold, hst1, hsc1, hso1, hpo1, pi, hpi, hnew⟩ := vm_alloc_true hall
          have hpi' : pi = .anon_initializer := hpi (by decide)
          subst hpi'
          have e1cur : s1.cur = s.cur := by rw [hst1]
          have e1fr : s1.frames = s.frames := by rw [hst1]
          have e1ft : s1.frame_table = s.frame_table := by rw [hst1]
          have e1mem : s1.mem = s.mem := by rw [hst1]
          have e1pool : s1.user_pool = s.user_pool := by rw [hst1]
          have e1next : s1.next = s.next + 1 := by rw [hst1]
          have hspne : sp ≠ s.next := by omega
          cases hcl : vm_claim_page s1 (s.pages sp).va with
          | none => simp [hcl] at hstep
          | some r2 =>
            obtain ⟨b2, s2⟩ := r2
            simp only [hcl] at hstep
            cases b2 with
            | false => simp at hstep
            | true =>
              simp only at hstep
              -- the claim finds the fresh page
              unfold vm_claim_page at hcl
              cases hf1 : spt_find_page s1 s1.cur (s.pages sp).va with
              | none => simp [hf1] at hcl
              | some p =>
                simp only [hf1] at hcl
                have hp : p = s.next := by
                  rw [e1cur] at hf1
                  exact vm_alloc_true_find hall rfl hf1
                subst hp
                obtain ⟨fr, t2, hgf, hs2⟩ := vm_do_claim_fresh_anon
                  (by rw [hnew]) (by rw [hnew]) (by rw [hnew]) hcl
                obtain ⟨hagree, e2spt, e2cur⟩ := vm_get_frame_agree hgf
                -- the frame of the destination page and the frame of the source page
                have hcase : (s.user_pool ≠ [] → fr ≠ sf) ∧
                    (fr ≠ sf → (t2.frames fr).kva ≠ (s.frames sf).kva ∧
                      t2.frames sf = s.frames sf ∧
                      ∀ o, t2.mem (s.frames sf).kva o = s.mem (s.frames sf).kva o) := by
                  cases hpl : s1.user_pool with
                  | nil =>
                    obtain ⟨hm, -, -, -, -, -, e7, e8, -, e10⟩ :=
                      vm_get_frame_evict_effect hpl hgf
                    refine ⟨fun hne => absurd (e1pool.symm.trans hpl) hne, ?_⟩
                    intro hne
                    have hk : (t2.frames fr).kva ≠ (s.frames sf).kva := by
                      rw [e7, e1fr]
                      exact hkva fr (by rw [← e1ft]; exact hm) hne
                    refine ⟨hk, ?_, ?_⟩
                    · rw [e8 sf (Ne.symm hne), e1fr]
                    · intro o
                      rw [e10, e1mem]
                      rw [e7] at hk
                      simp only [ne_eq] at hk
                      have : ¬ ((s.frames sf).kva = (s1.frames fr).kva ∧ o < PGSIZE) :=
                        fun h => hk h.1.symm
                      rw [if_neg this]
                  | cons a rest =>
                    obtain ⟨hfe, -, -, -, -, -, e7, e8, -, e10⟩ :=
                      vm_get_frame_fresh_effect hpl hgf
                    have hfrne : fr ≠ sf := by omega
                    refine ⟨fun _ => hfrne, fun _ => ?_⟩
                    have ha : a ∈ s.user_pool := by
                      rw [← e1pool, hpl]
                      exact List.mem_cons_self _ _
                    refine ⟨?_, ?_, ?_⟩
                    · rw [hfe, e7]
                      exact hpool a ha
                    · rw [e8 sf (by omega), e1fr]
                    · intro o
                      rw [e10, e1mem]
                have hpa := hagree s.next
                have hspa := hagree sp
                rw [hnew] at hpa
                rw [hpo1 sp hspne] at hspa
                -- the fields of the state after the claim
                have e2pg : (s2.pages s.next).frame = some fr ∧
                    (s2.pages s.next).va = (s.pages sp).va := by
                  rw [hs2]
                  simp [set_links, hpa.2.1]
                have e2sp : (s2.pages sp).frame = some sf := by
                  rw [hs2]
                  simp [set_links, set_page_pages_other _ _ _ hspne, hspa.2.2.1, hfr]
                have e2frf : s2.frames fr = { t2.frames fr with page := some s.next } := by
                  rw [hs2]
                  simp [set_links]
                have e2fro : ∀ f, f ≠ fr → s2.frames f = t2.frames f := by
                  intro f hf
                  rw [hs2]
                  simp [set_links, set_frame_frames_other _ _ _ hf]
                have e2mem : ∀ k o, k ≠ (t2.frames fr).kva → s2.mem k o = t2.mem k o := by
                  intro k o hk
                  rw [hs2]
                  simp [memset_zero, hk]
                  rfl
                have e2tab : s2.spt s.cur = s.next :: s.spt s.cur := by
                  rw [hs2]
                  simp [set_links, e2spt, hsc1]
                have hfind2 : spt_find_page s2 s.cur (s.pages sp).va = some s.next := by
                  rw [spt_find_page_eq, e2tab]
                  simp [hash_find, page_less, e2pg.2, pg_round_down_of_ofs hal]
                simp only [hfind2, e2pg.1, e2sp, Option.some.injEq, Prod.mk.injEq,
                  true_and] at hstep
                subst hstep
                refine ⟨s.next, fr, ?_, ?_, ?_, hcase.1, ?_⟩
                · rw [← hfind2]
                  exact spt_find_page_congr _ rfl (fun _ _ => rfl)
                · exact e2pg.1
                · simp [e2frf]
                · intro hne
                  obtain ⟨hk, hsfeq, hmem⟩ := hcase.2 hne
                  have hsf2 : s2.frames sf = s.frames sf := by
                    rw [e2fro sf (Ne.symm hne), hsfeq]
                  have hkf : (s2.frames fr).kva = (t2.frames fr).kva := by rw [e2frf]
                  simp only [memcpy_page_frames, hsf2, hkf]
                  refine ⟨hk, ?_, ?_⟩
                  · intro o ho
                    simp [memcpy_page, ho, e2mem _ o (Ne.symm hk), hmem]
                  · intro o
                    have : ¬ ((s.frames sf).kva = (t2.frames fr).kva ∧ o < PGSIZE) :=
                      fun h => hk h.1.symm
                    simp [memcpy_page, this, e2mem _ o (Ne.symm hk), hmem]

/-- The instance of `copy_anon_page` at `fork`, with one free page left in
the user pool. -/
theorem copy_anon_page_witness :
    fork_pool_state.spt 0 = [3] ∧
    (fork_pool_state.pages 3).operations = .anon_ops ∧
    (fork_pool_state.pages 3).frame = some 2 ∧
    pg_ofs (fork_pool_state.pages 3).va = 0 ∧
    3 < fork_pool_state.next ∧ 2 < fork_pool_state.next ∧
    (∀ f ∈ fork_pool_state.frame_table, f ≠ 2 →
      (fork_pool_state.frames f).kva ≠ (fork_pool_state.frames 2).kva) ∧
    (∀ a ∈ fork_pool_state.user_pool, a ≠ (fork_pool_state.frames 2).kva) ∧
    supplemental_page_table_copy fork_pool_state fork_pool_state.cur 0
      = some (true, forked_state) ∧
    ∃ dp df, spt_find_page forked_state fork_pool_state.cur (fork_pool_state.pages 3).va
        = some dp ∧
      (forked_state.pages dp).frame = some df ∧ (forked_state.frames df).page = some dp ∧
      (fork_pool_state.user_pool ≠ [] → df ≠ 2) ∧
      (df ≠ 2 →
        (forked_state.frames df).kva ≠ (forked_state.frames 2).kva ∧
        (∀ o, o < PGSIZE → forked_state.mem (forked_state.frames df).kva o
            = fork_pool_state.mem (fork_pool_state.frames 2).kva o) ∧
        (∀ o, forked_state.mem (forked_state.frames 2).kva o
            = fork_pool_state.mem (fork_pool_state.frames 2).kva o)) :=
  have hk : ∀ f ∈ fork_pool_state.frame_table, f ≠ 2 →
      (fork_pool_state.frames f).kva ≠ (fork_pool_state.frames 2).kva :=
    fun _ hf hne => absurd (List.mem_singleton.1 hf) hne
  have hp : ∀ a ∈ fork_pool_state.user_pool, a ≠ (fork_pool_state.frames 2).kva :=
    fun a ha => by
      have := List.mem_singleton.1 ha
      subst this
      decide
  ⟨rfl, rfl, rfl, rfl, by decide, by decide, hk, hp, rfl,
   copy_anon_page fork_pool_state forked_state 0 3 2 rfl rfl rfl rfl (by decide) (by decide)
     hk hp rfl⟩

/-! ## The fault handler: the fatal cases -/

theorem spt_find_page_round (s : KState) (t va : Nat) :
    spt_find_page s t (pg_round_down va) = spt_find_page s t va := by
  rw [spt_find_page_eq, spt_find_page_eq, pg_round_down_idem]

/-- Stack growth at an address whose page is already in the table changes
nothing. -/
theorem vm_stack_growth_present {s : KState} {addr p : Nat}
    (hf : spt_find_page s s.cur addr = some p) : vm_stack_growth s addr = some s := by
  unfold vm_stack_growth vm_alloc_page vm_alloc_page_with_initializer
  have h9 : ¬ VM_TYPE (VM_ANON ||| VM_MARKER_0) = VM_UNINIT := by decide
  simp only [h9, if_false, spt_find_page_round, hf]

/-- Claim C16.  A fault at the null address or at a kernel address, and a
fault on a present page, make `vm_try_handle_fault` return false and leave
the whole state, so the table and the frame table, as it was. -/
theorem fault_invalid (s : KState) (f_rsp addr : Nat) (user write not_present : Bool)
    (h : addr = 0 ∨ is_kernel_vaddr addr = true ∨ not_present = false) :
    vm_try_handle_fault s f_rsp addr user write not_present = some (false, s) := by
  unfold vm_try_handle_fault
  by_cases h1 : addr = 0 ∨ is_kernel_vaddr addr = true
  · rw [if_pos h1]
  · rw [if_neg h1]
    have h2 : not_present = false := by
      rcases h with h | h | h
      · exact absurd (Or.inl h) h1
      · exact absurd (Or.inr h) h1
      · exact h
    simp [h2]

/-- The instances of C16: a null address, a kernel address, a present-page
fault. -/
theorem fault_invalid_witness :
    ((0 : Nat) = 0 ∨ is_kernel_vaddr 0 = true ∨ true = false) ∧
    vm_try_handle_fault one_page_state USER_STACK 0 true true true
      = some (false, one_page_state) :=
  ⟨Or.inl rfl, fault_invalid one_page_state USER_STACK 0 true true true (Or.inl rfl)⟩

/-- Claim C14.  For every stack pointer and either mode, a not-present fault
at `USER_STACK - 2^20 - PGSIZE` whose page has no entry in the table makes
`vm_try_handle_fault` return false and leaves the whole state, so the table,
as it was. -/
theorem fault_below_stack_limit (s : KState) (f_rsp : Nat) (user write : Bool)
    (h : spt_find_page s s.cur (USER_STACK - 2 ^ 20 - PGSIZE) = none) :
    vm_try_handle_fault s f_rsp (USER_STACK - 2 ^ 20 - PGSIZE) user write true
      = some (false, s) := by
  unfold vm_try_handle_fault
  have h1 : ¬ (USER_STACK - 2 ^ 20 - PGSIZE = 0 ∨
      is_kernel_vaddr (USER_STACK - 2 ^ 20 - PGSIZE) = true) := by decide
  rw [if_neg h1]
  simp only [if_true]
  have h2 : ∀ x : Nat, ¬ (USER_STACK - 2 ^ 20 ≤ x ∧ x ≤ USER_STACK - 2 ^ 20 - PGSIZE ∧
      USER_STACK - 2 ^ 20 - PGSIZE ≤ USER_STACK) := by
    intro x
    unfold USER_STACK PGSIZE
    omega
  rw [if_neg (h2 _)]
  simp only [h]

/-- The instance of C14 in the state right after `vm_init`, for a user-mode
write with the stack pointer at the top of the stack. -/
theorem fault_below_stack_limit_witness :
    spt_find_page boot boot.cur (USER_STACK - 2 ^ 20 - PGSIZE) = none ∧
    vm_try_handle_fault boot USER_STACK (USER_STACK - 2 ^ 20 - PGSIZE) true true true
      = some (false, boot) :=
  ⟨by decide, fault_below_stack_limit boot USER_STACK true true (by decide)⟩

/-- Claim C17.  A not-present write fault at a non-null user address whose
page is in the table and is not writable makes `vm_try_handle_fault` return
false and leaves the whole state as it was: no frame is acquired, no link is
set and no mapping is installed. -/
theorem fault_write_protected (s : KState) (f_rsp addr p : Nat) (user : Bool)
    (h0 : addr ≠ 0) (hu : is_kernel_vaddr addr = false)
    (hf : spt_find_page s s.cur addr = some p) (hw : (s.pages p).writable = false) :
    vm_try_handle_fault s f_rsp addr user true true = some (false, s) := by
  unfold vm_try_handle_fault
  have h1 : ¬ (addr = 0 ∨ is_kernel_vaddr addr = true) := by
    rw [hu]
    simp [h0]
  rw [if_neg h1]
  simp only [if_true, vm_stack_growth_present hf, ite_self, hf, hw, and_self]

/-- The instance of C17 on the read-only page at `0x1000` of
`one_page_state`. -/
theorem fault_write_protected_witness :
    (0x1000 : Nat) ≠ 0 ∧ is_kernel_vaddr 0x1000 = false ∧
    spt_find_page one_page_state one_page_state.cur 0x1000 = some 3 ∧
    (one_page_state.pages 3).writable = false ∧
    vm_try_handle_fault one_page_state USER_STACK 0x1000 true true true
      = some (false, one_page_state) :=
  ⟨by decide, by decide, by decide, by decide,
   fault_write_protected one_page_state USER_STACK 0x1000 3 true (by decide) (by decide)
     (by decide) (by decide)⟩

/-! ## The fault handler: stack growth -/

theorem u64_sub_eight {rsp : Nat} (h : rsp < 2 ^ 64) (h8 : 8 ≤ rsp) :
    u64 ((rsp : Int) - 8) = rsp - 8 := by
  unfold u64
  omega

theorem u64_sub_eight_small {rsp : Nat} (h8 : rsp < 8) :
    u64 ((rsp : Int) - 8) = 2 ^ 64 + rsp - 8 := by
  unfold u64
  omega

/-- The test of `vm_try_handle_fault`, made on 64-bit pointers, is the test
on integers for a user address. -/
theorem stack_growth_test_iff {rsp addr : Nat} (hr : rsp < 2 ^ 64)
    (hu : is_user_vaddr addr = true) :
    (USER_STACK - 2 ^ 20 ≤ u64 ((rsp : Int) - 8) ∧ u64 ((rsp : Int) - 8) ≤ addr ∧
        addr ≤ USER_STACK) ↔
    ((USER_STACK : Int) - 2 ^ 20 ≤ (rsp : Int) - 8 ∧ (rsp : Int) - 8 ≤ (addr : Int) ∧
        (addr : Int) ≤ (USER_STACK : Int)) := by
  have hk : addr < KERN_BASE := by simpa [is_user_vaddr] using hu
  unfold KERN_BASE at hk
  by_cases h8 : 8 ≤ rsp
  · rw [u64_sub_eight hr h8]
    unfold USER_STACK
    omega
  · rw [u64_sub_eight_small (by omega)]
    unfold USER_STACK
    omega

theorem vm_do_claim_page_spt {s s' : KState} {p : Nat} {b : Bool}
    (h : vm_do_claim_page s p = some (b, s')) : s'.spt = s.spt := by
  obtain ⟨fr, s2, hgf, hrest⟩ := vm_do_claim_page_inv h
  obtain ⟨-, e2, -⟩ := vm_get_frame_agree hgf
  rcases hrest with ⟨-, rfl⟩ | hsw
  · exact e2
  · rw [(swap_in_effect hsw).2.2.2.1]
    exact e2

theorem fault_claim_spt {s s' : KState} {addr : Nat} {write b : Bool}
    (h : fault_claim s addr write = some (b, s')) : s'.spt = s.spt := by
  unfold fault_claim at h
  split at h
  · simp only [Option.some.injEq, Prod.mk.injEq] at h
    rw [← h.2]
  · split at h
    · simp only [Option.some.injEq, Prod.mk.injEq] at h
      rw [← h.2]
    · exact vm_do_claim_page_spt h

/-- After a successful allocation at a page-aligned address, the lookup of
an address of that page finds the fresh block. -/
theorem vm_alloc_true_found {s s1 : KState} {type upage : Nat} {w : Bool}
    {init : Option vm_initializer} {aux : Option Nat}
    (h : vm_alloc_page_with_initializer s type upage w init aux = some (true, s1))
    {va : Nat} (hrd : pg_round_down va = upage) :
    spt_find_page s1 s.cur va = some s.next := by
  obtain ⟨-, -, -, hsc, -, -, pi, -, hnew⟩ := vm_alloc_true h
  rw [spt_find_page_eq, hsc]
  simp [hash_find, page_less, hnew, hrd]

/-- Claim C15.  For a not-present fault at a non-null user address, with
`rsp` the stack pointer of the interrupt frame in user mode and the stack
pointer saved in the thread in kernel mode: when
`USER_STACK - 2^20 ≤ rsp - 8 ≤ addr ≤ USER_STACK` the handler calls
`vm_stack_growth` and goes on with the lookup and the claim, and otherwise it
goes straight on with the lookup and the claim, which insert no page;
`vm_stack_growth` is `vm_alloc_page (VM_ANON | VM_MARKER_0,
pg_round_down (addr), 1)`, and when that succeeds the page found at `addr` is
the new page, writable, of type `VM_ANON`, at `pg_round_down (addr)`. -/
theorem fault_stack_growth_iff (s : KState) (f_rsp addr : Nat) (user write : Bool)
    (h0 : addr ≠ 0) (hu : is_user_vaddr addr = true)
    (hr : fault_rsp s f_rsp user < 2 ^ 64) :
    (((USER_STACK : Int) - 2 ^ 20 ≤ (fault_rsp s f_rsp user : Int) - 8 ∧
        (fault_rsp s f_rsp user : Int) - 8 ≤ (addr : Int) ∧
        (addr : Int) ≤ (USER_STACK : Int)) →
      vm_try_handle_fault s f_rsp addr user write true
        = (vm_stack_growth s addr).bind (fun s1 => fault_claim s1 addr write)) ∧
    (¬ ((USER_STACK : Int) - 2 ^ 20 ≤ (fault_rsp s f_rsp user : Int) - 8 ∧
        (fault_rsp s f_rsp user : Int) - 8 ≤ (addr : Int) ∧
        (addr : Int) ≤ (USER_STACK : Int)) →
      vm_try_handle_fault s f_rsp addr user write true = fault_claim s addr write ∧
      ∀ b s', fault_claim s addr write = some (b, s') → s'.spt = s.spt) ∧
    vm_stack_growth s addr
      = (vm_alloc_page s (VM_ANON ||| VM_MARKER_0) (pg_round_down addr) true).map Prod.snd ∧
    (∀ s1, vm_alloc_page s (VM_ANON ||| VM_MARKER_0) (pg_round_down addr) true
        = some (true, s1) →
      spt_find_page s1 s1.cur addr = some s.next ∧ (s1.pages s.next).writable = true ∧
      (s1.pages s.next).va = pg_round_down addr ∧
      page_get_type (s1.pages s.next) = VM_ANON ∧
      (s1.pages s.next).operations = .uninit_ops) := by
  have hk : ¬ (addr = 0 ∨ is_kernel_vaddr addr = true) := by
    have : addr < KERN_BASE := by simpa [is_user_vaddr] using hu
    simp only [is_kernel_vaddr, decide_eq_true_eq, not_or, not_le]
    exact ⟨h0, this⟩
  have hunf : vm_try_handle_fault s f_rsp addr user write true
      = (if USER_STACK - 2 ^ 20 ≤ u64 ((fault_rsp s f_rsp user : Int) - 8) ∧
            u64 ((fault_rsp s f_rsp user : Int) - 8) ≤ addr ∧ addr ≤ USER_STACK then
          (vm_stack_growth s addr).bind (fun s1 => fault_claim s1 addr write)
        else fault_claim s addr write) := by
    unfold vm_try_handle_fault
    rw [if_neg hk]
    simp only [if_true, fault_rsp]
    by_cases hc : USER_STACK - 2 ^ 20 ≤ u64 (((if user = true then f_rsp
        else s.rsp s.cur : Nat) : Int) - 8) ∧
        u64 (((if user = true then f_rsp else s.rsp s.cur : Nat) : Int) - 8) ≤ addr ∧
        addr ≤ USER_STACK
    · rw [if_pos hc, if_pos hc]
      cases vm_stack_growth s addr <;> rfl
    · rw [if_neg hc, if_neg hc]
      rfl
  refine ⟨?_, ?_, ?_, ?_⟩
  · intro hc
    rw [hunf, if_pos ((stack_growth_test_iff hr hu).2 hc)]
  · intro hc
    refine ⟨?_, fun b s' h => fault_claim_spt h⟩
    rw [hunf, if_neg (fun h => hc ((stack_growth_test_iff hr hu).1 h))]
  · unfold vm_stack_growth
    cases vm_alloc_page s (VM_ANON ||| VM_MARKER_0) (pg_round_down addr) true with
    | none => rfl
    | some r => rfl
  · intro s1 h1
    unfold vm_alloc_page at h1
    obtain ⟨-, -, hst, -, -, -, pi, -, hnew⟩ := vm_alloc_true h1
    have hcur : s1.cur = s.cur := by rw [hst]
    refine ⟨?_, ?_, ?_, ?_, ?_⟩
    · rw [hcur]
      exact vm_alloc_true_found h1 rfl
    · rw [hnew]
    · rw [hnew]
    · rw [hnew]
      simp only [page_get_type, page_operations.type]
      decide
    · rw [hnew]

/-- The instance of C15 for a user-mode fault eight bytes below the stack
pointer `USER_STACK` in the state right after `vm_init`. -/
theorem fault_stack_growth_iff_witness :
    (USER_STACK - 8 : Nat) ≠ 0 ∧ is_user_vaddr (USER_STACK - 8) = true ∧
    fault_rsp boot USER_STACK true < 2 ^ 64 ∧
    ((((USER_STACK : Int) - 2 ^ 20 ≤ (fault_rsp boot USER_STACK true : Int) - 8 ∧
        (fault_rsp boot USER_STACK true : Int) - 8 ≤ ((USER_STACK - 8 : Nat) : Int) ∧
        ((USER_STACK - 8 : Nat) : Int) ≤ (USER_STACK : Int)) →
      vm_try_handle_fault boot USER_STACK (USER_STACK - 8) true true true
        = (vm_stack_growth boot (USER_STACK - 8)).bind
            (fun s1 => fault_claim s1 (USER_STACK - 8) true)) ∧
    (¬ ((USER_STACK : Int) - 2 ^ 20 ≤ (fault_rsp boot USER_STACK true : Int) - 8 ∧
        (fault_rsp boot USER_STACK true : Int) - 8 ≤ ((USER_STACK - 8 : Nat) : Int) ∧
        ((USER_STACK - 8 : Nat) : Int) ≤ (USER_STACK : Int)) →
      vm_try_handle_fault boot USER_STACK (USER_STACK - 8) true true true
        = fault_claim boot (USER_STACK - 8) true ∧
      ∀ b s', fault_claim boot (USER_STACK - 8) true = some (b, s') → s'.spt = boot.spt) ∧
    vm_stack_growth boot (USER_STACK - 8)
      = (vm_alloc_page boot (VM_ANON ||| VM_MARKER_0) (pg_round_down (USER_STACK - 8))
          true).map Prod.snd ∧
    (∀ s1, vm_alloc_page boot (VM_ANON ||| VM_MARKER_0) (pg_round_down (USER_STACK - 8)) true
        = some (true, s1) →
      spt_find_page s1 s1.cur (USER_STACK - 8) = some boot.next ∧
      (s1.pages boot.next).writable = true ∧
      (s1.pages boot.next).va = pg_round_down (USER_STACK - 8) ∧
      page_get_type (s1.pages boot.next) = VM_ANON ∧
      (s1.pages boot.next).operations = .uninit_ops)) :=
  ⟨by decide, by decide, by decide,
   fault_stack_growth_iff boot USER_STACK (USER_STACK - 8) true true (by decide) (by decide)
     (by decide)⟩

/-! ## The victim scan -/

theorem pml4_is_accessed_set_other (s : KState) (t va va' : Nat) (b : Bool)
    (h : va' / PGSIZE ≠ va / PGSIZE) :
    pml4_is_accessed (pml4_set_accessed s t va b) t va' = pml4_is_accessed s t va' := by
  unfold pml4_set_accessed
  split
  · simp [pml4_is_accessed, pml4_get, pml4_put, h]
  · rfl

theorem pml4_is_accessed_set_same (s : KState) (t va va' : Nat)
    (h : va' / PGSIZE = va / PGSIZE) :
    pml4_is_accessed (pml4_set_accessed s t va false) t va' = false := by
  unfold pml4_set_accessed
  split
  · simp [pml4_is_accessed, pml4_get, pml4_put, h]
  · next hn =>
    simp only [pml4_is_accessed, pml4_get, h]
    simp only [pml4_get] at hn
    rw [hn]

theorem frame_accessed_set (s : KState) (va : Nat) (g : Nat) :
    frame_accessed (pml4_set_accessed s s.cur va false) g =
      match (s.frames g).page with
      | none => none
      | some q =>
        if (s.pages q).va / PGSIZE = va / PGSIZE then some false
        else some (pml4_is_accessed s s.cur (s.pages q).va) := by
  unfold frame_accessed
  simp only [pml4_set_accessed_frames, pml4_set_accessed_pages, pml4_set_accessed_cur]
  cases (s.frames g).page with
  | none => rfl
  | some q =>
    simp only
    split
    · next h => rw [pml4_is_accessed_set_same _ _ _ _ h]
    · next h => rw [pml4_is_accessed_set_other _ _ _ _ _ h]

theorem frames_apart_set (s : KState) (va : Nat) (f g : Nat) :
    frames_apart (pml4_set_accessed s s.cur va false) f g ↔ frames_apart s f g := by
  unfold frames_apart
  simp only [pml4_set_accessed_frames, pml4_set_accessed_pages]

/-- The scan over frames that all hold a page with the accessed bit set, at
pairwise different page addresses: it returns the last frame, or the frame it
started with when the list is empty; it clears the bit of every frame of the
list and keeps the bit of every frame whose page lies elsewhere. -/
theorem vm_get_victim_scan_all_accessed (l : List Nat) :
    ∀ (s : KState) (w : Option Nat),
      (∀ f ∈ l, frame_accessed s f = some true) →
      l.Pairwise (frames_apart s) →
      (vm_get_victim_scan s l w).1 = (l.getLast?).or w ∧
      (∀ f ∈ l, frame_accessed (vm_get_victim_scan s l w).2 f = some false) ∧
      (∀ g, (∀ f ∈ l, frames_apart s f g) →
        frame_accessed (vm_get_victim_scan s l w).2 g = frame_accessed s g) := by
  induction l with
  | nil =>
    intro s w _ _
    exact ⟨by simp [vm_get_victim_scan], fun f hf => absurd hf (List.not_mem_nil f),
      fun g _ => rfl⟩
  | cons f rest ih =>
    intro s w hacc hpw
    have hf := hacc f (List.mem_cons_self _ _)
    unfold frame_accessed at hf
    cases hp : (s.frames f).page with
    | none => simp [hp] at hf
    | some p =>
      simp only [hp, Option.some.injEq] at hf
      rw [List.pairwise_cons] at hpw
      obtain ⟨hfa, hpr⟩ := hpw
      -- the state after the bit of `f` is cleared
      have hacc1 : ∀ g ∈ rest,
          frame_accessed (pml4_set_accessed s s.cur (s.pages p).va false) g = some true := by
        intro g hg
        rw [frame_accessed_set]
        have hg1 := hacc g (List.mem_cons_of_mem _ hg)
        unfold frame_accessed at hg1
        cases hq : (s.frames g).page with
        | none => simp [hq] at hg1
        | some q =>
          simp only [hq] at hg1 ⊢
          have hne := hfa g hg p q hp hq
          rw [if_neg (Ne.symm hne)]
          exact hg1
      have hpr1 : rest.Pairwise (frames_apart (pml4_set_accessed s s.cur (s.pages p).va false)) :=
        hpr.imp (fun h => (frames_apart_set s _ _ _).2 h)
      obtain ⟨i1, i2, i3⟩ := ih (pml4_set_accessed s s.cur (s.pages p).va false) (some f)
        hacc1 hpr1
      have hunf : vm_get_victim_scan s (f :: rest) w
          = vm_get_victim_scan (pml4_set_accessed s s.cur (s.pages p).va false) rest (some f) := by
        rw [vm_get_victim_scan]
        simp only [hp, hf, if_true]
      rw [hunf]
      refine ⟨?_, ?_, ?_⟩
      · rw [i1]
        cases rest with
        | nil => rfl
        | cons a t =>
          rw [List.getLast?_cons_cons]
          cases hl : (a :: t).getLast? with
          | none => simp at hl
          | some x => rfl
      · intro g hg
        rw [List.mem_cons] at hg
        rcases hg with rfl | hg
        · rw [i3 g (fun x hx => (frames_apart_set s _ _ _).2
            (fun a c ha hc => Ne.symm (hfa x hx c a hc ha)))]
          rw [frame_accessed_set, hp]
          simp
        · exact i2 g hg
      · intro g hg
        rw [i3 g (fun x hx => (frames_apart_set s _ _ _).2
          (hg x (List.mem_cons_of_mem _ hx)))]
        rw [frame_accessed_set]
        cases hq : (s.frames g).page with
        | none => simp [frame_accessed, hq]
        | some q =>
          have hne := hg f (List.mem_cons_self _ _) p q hp hq
          simp [frame_accessed, hq, Ne.symm hne]

/-- Claim C13, as stated, fails: in a table of two frames whose pages, at
different addresses, both have the accessed bit set, `vm_get_victim` returns
the last frame, `4`, and not `NULL`. -/
theorem vm_get_victim_all_accessed_example :
    accessed_state.frame_table = [2, 4] ∧
    frame_accessed accessed_state 2 = some true ∧
    frame_accessed accessed_state 4 = some true ∧
    (vm_get_victim accessed_state).1 = some 4 := by
  decide

/-- Claim C13, amended.  For a non-empty frame table in which every frame
holds a page whose accessed bit is set, the pages lying at pairwise
different page addresses, the scan of `vm_get_victim` reaches the end and
returns the last frame of the table, not `NULL`, with every accessed bit
cleared. -/
theorem vm_get_victim_all_accessed (s : KState)
    (hne : s.frame_table ≠ [])
    (hacc : ∀ f ∈ s.frame_table, frame_accessed s f = some true)
    (hpw : s.frame_table.Pairwise (frames_apart s)) :
    (vm_get_victim s).1 = s.frame_table.getLast? ∧ (vm_get_victim s).1 ≠ none ∧
    (∀ f ∈ s.frame_table, frame_accessed (vm_get_victim s).2 f = some false) := by
  obtain ⟨h1, h2, -⟩ := vm_get_victim_scan_all_accessed s.frame_table s none hacc hpw
  have h3 : (vm_get_victim s).1 = s.frame_table.getLast? := by
    unfold vm_get_victim
    rw [h1]
    simp
  refine ⟨h3, ?_, h2⟩
  rw [h3]
  simpa using hne

/-- The instance of the amended C13 on the table of `accessed_state`. -/
theorem vm_get_victim_all_accessed_witness :
    accessed_state.frame_table ≠ [] ∧
    (∀ f ∈ accessed_state.frame_table, frame_accessed accessed_state f = some true) ∧
    accessed_state.frame_table.Pairwise (frames_apart accessed_state) ∧
    ((vm_get_victim accessed_state).1 = accessed_state.frame_table.getLast? ∧
     (vm_get_victim accessed_state).1 ≠ none ∧
     (∀ f ∈ accessed_state.frame_table,
        frame_accessed (vm_get_victim accessed_state).2 f = some false)) :=
  have h1 : accessed_state.frame_table ≠ [] := by decide
  have h2 : ∀ f ∈ accessed_state.frame_table, frame_accessed accessed_state f = some true := by
    decide
  have h3 : accessed_state.frame_table.Pairwise (frames_apart accessed_state) := by
    have : accessed_state.frame_table = [2, 4] := rfl
    rw [this]
    refine List.Pairwise.cons ?_ (List.Pairwise.cons ?_ List.Pairwise.nil)
    · intro g hg
      rw [List.mem_singleton] at hg
      subst hg
      intro p q hp hq
      have hp' : p = 3 := by cases hp; rfl
      have hq' : q = 5 := by cases hq; rfl
      subst hp' hq'
      decide
    · intro g hg
      exact absurd hg (List.not_mem_nil g)
  ⟨h1, h2, h3, vm_get_victim_all_accessed accessed_state h1 h2 h3⟩

/-! ## The victim scan: the first frame that is free or not accessed -/

/-- The scan over frames with the accessed bit set, followed by a frame `v`
that is free or whose bit is clear: it returns `v`, clears the bit of every
frame before `v` and keeps the bit of every frame whose page lies
elsewhere. -/
theorem vm_get_victim_scan_first (pre : List Nat) :
    ∀ (s : KState) (w : Option Nat) (v : Nat) (post : List Nat),
      (∀ f ∈ pre, frame_accessed s f = some true) →
      frame_accessed s v ≠ some true →
      pre.Pairwise (frames_apart s) →
      (∀ f ∈ pre, frames_apart s f v) →
      (vm_get_victim_scan s (pre ++ v :: post) w).1 = some v ∧
      (∀ f ∈ pre, frame_accessed (vm_get_victim_scan s (pre ++ v :: post) w).2 f
        = some false) ∧
      (∀ g, (∀ f ∈ pre, frames_apart s f g) →
        frame_accessed (vm_get_victim_scan s (pre ++ v :: post) w).2 g
          = frame_accessed s g) := by
  induction pre with
  | nil =>
    intro s w v post _ hv _ _
    have hunf : vm_get_victim_scan s ([] ++ v :: post) w = (some v, s) := by
      simp only [List.nil_append]
      rw [vm_get_victim_scan]
      unfold frame_accessed at hv
      cases hp : (s.frames v).page with
      | none => rfl
      | some p =>
        simp only [hp, ne_eq, Option.some.injEq, Bool.not_eq_true] at hv
        simp only [hv, Bool.false_eq_true, if_false]
    rw [hunf]
    exact ⟨rfl, fun f hf => absurd hf (List.not_mem_nil f), fun g _ => rfl⟩
  | cons f rest ih =>
    intro s w v post hacc hv hpw hpv
    have hf := hacc f (List.mem_cons_self _ _)
    unfold frame_accessed at hf
    cases hp : (s.frames f).page with
    | none => simp [hp] at hf
    | some p =>
      simp only [hp, Option.some.injEq] at hf
      rw [List.pairwise_cons] at hpw
      obtain ⟨hfa, hpr⟩ := hpw
      have hkeep : ∀ g, frames_apart s f g →
          frame_accessed (pml4_set_accessed s s.cur (s.pages p).va false) g
            = frame_accessed s g := by
        intro g hg
        rw [frame_accessed_set]
        cases hq : (s.frames g).page with
        | none => simp [frame_accessed, hq]
        | some q =>
          have hne := hg p q hp hq
          simp [frame_accessed, hq, Ne.symm hne]
      have hacc1 : ∀ g ∈ rest,
          frame_accessed (pml4_set_accessed s s.cur (s.pages p).va false) g = some true := by
        intro g hg
        rw [hkeep g (hfa g hg)]
        exact hacc g (List.mem_cons_of_mem _ hg)
      have hv1 : frame_accessed (pml4_set_accessed s s.cur (s.pages p).va false) v
          ≠ some true := by
        rw [hkeep v (hpv f (List.mem_cons_self _ _))]
        exact hv
      have hpr1 : rest.Pairwise (frames_apart (pml4_set_accessed s s.cur (s.pages p).va false)) :=
        hpr.imp (fun h => (frames_apart_set s _ _ _).2 h)
      have hpv1 : ∀ x ∈ rest,
          frames_apart (pml4_set_accessed s s.cur (s.pages p).va false) x v :=
        fun x hx => (frames_apart_set s _ _ _).2 (hpv x (List.mem_cons_of_mem _ hx))
      obtain ⟨i1, i2, i3⟩ := ih (pml4_set_accessed s s.cur (s.pages p).va false) (some f)
        v post hacc1 hv1 hpr1 hpv1
      have hunf : vm_get_victim_scan s ((f :: rest) ++ v :: post) w
          = vm_get_victim_scan (pml4_set_accessed s s.cur (s.pages p).va false)
              (rest ++ v :: post) (some f) := by
        simp only [List.cons_append]
        rw [vm_get_victim_scan]
        simp only [hp, hf, if_true]
      rw [hunf]
      refine ⟨i1, ?_, ?_⟩
      · intro g hg
        rw [List.mem_cons] at hg
        rcases hg with rfl | hg
        · rw [i3 g (fun x hx => (frames_apart_set s _ _ _).2
            (fun a c ha hc => Ne.symm (hfa x hx c a hc ha)))]
          rw [frame_accessed_set, hp]
          simp
        · exact i2 g hg
      · intro g hg
        rw [i3 g (fun x hx => (frames_apart_set s _ _ _).2
          (hg x (List.mem_cons_of_mem _ hx)))]
        exact hkeep g (hg f (List.mem_cons_self _ _))

/-- Claim C12, as stated, fails: the pages of the frames `2` and `4` both lie
at `0x1000`, whose accessed bit is set, and the frame `6` is free; the first
frame that is free or not accessed when the scan begins is `6`, yet
`vm_get_victim` returns `4`, whose bit the scan itself cleared at the frame
`2`. -/
theorem vm_get_victim_alias_example :
    alias_state.frame_table = [2, 4, 6] ∧
    frame_accessed alias_state 2 = some true ∧
    frame_accessed alias_state 4 = some true ∧
    frame_accessed alias_state 6 = none ∧
    (vm_get_victim alias_state).1 = some 4 := by
  decide

/-- Claim C12, amended.  When the pages resident in the frames of the table
lie at pairwise different page addresses and `v` is the first frame of the
table that has no page or whose page has the accessed bit clear (in the page
table of the running thread) when the scan begins, `vm_get_victim` returns
`v`; on return the accessed bit of the page of every frame before `v` is
clear, and that of `v` and of every later frame is as before. -/
theorem vm_get_victim_first (s : KState) (pre : List Nat) (v : Nat) (post : List Nat)
    (htab : s.frame_table = pre ++ v :: post)
    (hacc : ∀ f ∈ pre, frame_accessed s f = some true)
    (hv : frame_accessed s v = none ∨ frame_accessed s v = some false)
    (hpw : s.frame_table.Pairwise (frames_apart s)) :
    (vm_get_victim s).1 = some v ∧
    (∀ f ∈ pre, frame_accessed (vm_get_victim s).2 f = some false) ∧
    (∀ g ∈ v :: post, frame_accessed (vm_get_victim s).2 g = frame_accessed s g) := by
  rw [htab, List.pairwise_append] at hpw
  obtain ⟨hp1, -, hp3⟩ := hpw
  have hv' : frame_accessed s v ≠ some true := by
    rcases hv with h | h <;> rw [h] <;> simp
  obtain ⟨i1, i2, i3⟩ := vm_get_victim_scan_first pre s none v post hacc hv' hp1
    (fun f hf => hp3 f hf v (List.mem_cons_self _ _))
  unfold vm_get_victim
  rw [htab]
  exact ⟨i1, i2, fun g hg => i3 g (fun f hf => hp3 f hf g hg)⟩

/-- The instance of the amended C12 on the table of `second_chance_state`:
two accessed frames, then a free one. -/
theorem vm_get_victim_first_witness :
    second_chance_state.frame_table = [2, 4] ++ 6 :: [] ∧
    (∀ f ∈ [2, 4], frame_accessed second_chance_state f = some true) ∧
    (frame_accessed second_chance_state 6 = none ∨
      frame_accessed second_chance_state 6 = some false) ∧
    second_chance_state.frame_table.Pairwise (frames_apart second_chance_state) ∧
    ((vm_get_victim second_chance_state).1 = some 6 ∧
     (∀ f ∈ [2, 4], frame_accessed (vm_get_victim second_chance_state).2 f = some false) ∧
     (∀ g ∈ 6 :: [], frame_accessed (vm_get_victim second_chance_state).2 g
        = frame_accessed second_chance_state g)) :=
  have h2 : ∀ f ∈ [2, 4], frame_accessed second_chance_state f = some true := by decide
  have h4 : second_chance_state.frame_table.Pairwise (frames_apart second_chance_state) := by
    have : second_chance_state.frame_table = [2, 4, 6] := rfl
    rw [this]
    have h24 : frames_apart second_chance_state 2 4 := by
      intro p q hp hq
      have hp' : p = 3 := by cases hp; rfl
      have hq' : q = 5 := by cases hq; rfl
      subst hp' hq'
      decide
    have h6 : ∀ f, frames_apart second_chance_state f 6 := by
      intro f p q _ hq
      cases hq
    refine List.Pairwise.cons ?_ (List.Pairwise.cons ?_ (List.Pairwise.cons ?_ List.Pairwise.nil))
    · intro g hg
      simp only [List.mem_cons, List.mem_singleton, List.not_mem_nil, or_false] at hg
      rcases hg with rfl | rfl
      · exact h24
      · exact h6 2
    · intro g hg
      rw [List.mem_singleton] at hg
      subst hg
      exact h6 4
    · intro g hg
      exact absurd hg (List.not_mem_nil g)
  ⟨rfl, h2, Or.inl rfl, h4,
   vm_get_victim_first second_chance_state [2, 4] 6 [] rfl h2 (Or.inl rfl) h4⟩

/-! ## Eviction liveness -/

theorem i32_of_small {n : Int} (h0 : 0 ≤ n) (h1 : n < 2147483648) : i32 n = n := by
  unfold i32
  omega

theorem u64_of_nat {n : Nat} (h : n < 2 ^ 64) : u64 (n : Int) = n := by
  unfold u64
  omega

theorem u64_add_page {addr : Nat} (h : addr + PGSIZE < 2 ^ 64) :
    u64 ((addr : Int) + PGSIZE) = addr + PGSIZE := by
  unfold u64
  unfold PGSIZE at h ⊢
  omega

/-- The loop with its addresses written down leaves the state of the loop of
`do_munmap`, and returns when that loop does. -/
theorem do_munmap_trace_snd (spt : Nat) :
    ∀ (n : Nat) (s : KState) (addr : Nat) (p : Option Nat),
      (do_munmap_trace spt n s addr p).map Prod.snd = do_munmap_loop spt n s addr p := by
  intro n
  induction n with
  | zero => intro s addr p; rfl
  | succ n ih =>
    intro s addr p
    have hstep : ∀ s1 : KState,
        Option.map Prod.snd
          (match do_munmap_trace spt n s1 (u64 ((addr : Int) + PGSIZE))
              (spt_find_page s1 spt (u64 ((addr : Int) + PGSIZE))) with
            | none => none
            | some (l, s2) => some (addr :: l, s2))
        = do_munmap_loop spt n s1 (u64 ((addr : Int) + PGSIZE))
            (spt_find_page s1 spt (u64 ((addr : Int) + PGSIZE))) := by
      intro s1
      rw [← ih]
      cases do_munmap_trace spt n s1 (u64 ((addr : Int) + PGSIZE))
        (spt_find_page s1 spt (u64 ((addr : Int) + PGSIZE))) with
      | none => rfl
      | some r => rfl
    simp only [do_munmap_trace, do_munmap_loop]
    cases p with
    | none => exact hstep s
    | some q =>
      cases hd : file_backed_destroy s q with
      | none => simp [hd]
      | some s1 =>
        simp only [hd]
        exact hstep s1

/-- What `file_backed_destroy` leaves when it returns: the pages, the tables
and the running thread are the same, and an entry of a page table is the one
it was or is cleared. -/
theorem file_backed_destroy_effect {s s1 : KState} {p : Nat}
    (h : file_backed_destroy s p = some s1) :
    s1.pages = s.pages ∧ s1.spt = s.spt ∧ s1.cur = s.cur ∧
    ∀ t n, s1.pml4 t n = none ∨ s1.pml4 t n = s.pml4 t n := by
  have hclear : ∀ (x : KState) (va : Nat), x.pages = s.pages → x.spt = s.spt →
      x.cur = s.cur →
      (∀ t n, ¬ (t = s.cur ∧ n = va / PGSIZE) → x.pml4 t n = s.pml4 t n) →
      (pml4_clear_page x x.cur va).pages = s.pages ∧
      (pml4_clear_page x x.cur va).spt = s.spt ∧
      (pml4_clear_page x x.cur va).cur = s.cur ∧
      ∀ t n, (pml4_clear_page x x.cur va).pml4 t n = none ∨
        (pml4_clear_page x x.cur va).pml4 t n = s.pml4 t n := by
    intro x va h1 h2 h3 h4
    refine ⟨h1, h2, h3, ?_⟩
    intro t n
    by_cases hk : t = s.cur ∧ n = va / PGSIZE
    · left
      simp [pml4_clear_page, pml4_put, h3, hk]
    · right
      simp only [pml4_clear_page, pml4_put, h3, hk, if_false]
      exact h4 t n hk
  unfold file_backed_destroy at h
  cases hg : pml4_get s s.cur (s.pages p).va with
  | none =>
    simp only [hg, Option.some.injEq] at h
    rw [← h]
    exact hclear s _ rfl rfl rfl (fun _ _ _ => rfl)
  | some e =>
    simp only [hg] at h
    by_cases hd : e.dirty = true
    · simp only [hd, if_true] at h
      cases hops : (s.pages p).operations with
      | uninit_ops => simp [hops] at h
      | anon_ops => simp [hops] at h
      | file_ops =>
        simp only [hops, Option.some.injEq] at h
        rw [← h]
        apply hclear
        · simp
        · simp
        · simp
        · intro t n hk
          simp only [pml4_set_dirty, pml4_get, file_write_at]
          split
          · simp only [pml4_put]
            rw [if_neg hk]
          · rfl
    · simp only [hd, Bool.false_eq_true, if_false, Option.some.injEq] at h
      rw [← h]
      exact hclear s _ rfl rfl rfl (fun _ _ _ => rfl)

/-- On a page that is not dirty, or is file-backed, `file_backed_destroy`
returns. -/
theorem file_backed_destroy_returns (s : KState) (p : Nat)
    (h : pml4_is_dirty s s.cur (s.pages p).va = true →
      (s.pages p).operations = .file_ops) :
    ∃ s1, file_backed_destroy s p = some s1 := by
  unfold file_backed_destroy
  unfold pml4_is_dirty at h
  dsimp only
  cases hg : pml4_get s s.cur (s.pages p).va with
  | none => exact ⟨_, rfl⟩
  | some e =>
    simp only [hg] at h
    by_cases hd : e.dirty = true
    · simp only [hd, if_true, h hd]
      exact ⟨_, rfl⟩
    · simp only [hd, Bool.false_eq_true, if_false]
      exact ⟨_, rfl⟩

/-- Through the table of operations `file_backed_destroy` returns, and
`destroy` is its result. -/
theorem destroy_file_ops (s : KState) (p : Nat)
    (h : (s.pages p).operations = .file_ops) :
    file_backed_destroy s p = some (destroy s p) := by
  obtain ⟨s1, h1⟩ := file_backed_destroy_returns s p (fun _ => h)
  unfold destroy
  simp only [h, h1]

theorem munmap_clean_step {s s1 : KState} {addr n q : Nat}
    (hc : munmap_clean s addr (n + 1))
    (hd : file_backed_destroy s q = some s1) :
    munmap_clean s1 (addr + PGSIZE) n := by
  obtain ⟨e1, e2, e3, e4⟩ := file_backed_destroy_effect hd
  intro i hi p hp hdirty
  have hfind : spt_find_page s s.cur (addr + (i + 1) * PGSIZE) = some p := by
    rw [← hp, e3]
    have ha : addr + PGSIZE + i * PGSIZE = addr + (i + 1) * PGSIZE := by ring
    rw [ha]
    exact spt_find_page_congr _ (by rw [e2]) (fun _ _ => by rw [e1])
  rw [e1]
  apply hc (i + 1) (by omega) p hfind
  rw [e1, e3] at hdirty
  unfold pml4_is_dirty pml4_get at hdirty ⊢
  rcases e4 s.cur ((s.pages p).va / PGSIZE) with h0 | h0
  · rw [h0] at hdirty
    cases hdirty
  · rw [← h0]
    exact hdirty

/-- The `n` turns of the loop of `do_munmap` over addresses at which no page
is dirty without being file-backed return, and go over `n` consecutive page
addresses. -/
theorem do_munmap_trace_returns :
    ∀ (n : Nat) (s : KState) (addr : Nat) (p : Option Nat),
      addr + (n - 1) * PGSIZE < 2 ^ 64 →
      p = spt_find_page s s.cur addr →
      munmap_clean s addr n →
      ∃ s2, do_munmap_trace s.cur n s addr p
        = some ((List.range n).map (fun i => addr + i * PGSIZE), s2) := by
  intro n
  induction n with
  | zero => intro s addr p _ _ _; exact ⟨s, rfl⟩
  | succ n ih =>
    intro s addr p h hp hc
    have htail : ∀ s1 : KState, s1.cur = s.cur → munmap_clean s1 (addr + PGSIZE) n →
        ∃ s2, (match do_munmap_trace s.cur n s1 (u64 ((addr : Int) + PGSIZE))
              (spt_find_page s1 s.cur (u64 ((addr : Int) + PGSIZE))) with
            | none => none
            | some (l, s2) => some (addr :: l, s2))
          = some ((List.range (n + 1)).map (fun i => addr + i * PGSIZE), s2) := by
      intro s1 hcur hc1
      cases n with
      | zero => exact ⟨s1, rfl⟩
      | succ m =>
        have hpg : addr + PGSIZE < 2 ^ 64 := by
          simp only [Nat.add_sub_cancel] at h
          unfold PGSIZE at h ⊢
          omega
        rw [u64_add_page hpg]
        have hnext : addr + PGSIZE + (m + 1 - 1) * PGSIZE < 2 ^ 64 := by
          simp only [Nat.add_sub_cancel] at h ⊢
          unfold PGSIZE at h ⊢
          omega
        obtain ⟨s2, h2⟩ := ih s1 (addr + PGSIZE)
          (spt_find_page s1 s1.cur (addr + PGSIZE)) hnext rfl hc1
        rw [hcur] at h2
        rw [h2]
        refine ⟨s2, ?_⟩
        simp only [Option.some.injEq, Prod.mk.injEq, and_true]
        rw [List.range_succ_eq_map (m + 1)]
        simp only [List.map_cons, List.map_map, Nat.zero_mul, Nat.add_zero, List.cons.injEq,
          true_and]
        apply List.map_congr_left
        intro i _
        simp only [Function.comp, Nat.succ_eq_add_one]
        ring
    simp only [do_munmap_trace]
    cases p with
    | none =>
      apply htail s rfl
      intro i hi q hq hd
      have ha : addr + PGSIZE + i * PGSIZE = addr + (i + 1) * PGSIZE := by ring
      rw [ha] at hq
      exact hc (i + 1) (by omega) q hq hd
    | some q =>
      have h0 : spt_find_page s s.cur (addr + 0 * PGSIZE) = some q := by
        rw [Nat.zero_mul, Nat.add_zero]
        exact hp.symm
      obtain ⟨s1, hd⟩ := file_backed_destroy_returns s q (hc 0 (by omega) q h0)
      simp only [hd]
      exact htail s1 (file_backed_destroy_effect hd).2.2.1 (munmap_clean_step hc hd)

/-- What a completed loop of `do_mmap` that returns an address leaves: the
address is `start_addr`, the running thread is the same, and unless the loop
made no turn the page found at `start_addr` carries the count of pages. -/
theorem do_mmap_loop_inv (f : Nat) (w : Bool) (start : Nat) (total : Int) :
    ∀ (fuel : Nat) (s : KState) (rb zb addr : Nat) (off : Int) (a : Nat) (s' : KState),
      do_mmap_loop f w start total fuel s rb zb addr off = some (some a, s') →
      a = start ∧ s'.cur = s.cur ∧
      ((rb = 0 ∧ zb = 0 ∧ s' = s) ∨
        ∃ p, spt_find_page s' s.cur start = some p ∧
          (s'.pages p).mapped_page_count = total) := by
  intro fuel
  induction fuel with
  | zero =>
    intro s rb zb addr off a s' h
    simp [do_mmap_loop] at h
  | succ fuel ih =>
    intro s rb zb addr off a s' h
    rw [do_mmap_loop] at h
    by_cases hc : rb > 0 ∨ zb > 0
    · simp only [hc, if_true, malloc] at h
      cases ha : vm_alloc_page_with_initializer
          (set_entry { s with next := s.next + 1 } s.next
            { f := f, offset := off,
              read_bytes := if rb < PGSIZE then rb else PGSIZE,
              zero_bytes := PGSIZE - if rb < PGSIZE then rb else PGSIZE })
          VM_FILE addr w (some .lazy_load_segment) (some s.next) with
      | none => simp [ha] at h
      | some r =>
        obtain ⟨bb, s2⟩ := r
        simp only [ha] at h
        have hcur2 : s2.cur = s.cur := (vm_alloc_cur ha).trans rfl
        cases bb with
        | false => simp at h
        | true =>
          simp only at h
          cases hf : spt_find_page s2 s2.cur start with
          | none => simp [hf] at h
          | some p =>
            simp only [hf] at h
            obtain ⟨e1, e2, e3⟩ := ih _ _ _ _ _ _ _ h
            have hc3 : (set_page s2 p
                { s2.pages p with mapped_page_count := total }).cur = s.cur := hcur2
            refine ⟨e1, e2.trans hc3, Or.inr ?_⟩
            rcases e3 with ⟨-, -, rfl⟩ | ⟨q, hq1, hq2⟩
            · refine ⟨p, ?_, ?_⟩
              · rw [← hcur2, ← hf]
                apply spt_find_page_congr
                · rfl
                · intro e _
                  by_cases he : e = p
                  · rw [he, set_page_pages_same]
                  · rw [set_page_pages_other _ _ _ he]
              · simp
            · exact ⟨q, by rw [← hc3]; exact hq1, hq2⟩
    · simp only [hc, if_false, Option.some.injEq, Prod.mk.injEq] at h
      obtain ⟨h1, h2⟩ := h
      refine ⟨h1.symm, by rw [h2], Or.inl ⟨by omega, by omega, h2.symm⟩⟩

/-- A completed call of `do_mmap` passed its three assertions and is the
result of its loop. -/
theorem do_mmap_some {s : KState} {addr length : Nat} {w : Bool} {file : Nat}
    {offset : Int} {r : Option Nat × KState}
    (hm : do_mmap s addr length w file offset = some r) :
    ∃ (f : Nat) (s0 : KState) (rb : Nat) (total : Int),
      file_reopen s file = (f, s0) ∧
      rb = (if u64 (file_length s0 f) < length then u64 (file_length s0 f) else length) ∧
      total = (if length ≤ PGSIZE then 1
        else if length % PGSIZE ≠ 0 then i32 (length / PGSIZE + 1)
        else i32 (length / PGSIZE)) ∧
      pg_ofs addr = 0 ∧ offset % PGSIZE = 0 ∧
      do_mmap_loop f w addr total (rb / PGSIZE + 2) s0 rb (PGSIZE - rb % PGSIZE) addr offset
        = some r := by
  unfold do_mmap at hm
  generalize hfr : file_reopen s file = fr at hm
  obtain ⟨f, s0⟩ := fr
  simp only at hm
  refine ⟨f, s0, _, _, rfl, rfl, rfl, ?_⟩
  generalize (if u64 (file_length s0 f) < length then u64 (file_length s0 f) else length)
    = rb at hm ⊢
  generalize (if length ≤ PGSIZE then (1 : Int)
        else if length % PGSIZE ≠ 0 then i32 (length / PGSIZE + 1)
        else i32 (length / PGSIZE)) = total at hm ⊢
  have h1 : ¬ u64 ((rb + (PGSIZE - rb % PGSIZE) : Nat) : Int) % PGSIZE ≠ 0 := by
    unfold u64 PGSIZE
    omega
  rw [if_neg h1] at hm
  by_cases h2 : pg_ofs addr ≠ 0
  · rw [if_pos h2] at hm
    cases hm
  · by_cases h3 : offset % PGSIZE ≠ 0
    · rw [if_neg h2, if_pos h3] at hm
      cases hm
    · rw [if_neg h2, if_neg h3] at hm
      exact ⟨not_not.1 h2, not_not.1 h3, hm⟩

/-- Claim C19, as stated, fails, in two ways.  The count is kept in an `int`:
the call `do_mmap (0x100000000, 2^64 - 2^32 + 4096, 1, f, 0)`, which is the
one that `mmap` makes for these arguments (the end of the region wraps
around to `0x1000`, a user address, and `(int) length` is `4096`), returns
`0x100000000`; the page there has a `mapped_page_count` of `-1048575`, not
the `4503599626321921` pages of the length, and the loop of `do_munmap` makes
no turn.  And the loop of `do_munmap` runs `file_backed_destroy` on whatever
page it finds: in `dirty_anon_state`, where a dirty anonymous page lies at
`0x4000`, the call `do_mmap (0x2000, 3 * 4096, 0, f, 0)`, which is the one
that `mmap` makes, returns `0x2000` with a count of 3, and `do_munmap
(0x2000)` does not return: its third turn finds the anonymous page. -/
theorem do_mmap_count_fails :
    ((mmap mmap_state 0x100000000 (2 ^ 64 - 2 ^ 32 + 4096) true 3 0).map Prod.fst
      = some (some 0x100000000) ∧
    process_get_file mmap_state 3 = some 5 ∧
    (do_mmap mmap_state 0x100000000 (2 ^ 64 - 2 ^ 32 + 4096) true 5 0).map
      (fun r => (r.1,
        (spt_find_page r.2 r.2.cur 0x100000000).map
          (fun p => ((r.2.pages p).mapped_page_count,
            (do_munmap_trace r.2.cur (r.2.pages p).mapped_page_count.toNat r.2
              0x100000000 (some p)).map Prod.fst))))
      = some (some 0x100000000, some (-1048575, some [])) ∧
    (2 ^ 64 - 2 ^ 32 + 4096 + PGSIZE - 1) / PGSIZE = 4503599626321921) ∧
    ((mmap dirty_anon_state 0x2000 (3 * 4096) false 3 0).map Prod.fst = some (some 0x2000) ∧
    process_get_file dirty_anon_state 3 = some 5 ∧
    (do_mmap dirty_anon_state 0x2000 (3 * 4096) false 5 0).map
      (fun r => (r.1,
        (spt_find_page r.2 r.2.cur 0x2000).map (fun p => (r.2.pages p).mapped_page_count),
        (spt_find_page r.2 r.2.cur 0x4000).map
          (fun p => ((r.2.pages p).operations.type, pml4_is_dirty r.2 r.2.cur (r.2.pages p).va)),
        (do_munmap r.2 0x2000).isSome))
      = some (some 0x2000, some 3, some (VM_ANON, true), false)) :=
  ⟨⟨by decide, by decide, by decide, by decide⟩, by decide, by decide, by rfl⟩

/-- Claim C19, amended.  For every completed call of `do_mmap` that returns
an address, with `0 < length`, a count of pages `length / PGSIZE + 1` that
fits in an `int`, a region that ends within the 64-bit address space, and no
page at one of the page addresses of the region that is dirty without being
file-backed: the address returned is `addr`, the page found there has
`mapped_page_count` equal to the ceiling of `length / PGSIZE`, and
`do_munmap` at `addr` returns after that many turns of its loop, which go
over the consecutive page addresses `addr`, `addr + PGSIZE`, and so on. -/
theorem do_mmap_page_count (s s' : KState) (addr length : Nat) (w : Bool) (file : Nat)
    (offset : Int) (a : Nat)
    (hm : do_mmap s addr length w file offset = some (some a, s'))
    (hpos : 0 < length) (hlen : length / PGSIZE + 1 < 2 ^ 31)
    (hadr : addr + length ≤ 2 ^ 64)
    (hclean : munmap_clean s' addr ((length + PGSIZE - 1) / PGSIZE)) :
    a = addr ∧
    ∃ p s'', spt_find_page s' s'.cur addr = some p ∧
      (s'.pages p).mapped_page_count = (((length + PGSIZE - 1) / PGSIZE : Nat) : Int) ∧
      do_munmap s' addr = some s'' ∧
      do_munmap_trace s'.cur ((length + PGSIZE - 1) / PGSIZE) s' addr (some p)
        = some ((List.range ((length + PGSIZE - 1) / PGSIZE)).map
            (fun i => addr + i * PGSIZE), s'') := by
  obtain ⟨f, s0, rb, total, hfr, hrb, htot, -, -, hl⟩ := do_mmap_some hm
  have hs0 : s0.cur = s.cur := by
    unfold file_reopen at hfr
    simp only [Prod.mk.injEq] at hfr
    rw [← hfr.2]
  obtain ⟨e1, e2, e3⟩ := do_mmap_loop_inv _ _ _ _ _ _ _ _ _ _ _ _ hl
  have hcur : s'.cur = s0.cur := e2
  refine ⟨e1, ?_⟩
  rcases e3 with ⟨-, hz, -⟩ | ⟨p, hp1, hp2⟩
  · exfalso
    have := Nat.mod_lt rb (show 0 < PGSIZE by decide)
    omega
  · have hp1' : spt_find_page s' s'.cur addr = some p := by
      rw [hcur]
      exact hp1
    have hcount : (s'.pages p).mapped_page_count
        = (((length + PGSIZE - 1) / PGSIZE : Nat) : Int) := by
      rw [hp2, htot]
      unfold PGSIZE at hlen ⊢
      split
      · omega
      · split
        · rw [i32_of_small (by omega) (by omega)]
          omega
        · rw [i32_of_small (by omega) (by omega)]
          omega
    have hend : addr + ((length + PGSIZE - 1) / PGSIZE - 1) * PGSIZE < 2 ^ 64 := by
      have : (length + PGSIZE - 1) / PGSIZE * PGSIZE ≤ length + PGSIZE - 1 :=
        Nat.div_mul_le_self _ _
      have h1 : 1 ≤ (length + PGSIZE - 1) / PGSIZE := by
        unfold PGSIZE
        omega
      have h2 : ((length + PGSIZE - 1) / PGSIZE - 1) * PGSIZE + PGSIZE
          = (length + PGSIZE - 1) / PGSIZE * PGSIZE := by
        rw [← Nat.succ_mul, Nat.succ_eq_add_one, Nat.sub_add_cancel h1]
      unfold PGSIZE at this h2 ⊢
      omega
    obtain ⟨s'', htr⟩ := do_munmap_trace_returns _ s' addr (some p) hend hp1'.symm hclean
    refine ⟨p, s'', hp1', hcount, ?_, htr⟩
    unfold do_munmap
    simp only [hp1', hcount, Int.toNat_ofNat]
    rw [← do_munmap_trace_snd, htr]
    rfl

/-- The instance of the amended C19 on the mapping of 5000 bytes at `0x2000`:
a count of two pages. -/
theorem do_mmap_page_count_witness :
    do_mmap mmap_state 0x2000 5000 false 5 0
      = some (some 0x2000, ((do_mmap mmap_state 0x2000 5000 false 5 0).getD (none, boot)).2) ∧
    0 < 5000 ∧ 5000 / PGSIZE + 1 < 2 ^ 31 ∧ 0x2000 + 5000 ≤ 2 ^ 64 ∧
    munmap_clean ((do_mmap mmap_state 0x2000 5000 false 5 0).getD (none, boot)).2 0x2000
      ((5000 + PGSIZE - 1) / PGSIZE) ∧
    (0x2000 = 0x2000 ∧
     ∃ p s'', spt_find_page ((do_mmap mmap_state 0x2000 5000 false 5 0).getD (none, boot)).2
          ((do_mmap mmap_state 0x2000 5000 false 5 0).getD (none, boot)).2.cur 0x2000 = some p ∧
      ((((do_mmap mmap_state 0x2000 5000 false 5 0).getD (none, boot)).2.pages p).mapped_page_count
        = (((5000 + PGSIZE - 1) / PGSIZE : Nat) : Int)) ∧
      do_munmap ((do_mmap mmap_state 0x2000 5000 false 5 0).getD (none, boot)).2 0x2000
        = some s'' ∧
      do_munmap_trace
            ((do_mmap mmap_state 0x2000 5000 false 5 0).getD (none, boot)).2.cur
            ((5000 + PGSIZE - 1) / PGSIZE)
            ((do_mmap mmap_state 0x2000 5000 false 5 0).getD (none, boot)).2 0x2000
            (some p)
        = some ((List.range ((5000 + PGSIZE - 1) / PGSIZE)).map
            (fun i => 0x2000 + i * PGSIZE), s'')) :=
  have hc : munmap_clean ((do_mmap mmap_state 0x2000 5000 false 5 0).getD (none, boot)).2
      0x2000 ((5000 + PGSIZE - 1) / PGSIZE) :=
    fun _ _ _ _ hd => Bool.noConfusion hd
  ⟨rfl, by decide, by decide, by decide, hc,
   do_mmap_page_count mmap_state _ 0x2000 5000 false 5 0 0x2000 rfl (by decide) (by decide)
     (by decide) hc⟩

/-! ## Memory-mapped files: when `mmap` succeeds -/

/-- The lookup in a table that gained the page `n` at its head. -/
theorem spt_find_page_cons {s s' : KState} {t n : Nat} (va : Nat)
    (ht : s'.spt t = n :: s.spt t)
    (hp : ∀ e ∈ s.spt t, (s'.pages e).va = (s.pages e).va) :
    spt_find_page s' t va
      = if (s'.pages n).va = pg_round_down va then some n else spt_find_page s t va := by
  rw [spt_find_page_eq, spt_find_page_eq, ht]
  have hc := @hash_find_congr s.pages s'.pages (s.spt t)
    { (default : page) with va := pg_round_down va }
    { (default : page) with va := pg_round_down va } hp rfl
  rw [← hc]
  unfold hash_find
  rw [List.find?_cons]
  by_cases hv : (s'.pages n).va = pg_round_down va
  · rw [if_pos hv]
    have : (!page_less (s'.pages n) { (default : page) with va := pg_round_down va } &&
        !page_less { (default : page) with va := pg_round_down va } (s'.pages n)) = true :=
      (page_eq_iff _ _).2 hv
    rw [this]
  · rw [if_neg hv]
    have : (!page_less (s'.pages n) { (default : page) with va := pg_round_down va } &&
        !page_less { (default : page) with va := pg_round_down va } (s'.pages n)) = false := by
      rw [Bool.eq_false_iff]
      intro h
      exact hv ((page_eq_iff _ _).1 h)
    rw [this]

/-- The insertion of a fresh block at a page address that the table of the
running thread does not hold succeeds. -/
theorem spt_insert_fresh {s X : KState} {p upage : Nat}
    (hn : spt_find_page s s.cur upage = none) (hal : pg_ofs upage = 0)
    (hb : ∀ e ∈ s.spt s.cur, e ≠ p)
    (h1 : X.spt = s.spt) (h2 : X.cur = s.cur) (h3 : (X.pages p).va = upage)
    (h4 : ∀ e, e ≠ p → X.pages e = s.pages e) :
    (spt_insert_page X X.cur p).1 = true := by
  rw [spt_insert_page_fst, Option.isNone_iff_eq_none, hash_find_none, h1, h2]
  intro e he
  rw [h4 e (hb e he), h3]
  have := spt_find_page_none.1 hn e he
  rw [pg_round_down_of_ofs hal] at this
  exact this

/-- The allocation of a page at a page address that the table of the running
thread does not hold never returns false. -/
theorem vm_alloc_not_false {s s1 : KState} {type upage : Nat} {w : Bool}
    {init : Option vm_initializer} {aux : Option Nat}
    (hn : spt_find_page s s.cur upage = none) (hal : pg_ofs upage = 0)
    (hb : ∀ e ∈ s.spt s.cur, e < s.next) :
    vm_alloc_page_with_initializer s type upage w init aux ≠ some (false, s1) := by
  intro h
  unfold vm_alloc_page_with_initializer at h
  split at h
  · cases h
  · rw [hn] at h
    simp only [malloc] at h
    split at h
    · cases h
    · next pi hpi =>
      simp only [Option.some.injEq] at h
      have hins := @spt_insert_fresh s
        (set_page (uninit_new { s with next := s.next + 1 } s.next upage init type aux pi) s.next
          { (uninit_new { s with next := s.next + 1 } s.next upage init type aux pi).pages s.next
              with writable := w })
        s.next upage hn hal (fun e he => Nat.ne_of_lt (hb e he)) rfl rfl
        (by simp [uninit_new])
        (fun e he => by simp [uninit_new, set_page, he])
      exact absurd (show true = false from hins.symm.trans (congrArg Prod.fst h)) (by decide)

/-- The allocation of an anonymous or file-backed page at a page address that
the table of the running thread does not hold returns true. -/
theorem vm_alloc_returns {s : KState} {type upage : Nat} (w : Bool)
    (init : Option vm_initializer) (aux : Option Nat)
    (ht : VM_TYPE type = VM_ANON ∨ VM_TYPE type = VM_FILE)
    (hn : spt_find_page s s.cur upage = none) (hal : pg_ofs upage = 0)
    (hb : ∀ e ∈ s.spt s.cur, e < s.next) :
    ∃ s1, vm_alloc_page_with_initializer s type upage w init aux = some (true, s1) := by
  cases h : vm_alloc_page_with_initializer s type upage w init aux with
  | none =>
    exfalso
    unfold vm_alloc_page_with_initializer at h
    have h0 : VM_TYPE type ≠ VM_UNINIT := by
      rcases ht with h | h <;> rw [h] <;> decide
    rw [if_neg h0, hn] at h
    simp only [malloc] at h
    rcases ht with ht | ht
    · simp [ht] at h
    · have h1 : ¬ VM_FILE = VM_ANON := by decide
      simp [ht, h1] at h
  | some r =>
    obtain ⟨b, s1⟩ := r
    cases b with
    | true => exact ⟨s1, rfl⟩
    | false => exact absurd h (vm_alloc_not_false hn hal hb)

/-- One turn of the loop of `do_mmap` at a page address that the table of
the running thread does not hold. -/
theorem do_mmap_loop_turn (f : Nat) (w : Bool) (start : Nat) (total : Int)
    (s : KState) (rb zb addr prb : Nat) (off : Int)
    (hprb : prb = if rb < PGSIZE then rb else PGSIZE)
    (hc : rb > 0 ∨ zb > 0) (hal : pg_ofs addr = 0) (hst : pg_ofs start = 0)
    (hn : spt_find_page s s.cur addr = none)
    (hs : addr ≠ start → (spt_find_page s s.cur start).isSome = true)
    (hb : ∀ e ∈ s.spt s.cur, e < s.next) :
    ∃ s3, (∀ fuel, do_mmap_loop f w start total (fuel + 1) s rb zb addr off
        = do_mmap_loop f w start total fuel s3
            (u64 ((rb : Int) - prb)) (u64 ((zb : Int) - ((PGSIZE - prb : Nat) : Int)))
            (u64 ((addr : Int) + PGSIZE)) (i32 (u64 (off + prb)))) ∧
      s3.cur = s.cur ∧ s3.next = s.next + 2 ∧
      s3.spt s.cur = (s.next + 1) :: s.spt s.cur ∧
      (s3.pages (s.next + 1)).va = addr ∧
      (∀ e, e ≠ s.next + 1 → (s3.pages e).va = (s.pages e).va) ∧
      (spt_find_page s3 s.cur start).isSome = true := by
  subst hprb
  obtain ⟨s2, ha⟩ := @vm_alloc_returns
    (set_entry { s with next := s.next + 1 } s.next
      { f := f, offset := off,
        read_bytes := if rb < PGSIZE then rb else PGSIZE,
        zero_bytes := PGSIZE - if rb < PGSIZE then rb else PGSIZE })
    VM_FILE addr w (some .lazy_load_segment) (some s.next) (Or.inr (by decide)) hn hal
    (fun e he => Nat.lt_succ_of_lt (hb e he))
  obtain ⟨-, -, hst2, hsc, -, hpo, pi, -, hnew⟩ := vm_alloc_true ha
  simp only [set_entry_next, set_entry_cur, set_entry_spt, set_entry_pages] at hsc hpo hnew
  have hcur2 : s2.cur = s.cur := (vm_alloc_cur ha).trans rfl
  have hnext2 : s2.next = s.next + 2 := by rw [hst2]; rfl
  have hva2 : (s2.pages (s.next + 1)).va = addr := by rw [hnew]
  have hfind : ∀ va, spt_find_page s2 s.cur va
      = if addr = pg_round_down va then some (s.next + 1) else spt_find_page s s.cur va := by
    intro va
    rw [spt_find_page_cons va hsc (fun e he => by
      rw [hpo e (by have := hb e he; omega)]), hva2]
  have hsome : (spt_find_page s2 s.cur start).isSome = true := by
    rw [hfind start, pg_round_down_of_ofs hst]
    by_cases heq : addr = start
    · rw [if_pos heq]; rfl
    · rw [if_neg heq]; exact hs heq
  cases hf : spt_find_page s2 s.cur start with
  | none => rw [hf] at hsome; cases hsome
  | some p =>
    refine ⟨set_page s2 p { s2.pages p with mapped_page_count := total }, ?_, hcur2, hnext2,
      hsc, ?_, ?_, ?_⟩
    · intro fuel
      rw [do_mmap_loop]
      simp only [hc, if_true, malloc, ha, hcur2, hf]
    · by_cases hp : s.next + 1 = p
      · rw [hp, set_page_pages_same]
        rw [← hp]
        exact hva2
      · rw [set_page_pages_other _ _ _ hp]
        exact hva2
    · intro e he
      by_cases hp : e = p
      · rw [hp, set_page_pages_same]
        show (s2.pages p).va = _
        rw [← hp, hpo e he]
      · rw [set_page_pages_other _ _ _ hp, hpo e he]
    · rw [← hsome]
      congr 1
      apply spt_find_page_congr
      · rfl
      · intro e _
        by_cases hp : e = p
        · rw [hp, set_page_pages_same]
        · rw [set_page_pages_other _ _ _ hp]

theorem pg_ofs_add_page {addr : Nat} (h : pg_ofs addr = 0) : pg_ofs (addr + PGSIZE) = 0 := by
  unfold pg_ofs PGSIZE at *
  omega

/-- The loop of `do_mmap` over a file range of `rb` bytes returns
`start_addr` when none of the `rb / PGSIZE + 1` page addresses it goes over
is in the table of the running thread. -/
theorem do_mmap_loop_returns (f : Nat) (w : Bool) (start : Nat) (total : Int) :
    ∀ (n fuel : Nat) (s : KState) (rb addr : Nat) (off : Int),
      rb / PGSIZE = n → n + 2 ≤ fuel → rb < 2 ^ 64 →
      pg_ofs addr = 0 → pg_ofs start = 0 → addr + (n + 1) * PGSIZE < 2 ^ 64 →
      (∀ k, k ≤ n → spt_find_page s s.cur (addr + k * PGSIZE) = none) →
      (addr = start ∨ (start < addr ∧ (spt_find_page s s.cur start).isSome = true)) →
      (∀ e ∈ s.spt s.cur, e < s.next) →
      ∃ s', do_mmap_loop f w start total fuel s rb (PGSIZE - rb % PGSIZE) addr off
          = some (some start, s') ∧ s'.cur = s.cur := by
  intro n
  induction n with
  | zero =>
    intro fuel s rb addr off hn hfuel _ hal hst _ hfree hs hb
    obtain ⟨fuel1, rfl⟩ : ∃ m, fuel = m + 2 := ⟨fuel - 2, by omega⟩
    have hrb : rb < PGSIZE := by
      unfold PGSIZE at hn ⊢
      omega
    have hprb : rb = if rb < PGSIZE then rb else PGSIZE := by rw [if_pos hrb]
    have hmod : rb % PGSIZE = rb := Nat.mod_eq_of_lt hrb
    obtain ⟨s3, hturn, hcur, -⟩ := do_mmap_loop_turn f w start total s rb
      (PGSIZE - rb % PGSIZE) addr rb off hprb (Or.inr (by rw [hmod]; omega)) hal hst
      (by have := hfree 0 (Nat.le_refl _); simpa using this)
      (fun hne => by
        rcases hs with h | h
        · exact absurd h hne
        · exact h.2) hb
    refine ⟨s3, ?_, hcur⟩
    rw [hturn, hmod]
    have h1 : u64 ((rb : Int) - rb) = 0 := by unfold u64; omega
    have h2 : u64 (((PGSIZE - rb : Nat) : Int) - ((PGSIZE - rb : Nat) : Int)) = 0 := by
      unfold u64; omega
    rw [h1, h2, do_mmap_loop]
    simp
  | succ n ih =>
    intro fuel s rb addr off hn hfuel hrb64 hal hst hwrap hfree hs hb
    obtain ⟨fuel1, rfl⟩ : ∃ m, fuel = m + 1 := ⟨fuel - 1, by omega⟩
    have hrb : ¬ rb < PGSIZE := by
      intro h
      rw [Nat.div_eq_of_lt h] at hn
      cases hn
    have hprb : PGSIZE = if rb < PGSIZE then rb else PGSIZE := by rw [if_neg hrb]
    obtain ⟨s3, hturn, hcur, hnext, hsc, hva, hpo, hsome⟩ := do_mmap_loop_turn f w start
      total s rb (PGSIZE - rb % PGSIZE) addr PGSIZE off hprb
      (Or.inl (by unfold PGSIZE at hrb; omega)) hal hst
      (by have := hfree 0 (Nat.zero_le _); simpa using this)
      (fun hne => by
        rcases hs with h | h
        · exact absurd h hne
        · exact h.2) hb
    have h1 : u64 ((rb : Int) - PGSIZE) = rb - PGSIZE := by
      unfold u64
      unfold PGSIZE at hrb ⊢
      omega
    have h2 : u64 (((PGSIZE - rb % PGSIZE : Nat) : Int) - ((PGSIZE - PGSIZE : Nat) : Int))
        = PGSIZE - (rb - PGSIZE) % PGSIZE := by
      unfold u64
      unfold PGSIZE at hrb ⊢
      omega
    have h3 : u64 ((addr : Int) + PGSIZE) = addr + PGSIZE := by
      apply u64_add_page
      unfold PGSIZE at hwrap ⊢
      omega
    have hfind : ∀ va, spt_find_page s3 s.cur va
        = if addr = pg_round_down va then some (s.next + 1) else spt_find_page s s.cur va := by
      intro va
      rw [spt_find_page_cons va hsc (fun e he => by
        rw [hpo e (by have := hb e he; omega)]), hva]
    obtain ⟨s', hs', hcur'⟩ := ih fuel1 s3 (rb - PGSIZE) (addr + PGSIZE)
      (i32 (u64 (off + PGSIZE)))
      (by
        unfold PGSIZE at hn hrb ⊢
        omega)
      (by omega)
      (by omega)
      (pg_ofs_add_page hal) hst
      (by
        unfold PGSIZE at hwrap ⊢
        omega)
      (by
        intro k hk
        rw [hcur, hfind]
        have hk1 := hfree (k + 1) (by omega)
        have hal2 : pg_ofs (addr + PGSIZE + k * PGSIZE) = 0 := by
          unfold pg_ofs PGSIZE at hal ⊢
          omega
        rw [pg_round_down_of_ofs hal2]
        have hne : ¬ addr = addr + PGSIZE + k * PGSIZE := by
          unfold PGSIZE
          omega
        rw [if_neg hne]
        have : addr + PGSIZE + k * PGSIZE = addr + (k + 1) * PGSIZE := by
          unfold PGSIZE
          omega
        rw [this]
        exact hk1)
      (Or.inr ⟨by
        rcases hs with h | h
        · unfold PGSIZE; omega
        · unfold PGSIZE; omega,
        by rw [hcur]; exact hsome⟩)
      (by
        intro e he
        rw [hcur, hsc, List.mem_cons] at he
        rw [hnext]
        rcases he with rfl | he
        · omega
        · have := hb e he
          omega)
    exact ⟨s', by rw [hturn, h1, h2, h3]; exact hs', hcur'.trans hcur⟩

/-- The function `do_mmap` returns `addr` when none of the page addresses it
goes over is in the table of the running thread. -/
theorem do_mmap_returns (s : KState) (addr length : Nat) (w : Bool) (file : Nat)
    (offset : Int) (hal : pg_ofs addr = 0) (hoff : offset % PGSIZE = 0)
    (hwrap : addr + length + PGSIZE < 2 ^ 64)
    (hfree : ∀ k, k ≤ min (u64 (file_length s file)) length / PGSIZE →
      spt_find_page s s.cur (addr + k * PGSIZE) = none)
    (hb : ∀ e ∈ s.spt s.cur, e < s.next) :
    ∃ s', do_mmap s addr length w file offset = some (some addr, s') := by
  unfold do_mmap
  generalize hfr : file_reopen s file = fr
  obtain ⟨f, s0⟩ := fr
  simp only
  unfold file_reopen at hfr
  simp only [Prod.mk.injEq] at hfr
  obtain ⟨hf, hs0⟩ := hfr
  have hlen : file_length s0 f = file_length s file := by
    rw [← hs0, ← hf]
    simp [file_length]
  have hcur : s0.cur = s.cur := by rw [← hs0]
  have hspt : s0.spt = s.spt := by rw [← hs0]
  have hpages : s0.pages = s.pages := by rw [← hs0]
  have hnext : s0.next = s.next + 1 := by rw [← hs0]
  rw [hlen]
  have hrb : (if u64 (file_length s file) < length then u64 (file_length s file) else length)
      = min (u64 (file_length s file)) length := by
    rw [Nat.min_def]
    split <;> split <;> omega
  rw [hrb]
  generalize hrbv : min (u64 (file_length s file)) length = rb at hfree ⊢
  have hrble : rb ≤ length := by rw [← hrbv]; exact Nat.min_le_right _ _
  have h1 : ¬ u64 ((rb + (PGSIZE - rb % PGSIZE) : Nat) : Int) % PGSIZE ≠ 0 := by
    unfold u64 PGSIZE
    omega
  have h2 : ¬ pg_ofs addr ≠ 0 := not_not.2 hal
  have h3 : ¬ offset % (PGSIZE : Int) ≠ 0 := not_not.2 hoff
  rw [if_neg h1, if_neg h2, if_neg h3]
  have hdiv : rb / PGSIZE * PGSIZE ≤ rb := Nat.div_mul_le_self _ _
  obtain ⟨s', hs', -⟩ := do_mmap_loop_returns f w addr
    (if length ≤ PGSIZE then 1
      else if length % PGSIZE ≠ 0 then i32 (length / PGSIZE + 1) else i32 (length / PGSIZE))
    (rb / PGSIZE) (rb / PGSIZE + 2) s0 rb addr offset rfl (Nat.le_refl _)
    (by unfold PGSIZE at hwrap; omega) hal hal
    (by
      rw [Nat.add_mul]
      unfold PGSIZE at hwrap hdiv ⊢
      omega)
    (by
      intro k hk
      rw [← hfree k hk, hcur]
      apply spt_find_page_congr
      · rw [hspt]
      · intro e _
        rw [hpages])
    (Or.inl rfl)
    (by
      intro e he
      rw [hspt, hcur] at he
      have := hb e he
      omega)
  exact ⟨s', hs'⟩

/-- Claim C18, as stated, fails.  In `overlap_state` the table of the running
thread holds a page at `0x2000` and none at `0x1000`, and descriptor `3` is
an open file of 5000 bytes: `mmap (0x1000, 5000, 1, 3, 0)` meets every stated
precondition and returns `NULL`, because its second page, at `0x2000`, is
already in the table.  In `mmap_state`, with an empty table,
`mmap (0x1000, 2^31, 1, 3, 0)` returns `NULL` as well, because
`(int) length` is negative. -/
theorem mmap_overlap_returns_null :
    (0x1000 ≠ 0 ∧ pg_ofs 0x1000 = 0 ∧ (0 : Int) % PGSIZE = 0 ∧
     is_user_vaddr 0x1000 = true ∧ is_user_vaddr (0x1000 + 5000) = true ∧
     spt_find_page overlap_state overlap_state.cur 0x1000 = none ∧
     process_get_file overlap_state 3 = some 5 ∧ file_length overlap_state 5 = 5000 ∧
     0 < 5000) ∧
    (mmap overlap_state 0x1000 5000 true 3 0).map Prod.fst = some none ∧
    (is_user_vaddr (0x1000 + 2 ^ 31) = true ∧
     spt_find_page mmap_state mmap_state.cur 0x1000 = none ∧
     process_get_file mmap_state 3 = some 5 ∧ file_length mmap_state 5 = 5000) ∧
    (mmap mmap_state 0x1000 (2 ^ 31) true 3 0).map Prod.fst = some none := by
  decide

/-- Claim C18, amended.  For every `mmap` call with `addr` non-null and
page-aligned, `offset` page-aligned, `addr + length` in user space, `fd`
naming an open non-empty file, `(int) length` positive, the pages of the
table of the running thread allocated blocks, and no page in that table at
any of the addresses `addr + k * PGSIZE` for `k` up to
`min (file length, length) / PGSIZE`, the pages that `do_mmap` creates:
`mmap` returns the starting address `addr`. -/
theorem mmap_succeeds (s : KState) (addr length : Nat) (w : Bool) (fd offset : Int)
    (file : Nat) (h0 : addr ≠ 0) (hal : pg_ofs addr = 0) (hoff : offset % PGSIZE = 0)
    (huser : addr + length < KERN_BASE)
    (hfd : process_get_file s fd = some file) (hflen : file_length s file ≠ 0)
    (hpos : 0 < i32 length)
    (hfree : ∀ k, k ≤ min (u64 (file_length s file)) length / PGSIZE →
      spt_find_page s s.cur (addr + k * PGSIZE) = none)
    (hb : ∀ e ∈ s.spt s.cur, e < s.next) :
    ∃ s', mmap s addr length w fd offset = some (some addr, s') := by
  unfold mmap
  have c1 : ¬ (addr = 0 ∨ addr ≠ pg_round_down addr) := by
    rw [pg_round_down_of_ofs hal]
    simp [h0]
  have c2 : ¬ u64 offset ≠ pg_round_down (u64 offset) := by
    rw [not_not]
    unfold u64 pg_round_down
    unfold PGSIZE at hoff ⊢
    omega
  have hsum : u64 ((addr : Int) + length) = addr + length := by
    unfold u64
    unfold KERN_BASE at huser
    omega
  have c3 : ¬ (is_user_vaddr addr = false ∨
      is_user_vaddr (u64 ((addr : Int) + length)) = false) := by
    rw [hsum]
    unfold is_user_vaddr
    simp only [decide_eq_false_iff_not, not_or, not_not]
    exact ⟨by omega, huser⟩
  have c4 : ¬ (spt_find_page s s.cur addr).isSome = true := by
    have := hfree 0 (Nat.zero_le _)
    simp only [Nat.zero_mul, Nat.add_zero] at this
    rw [this]
    simp
  have c5 : ¬ (file_length s file = 0 ∨ i32 length ≤ 0) := by
    simp only [not_or]
    exact ⟨hflen, by omega⟩
  rw [if_neg c1, if_neg c2, if_neg c3, if_neg c4, hfd]
  simp only [if_neg c5]
  exact do_mmap_returns s addr length w file offset hal hoff
    (by unfold KERN_BASE at huser; unfold PGSIZE; omega) hfree hb

/-- The instance of the amended C18 on `mmap (0x1000, 5000, 1, 3, 0)` in
`mmap_state`, whose table is empty. -/
theorem mmap_succeeds_witness :
    (0x1000 ≠ 0 ∧ pg_ofs 0x1000 = 0 ∧ (0 : Int) % PGSIZE = 0 ∧
     0x1000 + 5000 < KERN_BASE ∧ process_get_file mmap_state 3 = some 5 ∧
     file_length mmap_state 5 ≠ 0 ∧ 0 < i32 5000) ∧
    ∃ s', mmap mmap_state 0x1000 5000 true 3 0 = some (some 0x1000, s') :=
  ⟨by decide,
   mmap_succeeds mmap_state 0x1000 5000 true 3 0 5 (by decide) (by decide) (by decide)
     (by decide) (by decide) (by decide) (by decide)
     (fun _ _ => by simp [spt_find_page, hash_find, mmap_state, boot])
     (fun e he => by simp [mmap_state, boot] at he)⟩

/-! ## The copy of an uninitialized page -/

theorem file_backed_initializer_other {s t : KState} {p ty : Nat} {kva : Option Nat}
    {c : Bool} (h : file_backed_initializer s p ty kva = some (c, t)) {x : Nat}
    (hx : x ≠ p) : t.pages x = s.pages x := by
  unfold file_backed_initializer at h
  split at h
  · cases h
  · simp only [Option.some.injEq, Prod.mk.injEq] at h
    obtain ⟨-, rfl⟩ := h
    exact set_page_pages_other _ _ _ hx

theorem vm_get_frame_next {s s' : KState} {fr : Nat}
    (h : vm_get_frame s = some (fr, s')) : s.next ≤ s'.next := by
  cases hpool : s.user_pool with
  | nil => rw [(vm_get_frame_evict_effect hpool h).2.2.1]
  | cons a rest =>
    rw [(vm_get_frame_fresh_effect hpool h).2.2.1]
    omega

/-- What one completed turn of the loop of the copy, into the table of the
running thread, leaves: the pages allocated before keep every field outside
the members `anon` and `file`, and the table of the running thread is as
before or gained one fresh page at the address of the source page. -/
theorem copy_step_effect {s s' : KState} {sp : Nat}
    (h : supplemental_page_table_copy_step s s.cur sp = some (true, s'))
    (hal : pg_ofs (s.pages sp).va = 0) :
    s'.cur = s.cur ∧ s.next ≤ s'.next ∧
    (∀ x, x < s.next → page_agree (s'.pages x) (s.pages x)) ∧
    (s'.spt s.cur = s.spt s.cur ∨
      ∃ n, s.next ≤ n ∧ n < s'.next ∧ s'.spt s.cur = n :: s.spt s.cur ∧
        (s'.pages n).va = (s.pages sp).va ∧
        spt_find_page s s.cur (s.pages sp).va = none) := by
  unfold supplemental_page_table_copy_step at h
  dsimp only at h
  split at h
  · -- an uninitialized source page
    cases ha : vm_alloc_page_with_initializer s (page_get_type (s.pages sp)) (s.pages sp).va
        (s.pages sp).writable (s.pages sp).uninit.init (s.pages sp).uninit.aux with
    | none => simp [ha] at h
    | some r =>
      obtain ⟨bb, t⟩ := r
      simp only [ha, Option.some.injEq, Prod.mk.injEq, true_and] at h
      subst h
      cases bb with
      | false =>
        obtain ⟨-, -, e3, e4, e5, e6⟩ := vm_alloc_false ha
        exact ⟨e3, e5, fun x hx => by rw [e6 x hx]; exact page_agree_refl _,
          Or.inl (by rw [e4])⟩
      | true =>
        obtain ⟨hnone, -, hst, hsc, -, hpo, pi, -, hnew⟩ := vm_alloc_true ha
        have hn1 : t.next = s.next + 1 := by rw [hst]
        refine ⟨by rw [hst], by omega,
          fun x hx => by rw [hpo x (by omega)]; exact page_agree_refl _,
          Or.inr ⟨s.next, Nat.le_refl _, by omega, hsc, by rw [hnew], hnone⟩⟩
  · next hnu =>
    split at h
    · -- a file-backed source page
      simp only [malloc] at h
      generalize hs1 : set_entry { s with next := s.next + 1 } s.next
            { f := (s.pages sp).file.file, offset := (s.pages sp).file.offset,
              read_bytes := (s.pages sp).file.read_bytes,
              zero_bytes := (s.pages sp).file.zero_bytes } = s1 at h
      have hcur1 : s1.cur = s.cur := by rw [← hs1]; rfl
      have hnext1 : s1.next = s.next + 1 := by rw [← hs1]; rfl
      have hpages1 : s1.pages = s.pages := by rw [← hs1]; rfl
      have hspt1 : s1.spt = s.spt := by rw [← hs1]; rfl
      cases ha : vm_alloc_page_with_initializer s1 (s.pages sp).operations.type
          (s.pages sp).va (s.pages sp).writable none (some s.next) with
      | none => simp [ha] at h
      | some r =>
        obtain ⟨bb, s2⟩ := r
        simp only [ha] at h
        cases bb with
        | false =>
          simp only [Option.some.injEq, Prod.mk.injEq] at h
          exact absurd h.1 (by decide)
        | true =>
          simp only at h
          obtain ⟨hnone, -, hst, hsc, -, hpo, pi, -, hnew⟩ := vm_alloc_true ha
          have hcur2 : s2.cur = s.cur := (vm_alloc_cur ha).trans hcur1
          have hn2 : s2.next = s.next + 2 := by rw [hst, hnext1]
          rw [hcur1, hspt1, hnext1] at hsc
          rw [hnext1, hpages1] at hpo
          rw [hnext1] at hnew
          rw [hcur1] at hnone
          have hnone' : spt_find_page s s.cur (s.pages sp).va = none := by
            rw [← hnone]
            exact (spt_find_page_congr _ (by rw [hspt1]) (fun e _ => by rw [hpages1])).symm
          cases hf : spt_find_page s2 s.cur (s.pages sp).va with
          | none => simp [hf] at h
          | some pg =>
            simp only [hf] at h
            have hpg : pg = s.next + 1 := by
              rw [← hnext1]
              exact vm_alloc_true_find ha rfl (by rw [hcur1]; exact hf)
            subst hpg
            cases hi : file_backed_initializer s2 (s.next + 1)
                (s.pages sp).operations.type none with
            | none => simp [hi] at h
            | some r3 =>
              obtain ⟨b3, s3⟩ := r3
              simp only [hi] at h
              obtain ⟨-, -, e3, e4, e5, -, e7⟩ := file_backed_initializer_effect hi
              have e8 : ∀ x, x ≠ s.next + 1 → s3.pages x = s2.pages x :=
                fun x hx => file_backed_initializer_other hi hx
              split at h
              · cases h
              · simp only [Option.some.injEq, Prod.mk.injEq, true_and] at h
                subst h
                have hproj : ∀ (X : KState) (t u k : Nat) (rw : Bool),
                    (pml4_set_page X t u k rw).2.cur = X.cur ∧
                    (pml4_set_page X t u k rw).2.next = X.next ∧
                    (pml4_set_page X t u k rw).2.pages = X.pages ∧
                    (pml4_set_page X t u k rw).2.spt = X.spt := by
                  intro X t u k rw
                  unfold pml4_set_page
                  split
                  · exact ⟨rfl, rfl, rfl, rfl⟩
                  · exact ⟨rfl, rfl, rfl, rfl⟩
                refine ⟨?_, ?_, ?_, Or.inr ⟨s.next + 1, by omega, ?_, ?_, ?_, hnone'⟩⟩
                · rw [(hproj _ _ _ _ _).1]
                  exact e5.trans hcur2
                · rw [(hproj _ _ _ _ _).2.1]
                  show s.next ≤ s3.next
                  omega
                · intro x hx
                  rw [(hproj _ _ _ _ _).2.2.1, set_page_pages_other _ _ _ (by omega : x ≠ s.next + 1),
                    e8 x (by omega), hpo x (by omega)]
                  exact page_agree_refl _
                · rw [(hproj _ _ _ _ _).2.1]
                  show s.next + 1 < s3.next
                  omega
                · rw [(hproj _ _ _ _ _).2.2.2]
                  show s3.spt s.cur = _
                  rw [e4]
                  exact hsc
                · rw [(hproj _ _ _ _ _).2.2.1, set_page_pages_same]
                  show (s3.pages (s.next + 1)).va = _
                  rw [(e7 _).1, hnew]
    · next hnf =>
      -- an anonymous source page
      have hanon : VM_TYPE (s.pages sp).operations.type = VM_ANON := by
        cases hops : (s.pages sp).operations with
        | uninit_ops => rw [hops] at hnu; exact absurd rfl hnu
        | anon_ops => rfl
        | file_ops => rw [hops] at hnf; exact absurd rfl hnf
      cases ha : vm_alloc_page s (s.pages sp).operations.type (s.pages sp).va
          (s.pages sp).writable with
      | none => simp [ha] at h
      | some r =>
        obtain ⟨bb, s1⟩ := r
        simp only [ha] at h
        unfold vm_alloc_page at ha
        have hcur1 : s1.cur = s.cur := vm_alloc_cur ha
        cases bb with
        | false =>
          simp only [Option.some.injEq, Prod.mk.injEq] at h
          exact absurd h.1 (by decide)
        | true =>
          simp only at h
          obtain ⟨hnone, -, hst, hsc, -, hpo, pi, hpi, hnew⟩ := vm_alloc_true ha
          have hn1 : s1.next = s.next + 1 := by rw [hst]
          cases hc : vm_claim_page s1 (s.pages sp).va with
          | none => simp [hc] at h
          | some r2 =>
            obtain ⟨b2, s2⟩ := r2
            simp only [hc] at h
            cases b2 with
            | false =>
              simp only [Option.some.injEq, Prod.mk.injEq] at h
              exact absurd h.1 (by decide)
            | true =>
              simp only at h
              have hfound : spt_find_page s1 s1.cur (s.pages sp).va = some s.next := by
                rw [hcur1]
                exact vm_alloc_true_found ha (pg_round_down_of_ofs hal)
              unfold vm_claim_page at hc
              rw [hfound] at hc
              simp only at hc
              obtain ⟨fr, t2, hgf, hs2⟩ := vm_do_claim_fresh_anon
                (by rw [hnew]) (by rw [hnew]; exact hpi hanon) (by rw [hnew]) hc
              obtain ⟨hag, hspt2, hcur2⟩ := vm_get_frame_agree hgf
              have hnx2 := vm_get_frame_next hgf
              have hs2cur : s2.cur = s.cur := by
                rw [hs2]
                simp only [set_page_cur, memset_zero_cur, pml4_put_cur]
                rw [set_links_state]
                exact hcur2.trans hcur1
              have hs2next : s2.next = t2.next := by
                rw [hs2]
                simp only [set_page_next, memset_zero_next, pml4_put_next]
                rw [set_links_state]
              have hs2spt : s2.spt = s1.spt := by
                rw [hs2]
                simp only [set_page_spt, memset_zero_spt, pml4_put_spt]
                rw [set_links_state]
                exact hspt2
              have hs2other : ∀ x, x ≠ s.next → s2.pages x = t2.pages x := by
                intro x hx
                rw [hs2, set_page_pages_other _ _ _ hx]
                simp only [memset_zero_pages, pml4_put_pages]
                exact set_links_pages_other _ _ _ hx
              have hs2va : (s2.pages s.next).va = (s.pages sp).va := by
                rw [hs2, set_page_pages_same]
                rw [set_links_pages_same]
                show (t2.pages s.next).va = _
                rw [(hag s.next).2.1, hnew]
              have hfinal : s'.cur = s2.cur ∧ s'.next = s2.next ∧ s'.pages = s2.pages ∧
                  s'.spt = s2.spt := by
                split at h
                · cases h
                · split at h
                  · simp only [Option.some.injEq, Prod.mk.injEq, true_and] at h
                    subst h
                    exact ⟨rfl, rfl, rfl, rfl⟩
                  · cases h
              obtain ⟨f1, f2, f3, f4⟩ := hfinal
              refine ⟨f1.trans hs2cur, by omega, ?_,
                Or.inr ⟨s.next, Nat.le_refl _, by omega, ?_, ?_, hnone⟩⟩
              · intro x hx
                rw [f3, hs2other x (by omega)]
                have := hag x
                rw [hpo x (by omega)] at this
                exact this
              · rw [f4, hs2spt]
                exact hsc
              · rw [f3]
                exact hs2va

/-- The lookups in the table of the running thread across one completed turn
of the copy: a page found before is found after, and an address other than
that of the source page that had no page has none after. -/
theorem copy_step_find {s s' : KState} {sp : Nat}
    (h : supplemental_page_table_copy_step s s.cur sp = some (true, s'))
    (hal : pg_ofs (s.pages sp).va = 0) (hb : ∀ e ∈ s.spt s.cur, e < s.next) :
    (∀ e ∈ s'.spt s.cur, e < s'.next) ∧
    (∀ va d, spt_find_page s s.cur va = some d → spt_find_page s' s.cur va = some d) ∧
    (∀ e ∈ s'.spt s.cur, (s'.pages e).va = (s.pages sp).va ∨
      (e ∈ s.spt s.cur ∧ (s'.pages e).va = (s.pages e).va)) := by
  obtain ⟨-, hnx, hag, htab⟩ := copy_step_effect h hal
  have hva : ∀ e ∈ s.spt s.cur, (s'.pages e).va = (s.pages e).va :=
    fun e he => (hag e (hb e he)).2.1
  rcases htab with ht | ⟨n, hn1, hn2, ht, hnva, hnone⟩
  · refine ⟨?_, ?_, ?_⟩
    · intro e he
      rw [ht] at he
      have := hb e he
      omega
    · intro va d hf
      rw [← hf]
      exact spt_find_page_congr va ht hva
    · intro e he
      rw [ht] at he
      exact Or.inr ⟨he, hva e he⟩
  · refine ⟨?_, ?_, ?_⟩
    · intro e he
      rw [ht, List.mem_cons] at he
      rcases he with rfl | he
      · exact hn2
      · have := hb e he
        omega
    · intro va d hf
      rw [spt_find_page_cons va ht hva]
      have hne : ¬ (s'.pages n).va = pg_round_down va := by
        rw [hnva]
        intro heq
        obtain ⟨hmem, hdva⟩ := spt_find_page_some hf
        have := spt_find_page_none.1 hnone d hmem
        rw [pg_round_down_of_ofs hal, hdva] at this
        exact this heq.symm
      rw [if_neg hne]
      exact hf
    · intro e he
      rw [ht, List.mem_cons] at he
      rcases he with rfl | he
      · exact Or.inl hnva
      · exact Or.inr ⟨he, hva e he⟩

/-- A page found in the table of the running thread before the loop of the
copy is found at the same address after it, with every field outside the
members `anon` and `file` as before. -/
theorem copy_loop_keeps (v : Nat → page) (l : List Nat) :
    ∀ {s s' : KState},
      supplemental_page_table_copy_loop s.cur l s = some (true, s') →
      (∀ e ∈ l, e < s.next ∧ page_agree (s.pages e) (v e)) →
      (∀ e ∈ l, pg_ofs (v e).va = 0) →
      (∀ e ∈ s.spt s.cur, e < s.next) →
      ∀ va d, spt_find_page s s.cur va = some d →
        s'.cur = s.cur ∧ spt_find_page s' s.cur va = some d ∧
        page_agree (s'.pages d) (s.pages d) := by
  induction l with
  | nil =>
    intro s s' h _ _ _ va d hf
    simp only [supplemental_page_table_copy_loop, Option.some.injEq, Prod.mk.injEq,
      true_and] at h
    subst h
    exact ⟨rfl, hf, page_agree_refl _⟩
  | cons a rest ih =>
    intro s s' h hv hal hb va d hf
    unfold supplemental_page_table_copy_loop at h
    cases hst : supplemental_page_table_copy_step s s.cur a with
    | none => simp [hst] at h
    | some r =>
      obtain ⟨bb, s1⟩ := r
      simp only [hst] at h
      cases bb with
      | false =>
        simp only [Option.some.injEq, Prod.mk.injEq] at h
        exact absurd h.1 (by decide)
      | true =>
        simp only at h
        have hala : pg_ofs (s.pages a).va = 0 := by
          rw [(hv a (List.mem_cons_self _ _)).2.2.1]
          exact hal a (List.mem_cons_self _ _)
        obtain ⟨hcur1, hnx, hag, -⟩ := copy_step_effect hst hala
        obtain ⟨hb1, hfind, -⟩ := copy_step_find hst hala hb
        rw [← hcur1] at h hb1
        have hd : d < s.next := hb d (spt_find_page_some hf).1
        obtain ⟨i1, i2, i3⟩ := @ih s1 s' h
          (fun e he => by
            have := hv e (List.mem_cons_of_mem _ he)
            exact ⟨by omega, page_agree_trans (hag e this.1) this.2⟩)
          (fun e he => hal e (List.mem_cons_of_mem _ he))
          hb1 va d (by rw [hcur1]; exact hfind va d hf)
        rw [hcur1] at i1 i2
        exact ⟨i1, i2, page_agree_trans i3 (hag d hd)⟩

/-- The turn of the copy for an uninitialized source page whose address the
table of the running thread does not hold. -/
theorem copy_step_uninit {s s1 : KState} {sp : Nat}
    (h : supplemental_page_table_copy_step s s.cur sp = some (true, s1))
    (hops : (s.pages sp).operations = .uninit_ops)
    (hal : pg_ofs (s.pages sp).va = 0) (hb : ∀ e ∈ s.spt s.cur, e < s.next)
    (hnone : spt_find_page s s.cur (s.pages sp).va = none) :
    spt_find_page s1 s.cur (s.pages sp).va = some s.next ∧
    (s1.pages s.next).operations = .uninit_ops ∧ (s1.pages s.next).frame = none ∧
    (s1.pages s.next).va = (s.pages sp).va ∧
    (s1.pages s.next).writable = (s.pages sp).writable ∧
    (s1.pages s.next).uninit.init = (s.pages sp).uninit.init ∧
    (s1.pages s.next).uninit.aux = (s.pages sp).uninit.aux ∧
    (s1.pages s.next).uninit.type = VM_TYPE (s.pages sp).uninit.type := by
  unfold supplemental_page_table_copy_step at h
  dsimp only at h
  have htype : (s.pages sp).operations.type = VM_UNINIT := by rw [hops]; rfl
  rw [if_pos htype] at h
  have hpgt : page_get_type (s.pages sp) = VM_TYPE (s.pages sp).uninit.type := by
    unfold page_get_type
    simp only [htype]
    rfl
  rw [hpgt] at h
  cases ha : vm_alloc_page_with_initializer s (VM_TYPE (s.pages sp).uninit.type)
      (s.pages sp).va (s.pages sp).writable (s.pages sp).uninit.init
      (s.pages sp).uninit.aux with
  | none => simp [ha] at h
  | some r =>
    obtain ⟨bb, t⟩ := r
    simp only [ha, Option.some.injEq, Prod.mk.injEq, true_and] at h
    subst h
    cases bb with
    | false => exact absurd ha (vm_alloc_not_false hnone hal hb)
    | true =>
      obtain ⟨-, -, -, -, -, -, pi, -, hnew⟩ := vm_alloc_true ha
      refine ⟨vm_alloc_true_found ha (pg_round_down_of_ofs hal), ?_, ?_, ?_, ?_, ?_, ?_, ?_⟩ <;>
        rw [hnew]

/-- The loop of the copy over a list that holds the uninitialized page `sp`,
when the table of the running thread has no page at the address of `sp`. -/
theorem copy_loop_uninit (v : Nat → page) (sp : Nat) (l : List Nat) :
    ∀ {s s' : KState},
      supplemental_page_table_copy_loop s.cur l s = some (true, s') →
      (∀ e ∈ l, e < s.next ∧ page_agree (s.pages e) (v e)) →
      (∀ e ∈ l, pg_ofs (v e).va = 0) →
      (∀ e ∈ s.spt s.cur, e < s.next) →
      l.Pairwise (fun a b => (v a).va ≠ (v b).va) →
      sp ∈ l → (v sp).operations = .uninit_ops →
      (∀ e ∈ s.spt s.cur, (s.pages e).va ≠ (v sp).va) →
      s'.cur = s.cur ∧
      ∃ d, spt_find_page s' s.cur (v sp).va = some d ∧
        (s'.pages d).operations = .uninit_ops ∧ (s'.pages d).frame = none ∧
        (s'.pages d).va = (v sp).va ∧
        (s'.pages d).writable = (v sp).writable ∧
        (s'.pages d).uninit.init = (v sp).uninit.init ∧
        (s'.pages d).uninit.aux = (v sp).uninit.aux ∧
        (s'.pages d).uninit.type = VM_TYPE (v sp).uninit.type := by
  induction l with
  | nil =>
    intro s s' _ _ _ _ _ hsp
    exact absurd hsp (List.not_mem_nil _)
  | cons a rest ih =>
    intro s s' h hv hal hb hpw hsp hops hfree
    unfold supplemental_page_table_copy_loop at h
    cases hst : supplemental_page_table_copy_step s s.cur a with
    | none => simp [hst] at h
    | some r =>
      obtain ⟨bb, s1⟩ := r
      simp only [hst] at h
      cases bb with
      | false =>
        simp only [Option.some.injEq, Prod.mk.injEq] at h
        exact absurd h.1 (by decide)
      | true =>
        simp only at h
        have hva := hv a (List.mem_cons_self _ _)
        have hala : pg_ofs (s.pages a).va = 0 := by
          rw [hva.2.2.1]
          exact hal a (List.mem_cons_self _ _)
        obtain ⟨hcur1, hnx, hag, -⟩ := copy_step_effect hst hala
        obtain ⟨hb1, hfind, htab⟩ := copy_step_find hst hala hb
        rw [← hcur1] at h hb1
        have hv1 : ∀ e ∈ rest, e < s1.next ∧ page_agree (s1.pages e) (v e) := by
          intro e he
          have := hv e (List.mem_cons_of_mem _ he)
          exact ⟨by omega, page_agree_trans (hag e this.1) this.2⟩
        have hal1 : ∀ e ∈ rest, pg_ofs (v e).va = 0 :=
          fun e he => hal e (List.mem_cons_of_mem _ he)
        rw [List.pairwise_cons] at hpw
        by_cases hasp : a = sp
        · subst hasp
          obtain ⟨hp1, hp2, -, hp4, hp5, -⟩ := hva.2
          have hnone : spt_find_page s s.cur (s.pages a).va = none := by
            rw [spt_find_page_none, pg_round_down_of_ofs hala, hp2]
            exact hfree
          obtain ⟨c1, c2, c3, c4, c5, c6, c7, c8⟩ :=
            copy_step_uninit hst (by rw [hp1]; exact hops) hala hb hnone
          rw [hp2] at c1
          obtain ⟨k1, k2, k3⟩ := @copy_loop_keeps v rest s1 s' h hv1 hal1 hb1 (v a).va s.next
            (by rw [hcur1]; exact c1)
          rw [hcur1] at k1 k2
          obtain ⟨g1, g2, g3, g4, g5, -⟩ := k3
          refine ⟨k1, s.next, k2, by rw [g1, c2], by rw [g3, c3], by rw [g2, c4, hp2],
            by rw [g4, c5, hp4], by rw [g5, c6, hp5], by rw [g5, c7, hp5],
            by rw [g5, c8, hp5]⟩
        · have hsp' : sp ∈ rest := by
            rcases List.mem_cons.1 hsp with h1 | h1
            · exact absurd h1.symm hasp
            · exact h1
          have hfree1 : ∀ e ∈ s1.spt s1.cur, (s1.pages e).va ≠ (v sp).va := by
            intro e he
            rw [hcur1] at he
            rcases htab e he with h1 | ⟨h1, h2⟩
            · rw [h1, hva.2.2.1]
              exact hpw.1 sp hsp'
            · rw [h2]
              exact hfree e h1
          obtain ⟨i1, d, i2⟩ := @ih s1 s' h hv1 hal1 hb1 hpw.2 hsp' hops hfree1
          rw [hcur1] at i1 i2
          exact ⟨i1, d, i2⟩

/-- Claim C20, as stated, fails for the marker bits.  Thread `0` holds one
uninitialized page at `0x1000` whose `uninit.type` is
`VM_ANON | VM_MARKER_0 = 9`; the copy into the empty table of the running
thread `1` returns true, and the page found at `0x1000` in that table is
uninitialized, without frame, writable like the source, with the same
deferred initialiser and argument, but its `uninit.type` is `1`: the copy
passes `page_get_type`, which masks the marker bits. -/
theorem copy_uninit_drops_marker :
    lazy_fork_state.spt lazy_fork_state.cur = [] ∧ lazy_fork_state.spt 0 = [3] ∧
    (lazy_fork_state.pages 3).operations = .uninit_ops ∧
    (lazy_fork_state.pages 3).va = 0x1000 ∧
    (lazy_fork_state.pages 3).uninit.type = 9 ∧
    (supplemental_page_table_copy lazy_fork_state lazy_fork_state.cur 0).map
      (fun r => (r.1, (spt_find_page r.2 r.2.cur 0x1000).map
        (fun d => ((r.2.pages d).operations, (r.2.pages d).frame, (r.2.pages d).writable,
                   (r.2.pages d).uninit.init, (r.2.pages d).uninit.aux,
                   (r.2.pages d).uninit.type))))
      = some (true, some (.uninit_ops, none, true, none, none, 1)) :=
  ⟨rfl, rfl, rfl, rfl, rfl, rfl⟩

/-- Claim C20, amended.  For every source table whose pages are allocated
blocks at pairwise different page-aligned addresses and every uninitialized
page `sp` in it, after a successful `supplemental_page_table_copy` into the
initially empty table of the running thread, the page found there at the
address of `sp` is uninitialized, has no frame, and has the same address,
writable flag, deferred initialiser and initialiser argument as `sp`; its
`uninit.type` is `VM_TYPE` of that of `sp`, the type without its marker
bits. -/
theorem copy_uninit_page (s s' : KState) (src sp : Nat)
    (hemp : s.spt s.cur = []) (hsp : sp ∈ s.spt src)
    (hops : (s.pages sp).operations = .uninit_ops)
    (hal : ∀ e ∈ s.spt src, pg_ofs (s.pages e).va = 0)
    (hnd : (s.spt src).Pairwise (fun a b => (s.pages a).va ≠ (s.pages b).va))
    (hblk : ∀ e ∈ s.spt src, e < s.next)
    (hcopy : supplemental_page_table_copy s s.cur src = some (true, s')) :
    ∃ d, spt_find_page s' s'.cur (s.pages sp).va = some d ∧
      (s'.pages d).operations = .uninit_ops ∧ (s'.pages d).frame = none ∧
      (s'.pages d).va = (s.pages sp).va ∧
      (s'.pages d).writable = (s.pages sp).writable ∧
      (s'.pages d).uninit.init = (s.pages sp).uninit.init ∧
      (s'.pages d).uninit.aux = (s.pages sp).uninit.aux ∧
      (s'.pages d).uninit.type = VM_TYPE (s.pages sp).uninit.type := by
  unfold supplemental_page_table_copy at hcopy
  obtain ⟨hcur, d, hd⟩ := @copy_loop_uninit s.pages sp (s.spt src) s s' hcopy
    (fun e he => ⟨hblk e he, page_agree_refl _⟩) hal
    (by rw [hemp]; intro e he; exact absurd he (List.not_mem_nil _))
    hnd hsp hops
    (by rw [hemp]; intro e he; exact absurd he (List.not_mem_nil _))
  rw [← hcur] at hd
  exact ⟨d, hd⟩

/-- The instance of the amended C20 on the copy of the table of thread `0`
of `lazy_fork_state`. -/
theorem copy_uninit_page_witness :
    lazy_fork_state.spt lazy_fork_state.cur = [] ∧ 3 ∈ lazy_fork_state.spt 0 ∧
    (lazy_fork_state.pages 3).operations = .uninit_ops ∧
    supplemental_page_table_copy lazy_fork_state lazy_fork_state.cur 0
      = some (true,
          ((supplemental_page_table_copy lazy_fork_state lazy_fork_state.cur 0).getD
            (false, boot)).2) ∧
    ∃ d, spt_find_page
        ((supplemental_page_table_copy lazy_fork_state lazy_fork_state.cur 0).getD
          (false, boot)).2
        ((supplemental_page_table_copy lazy_fork_state lazy_fork_state.cur 0).getD
          (false, boot)).2.cur (lazy_fork_state.pages 3).va = some d ∧
      (((supplemental_page_table_copy lazy_fork_state lazy_fork_state.cur 0).getD
          (false, boot)).2.pages d).operations = .uninit_ops ∧
      (((supplemental_page_table_copy lazy_fork_state lazy_fork_state.cur 0).getD
          (false, boot)).2.pages d).frame = none ∧
      (((supplemental_page_table_copy lazy_fork_state lazy_fork_state.cur 0).getD
          (false, boot)).2.pages d).va = (lazy_fork_state.pages 3).va ∧
      (((supplemental_page_table_copy lazy_fork_state lazy_fork_state.cur 0).getD
          (false, boot)).2.pages d).writable = (lazy_fork_state.pages 3).writable ∧
      (((supplemental_page_table_copy lazy_fork_state lazy_fork_state.cur 0).getD
          (false, boot)).2.pages d).uninit.init = (lazy_fork_state.pages 3).uninit.init ∧
      (((supplemental_page_table_copy lazy_fork_state lazy_fork_state.cur 0).getD
          (false, boot)).2.pages d).uninit.aux = (lazy_fork_state.pages 3).uninit.aux ∧
      (((supplemental_page_table_copy lazy_fork_state lazy_fork_state.cur 0).getD
          (false, boot)).2.pages d).uninit.type
        = VM_TYPE (lazy_fork_state.pages 3).uninit.type :=
  have h2 : 3 ∈ lazy_fork_state.spt 0 := by decide
  ⟨rfl, h2, rfl, rfl,
   copy_uninit_page lazy_fork_state _ 0 3 rfl h2 rfl
     (fun _ _ => by show pg_ofs 0x1000 = 0; decide)
     (by
       have : lazy_fork_state.spt 0 = [3] := rfl
       rw [this]
       exact List.pairwise_singleton _ _)
     (fun e he => by
       have h3 : lazy_fork_state.spt 0 = [3] := rfl
       rw [h3, List.mem_singleton] at he
       rw [he]
       decide)
     rfl⟩

/-! ## The assertion on the byte counts of `do_mmap` -/

/-- Claim C23.  For every file length `F` (as `file_length` returns it) and
every requested `length`, with `read_bytes` the smaller of the two as 64-bit
unsigned numbers and `zero_bytes = PGSIZE - read_bytes % PGSIZE`, the sum
`read_bytes + zero_bytes`, taken in 64-bit unsigned arithmetic, is a multiple
of `PGSIZE`; so the first assertion of `do_mmap` never fails, and `do_mmap`
is what its other two assertions and its loop make of the call. -/
theorem do_mmap_sum_assertion :
    (∀ (F : Int) (length : Nat),
      u64 (((if u64 F < length then u64 F else length)
        + (PGSIZE - (if u64 F < length then u64 F else length) % PGSIZE) : Nat) : Int)
          % PGSIZE = 0) ∧
    (∀ (s : KState) (addr length : Nat) (w : Bool) (file : Nat) (offset : Int),
      do_mmap s addr length w file offset
        = if pg_ofs addr ≠ 0 then none
          else if offset % PGSIZE ≠ 0 then none
          else do_mmap_loop (file_reopen s file).1 w addr
            (if length ≤ PGSIZE then 1
              else if length % PGSIZE ≠ 0 then i32 (length / PGSIZE + 1)
              else i32 (length / PGSIZE))
            ((if u64 (file_length (file_reopen s file).2 (file_reopen s file).1) < length
                then u64 (file_length (file_reopen s file).2 (file_reopen s file).1)
                else length) / PGSIZE + 2)
            (file_reopen s file).2
            (if u64 (file_length (file_reopen s file).2 (file_reopen s file).1) < length
              then u64 (file_length (file_reopen s file).2 (file_reopen s file).1)
              else length)
            (PGSIZE -
              (if u64 (file_length (file_reopen s file).2 (file_reopen s file).1) < length
                then u64 (file_length (file_reopen s file).2 (file_reopen s file).1)
                else length) % PGSIZE)
            addr offset) := by
  have key : ∀ (F : Int) (length : Nat),
      u64 (((if u64 F < length then u64 F else length)
        + (PGSIZE - (if u64 F < length then u64 F else length) % PGSIZE) : Nat) : Int)
          % PGSIZE = 0 := by
    intro F length
    generalize (if u64 F < length then u64 F else length) = rb
    unfold u64 PGSIZE
    omega
  refine ⟨key, ?_⟩
  intro s addr length w file offset
  unfold do_mmap
  generalize file_reopen s file = fr
  obtain ⟨f, s0⟩ := fr
  simp only
  rw [if_neg (not_not.2 (key (file_length s0 f) length))]

/-! ## `munmap` at an address without page -/

/-- Without a page at `addr` in the table of the running thread, `do_munmap`
reads `mapped_page_count` through a null pointer. -/
theorem do_munmap_no_page {s : KState} {addr : Nat}
    (h : spt_find_page s s.cur addr = none) : do_munmap s addr = none := by
  unfold do_munmap
  simp only [h]

/-- Claim C25, on the code.  In `mmap_state` the table of the running thread
is empty; `0x1000` is a non-null, page-aligned user address that passes
`check_address`, and both `do_munmap (0x1000)` and `munmap (0x1000)` fault:
`do_munmap` reads `p->mapped_page_count` where `p`, the result of
`spt_find_page`, is `NULL`. -/
theorem munmap_missing_page_faults :
    ((0x1000 : Nat) ≠ 0 ∧ 0x1000 % PGSIZE = 0 ∧ is_user_vaddr 0x1000 = true ∧
      check_address 0x1000 = .ret () ∧
      spt_find_page mmap_state mmap_state.cur 0x1000 = none) ∧
    (do_munmap mmap_state 0x1000).isNone = true ∧
    (munmap mmap_state 0x1000).isNone = true := by
  decide

/-! ## The copy when the destination cannot take a page -/

/-- Claim C21, on the code.  In `occupied_fork_state` thread `0` holds one
uninitialized page at `0x1000` and the table of the running thread `1`
already holds a page at `0x1000`: the call of
`vm_alloc_page_with_initializer` that the copy makes for the source page
returns false, and `supplemental_page_table_copy` still returns true, with
the destination table as it was. -/
theorem copy_ignores_failed_alloc :
    (occupied_fork_state.spt 0 = [3] ∧
      (occupied_fork_state.pages 3).operations = .uninit_ops ∧
      (occupied_fork_state.pages 3).va = 0x1000 ∧
      spt_find_page occupied_fork_state occupied_fork_state.cur 0x1000 = some 4) ∧
    (vm_alloc_page_with_initializer occupied_fork_state
        (page_get_type (occupied_fork_state.pages 3)) (occupied_fork_state.pages 3).va
        (occupied_fork_state.pages 3).writable (occupied_fork_state.pages 3).uninit.init
        (occupied_fork_state.pages 3).uninit.aux).map Prod.fst = some false ∧
    (supplemental_page_table_copy occupied_fork_state occupied_fork_state.cur 0).map
      (fun r => (r.1, r.2.spt 1, r.2.next)) = some (true, [4], 5) := by
  decide

/-! ## The page of the stack-growth branch -/

theorem vm_do_claim_page_va {s s' : KState} {p : Nat} {b : Bool}
    (h : vm_do_claim_page s p = some (b, s')) (x : Nat) :
    (s'.pages x).va = (s.pages x).va := by
  obtain ⟨fr, s2, hgf, hrest⟩ := vm_do_claim_page_inv h
  obtain ⟨hag, -, -⟩ := vm_get_frame_agree hgf
  have hlinks : ((set_links s2 fr p).pages x).va = (s.pages x).va := by
    by_cases hx : x = p
    · rw [hx, set_links_pages_same]
      exact (hag p).2.1
    · rw [set_links_pages_other _ _ _ hx]
      exact (hag x).2.1
  rcases hrest with ⟨-, rfl⟩ | hsw
  · exact hlinks
  · rw [((swap_in_effect hsw).2.2.2.2.2.2 x).1]
    simp only [pml4_put_pages]
    exact hlinks

theorem fault_claim_va {s s' : KState} {addr : Nat} {write b : Bool}
    (h : fault_claim s addr write = some (b, s')) (x : Nat) :
    (s'.pages x).va = (s.pages x).va := by
  unfold fault_claim at h
  split at h
  · simp only [Option.some.injEq, Prod.mk.injEq] at h
    rw [← h.2]
  · split at h
    · simp only [Option.some.injEq, Prod.mk.injEq] at h
      rw [← h.2]
    · exact vm_do_claim_page_va h x

/-- The handler at a non-null user address, for a not-present fault: the
stack-growth test, then the lookup and the claim. -/
theorem vm_try_handle_fault_eq (s : KState) (f_rsp addr : Nat) (user write : Bool)
    (hk : ¬ (addr = 0 ∨ is_kernel_vaddr addr = true)) :
    vm_try_handle_fault s f_rsp addr user write true
      = (if USER_STACK - 2 ^ 20 ≤ u64 ((fault_rsp s f_rsp user : Int) - 8) ∧
            u64 ((fault_rsp s f_rsp user : Int) - 8) ≤ addr ∧ addr ≤ USER_STACK then
          (vm_stack_growth s addr).bind (fun s1 => fault_claim s1 addr write)
        else fault_claim s addr write) := by
  unfold vm_try_handle_fault
  rw [if_neg hk]
  simp only [if_true, fault_rsp]
  by_cases hc : USER_STACK - 2 ^ 20 ≤ u64 (((if user = true then f_rsp
      else s.rsp s.cur : Nat) : Int) - 8) ∧
      u64 (((if user = true then f_rsp else s.rsp s.cur : Nat) : Int) - 8) ≤ addr ∧
      addr ≤ USER_STACK
  · rw [if_pos hc, if_pos hc]
    cases vm_stack_growth s addr <;> rfl
  · rw [if_neg hc, if_neg hc]
    rfl

/-- Claim C24, as stated, fails at the top of the stack.  With the stack
pointer at `USER_STACK`, a not-present fault at the address `USER_STACK`
passes the test `addr <= USER_STACK`: the handler returns true and the page
it allocated lies at `USER_STACK`, so it ends at `USER_STACK + PGSIZE`, above
the stack region. -/
theorem stack_growth_above_stack :
    two_pool_state.spt 0 = [] ∧
    (vm_try_handle_fault two_pool_state USER_STACK USER_STACK true true true).map
      (fun r => (r.1, r.2.spt 0, (r.2.spt 0).map (fun p => (r.2.pages p).va)))
      = some (true, [1], [USER_STACK]) ∧
    ¬ (USER_STACK + PGSIZE ≤ USER_STACK) := by
  decide

/-- Claim C24, amended.  For every completed call of `vm_try_handle_fault`,
a page that the call added to the table of the running thread lies at
`pg_round_down (addr)`, with `USER_STACK - 2^20 <= va <= USER_STACK`; it lies
entirely inside the stack region, `va + PGSIZE <= USER_STACK`, when
`addr < USER_STACK`. -/
theorem stack_growth_page_bounds (s s' : KState) (f_rsp addr : Nat)
    (user write not_present b : Bool) (p : Nat)
    (h : vm_try_handle_fault s f_rsp addr user write not_present = some (b, s'))
    (hnew : p ∈ s'.spt s.cur) (hold : p ∉ s.spt s.cur) :
    (s'.pages p).va = pg_round_down addr ∧
    USER_STACK - 2 ^ 20 ≤ (s'.pages p).va ∧ (s'.pages p).va ≤ USER_STACK ∧
    (addr < USER_STACK → (s'.pages p).va + PGSIZE ≤ USER_STACK) := by
  by_cases hk : addr = 0 ∨ is_kernel_vaddr addr = true
  · unfold vm_try_handle_fault at h
    rw [if_pos hk] at h
    simp only [Option.some.injEq, Prod.mk.injEq] at h
    rw [← h.2] at hnew
    exact absurd hnew hold
  · cases not_present with
    | false =>
      unfold vm_try_handle_fault at h
      rw [if_neg hk] at h
      simp only [Bool.false_eq_true, if_false, Option.some.injEq, Prod.mk.injEq] at h
      rw [← h.2] at hnew
      exact absurd hnew hold
    | true =>
      rw [vm_try_handle_fault_eq s f_rsp addr user write hk] at h
      by_cases hc : USER_STACK - 2 ^ 20 ≤ u64 ((fault_rsp s f_rsp user : Int) - 8) ∧
          u64 ((fault_rsp s f_rsp user : Int) - 8) ≤ addr ∧ addr ≤ USER_STACK
      · rw [if_pos hc] at h
        unfold vm_stack_growth vm_alloc_page at h
        cases ha : vm_alloc_page_with_initializer s (VM_ANON ||| VM_MARKER_0)
            (pg_round_down addr) true none none with
        | none => simp [ha] at h
        | some r =>
          obtain ⟨bb, s1⟩ := r
          simp only [ha, Option.bind_some] at h
          have hspt : s'.spt = s1.spt := fault_claim_spt h
          have hva : (s'.pages p).va = (s1.pages p).va := fault_claim_va h p
          cases bb with
          | false =>
            rw [hspt, (vm_alloc_false ha).2.2.2.1] at hnew
            exact absurd hnew hold
          | true =>
            obtain ⟨-, -, -, hsc, -, -, pi, -, hpg⟩ := vm_alloc_true ha
            rw [hspt, hsc, List.mem_cons] at hnew
            have hp : p = s.next := hnew.elim id (fun h1 => absurd h1 hold)
            have hva' : (s'.pages p).va = pg_round_down addr := by
              rw [hva, hp, hpg]
            obtain ⟨c1, c2, c3⟩ := hc
            rw [hva']
            refine ⟨rfl, ?_, ?_, ?_⟩
            · unfold pg_round_down USER_STACK PGSIZE at *
              omega
            · unfold pg_round_down USER_STACK PGSIZE at *
              omega
            · intro hlt
              unfold pg_round_down USER_STACK PGSIZE at *
              omega
      · rw [if_neg hc] at h
        rw [fault_claim_spt h] at hnew
        exact absurd hnew hold

/-- The instance of the amended C24 for a user-mode fault eight bytes below
the stack pointer `USER_STACK`, with free pages in the user pool. -/
theorem stack_growth_page_bounds_witness :
    vm_try_handle_fault two_pool_state USER_STACK (USER_STACK - 8) true true true
      = some (true,
          ((vm_try_handle_fault two_pool_state USER_STACK (USER_STACK - 8) true true
            true).getD (false, boot)).2) ∧
    1 ∈ ((vm_try_handle_fault two_pool_state USER_STACK (USER_STACK - 8) true true
            true).getD (false, boot)).2.spt two_pool_state.cur ∧
    1 ∉ two_pool_state.spt two_pool_state.cur ∧
    ((((vm_try_handle_fault two_pool_state USER_STACK (USER_STACK - 8) true true
            true).getD (false, boot)).2.pages 1).va = pg_round_down (USER_STACK - 8) ∧
     USER_STACK - 2 ^ 20 ≤ (((vm_try_handle_fault two_pool_state USER_STACK (USER_STACK - 8)
            true true true).getD (false, boot)).2.pages 1).va ∧
     (((vm_try_handle_fault two_pool_state USER_STACK (USER_STACK - 8) true true
            true).getD (false, boot)).2.pages 1).va ≤ USER_STACK ∧
     (USER_STACK - 8 < USER_STACK →
       (((vm_try_handle_fault two_pool_state USER_STACK (USER_STACK - 8) true true
            true).getD (false, boot)).2.pages 1).va + PGSIZE ≤ USER_STACK)) :=
  have h2 : 1 ∈ ((vm_try_handle_fault two_pool_state USER_STACK (USER_STACK - 8) true true
            true).getD (false, boot)).2.spt two_pool_state.cur := by decide
  have h3 : 1 ∉ two_pool_state.spt two_pool_state.cur := by decide
  ⟨rfl, h2, h3,
   stack_growth_page_bounds two_pool_state _ USER_STACK (USER_STACK - 8) true true true true 1
     rfl h2 h3⟩

/-! ## The pages that the loop of `do_mmap` creates -/

theorem mmap_page_congr {s s' : KState} {p vme va : Nat} {w : Bool}
    (h : { s'.pages p with mapped_page_count := 0 }
      = { s.pages p with mapped_page_count := 0 }) :
    mmap_page s p vme va w → mmap_page s' p vme va w := by
  simp only [page.mk.injEq] at h
  obtain ⟨h1, h2, h3, h4, -, h6, -⟩ := h
  unfold mmap_page
  rw [h1, h2, h3, h4, h6]
  exact id

/-- One completed turn of the loop of `do_mmap`, read backwards from the
result of the loop: the turn wrote the `struct vm_entry` at the fresh block
`s.next` and the page at the fresh block `s.next + 1`, which heads the table
of the running thread; every other block is as before, but for the
`mapped_page_count` of the pages. -/
theorem do_mmap_loop_turn_inv (f : Nat) (w : Bool) (start : Nat) (total : Int)
    (fuel : Nat) (s : KState) (rb zb addr : Nat) (off : Int) (a : Nat) (s' : KState)
    (hc : rb > 0 ∨ zb > 0)
    (h : do_mmap_loop f w start total (fuel + 1) s rb zb addr off = some (some a, s')) :
    ∃ s3, do_mmap_loop f w start total fuel s3
          (u64 ((rb : Int) - ((if rb < PGSIZE then rb else PGSIZE : Nat) : Int)))
          (u64 ((zb : Int) - ((PGSIZE - (if rb < PGSIZE then rb else PGSIZE) : Nat) : Int)))
          (u64 ((addr : Int) + PGSIZE))
          (i32 (u64 (off + ((if rb < PGSIZE then rb else PGSIZE : Nat) : Int))))
        = some (some a, s') ∧
      s3.cur = s.cur ∧ s3.next = s.next + 2 ∧
      s3.spt s.cur = (s.next + 1) :: s.spt s.cur ∧
      s3.entries s.next
        = { f := f, offset := off,
            read_bytes := if rb < PGSIZE then rb else PGSIZE,
            zero_bytes := PGSIZE - if rb < PGSIZE then rb else PGSIZE } ∧
      (∀ x, x ≠ s.next → s3.entries x = s.entries x) ∧
      mmap_page s3 (s.next + 1) s.next addr w ∧
      (∀ x, x ≠ s.next + 1 →
        { s3.pages x with mapped_page_count := 0 }
          = { s.pages x with mapped_page_count := 0 }) := by
  rw [do_mmap_loop] at h
  simp only [hc, if_true, malloc] at h
  cases ha : vm_alloc_page_with_initializer
      (set_entry { s with next := s.next + 1 } s.next
        { f := f, offset := off,
          read_bytes := if rb < PGSIZE then rb else PGSIZE,
          zero_bytes := PGSIZE - if rb < PGSIZE then rb else PGSIZE })
      VM_FILE addr w (some .lazy_load_segment) (some s.next) with
  | none => simp [ha] at h
  | some r =>
    obtain ⟨bb, s2⟩ := r
    simp only [ha] at h
    have hcur2 : s2.cur = s.cur := (vm_alloc_cur ha).trans rfl
    cases bb with
    | false => simp at h
    | true =>
      simp only at h
      obtain ⟨-, -, hst2, hsc, -, hpo, pi, -, hnew⟩ := vm_alloc_true ha
      simp only [set_entry_next, set_entry_cur, set_entry_spt, set_entry_pages] at hsc hpo hnew
      have hnext2 : s2.next = s.next + 2 := by rw [hst2]; rfl
      have hent2 : s2.entries = (set_entry { s with next := s.next + 1 } s.next
          { f := f, offset := off,
            read_bytes := if rb < PGSIZE then rb else PGSIZE,
            zero_bytes := PGSIZE - if rb < PGSIZE then rb else PGSIZE }).entries := by
        rw [hst2]
      cases hf : spt_find_page s2 s2.cur start with
      | none => simp [hf] at h
      | some p =>
        simp only [hf] at h
        have herase : ∀ x,
            { (set_page s2 p { s2.pages p with mapped_page_count := total }).pages x
                with mapped_page_count := 0 }
              = { s2.pages x with mapped_page_count := 0 } := by
          intro x
          by_cases hx : x = p
          · rw [hx, set_page_pages_same]
          · rw [set_page_pages_other _ _ _ hx]
        refine ⟨set_page s2 p { s2.pages p with mapped_page_count := total }, h, hcur2,
          hnext2, hsc, ?_, ?_, ?_, ?_⟩
        · show s2.entries s.next = _
          rw [hent2]
          simp [set_entry]
        · intro x hx
          show s2.entries x = _
          rw [hent2]
          simp [set_entry, hx]
        · apply mmap_page_congr (herase (s.next + 1))
          unfold mmap_page
          rw [hnew]
          exact ⟨rfl, rfl, rfl, rfl, rfl, rfl, rfl⟩
        · intro x hx
          rw [herase x, hpo x hx]

theorem i32_u64_add_page {off : Int} (h0 : -2147483648 ≤ off) (h1 : off + PGSIZE < 2147483648) :
    i32 (u64 (off + PGSIZE)) = off + PGSIZE := by
  unfold i32 u64
  unfold PGSIZE at h1 ⊢
  omega

/-- The pages of a completed loop of `do_mmap` over a file range of `rb`
bytes: `rb / PGSIZE + 1` pages and as many `struct vm_entry`, in fresh
blocks, the page `k` at `addr + k * PGSIZE` with the file offset
`off + k * PGSIZE` and `min (PGSIZE, rb - k * PGSIZE)` bytes to read. -/
theorem do_mmap_loop_layout (f : Nat) (w : Bool) (start : Nat) (total : Int) :
    ∀ (n fuel : Nat) (s : KState) (rb addr : Nat) (off : Int) (a : Nat) (s' : KState),
      rb / PGSIZE = n → rb < 2 ^ 64 → addr + (n + 1) * PGSIZE < 2 ^ 64 →
      -2147483648 ≤ off → off + rb < 2147483648 →
      do_mmap_loop f w start total fuel s rb (PGSIZE - rb % PGSIZE) addr off
        = some (some a, s') →
      s'.cur = s.cur ∧ s'.next = s.next + 2 * (n + 1) ∧
      s'.spt s.cur
        = ((List.range (n + 1)).map (fun k => s.next + 2 * k + 1)).reverse ++ s.spt s.cur ∧
      (∀ k, k ≤ n →
        s'.entries (s.next + 2 * k)
          = { f := f, offset := off + ((k * PGSIZE : Nat) : Int),
              read_bytes := min PGSIZE (rb - k * PGSIZE),
              zero_bytes := PGSIZE - min PGSIZE (rb - k * PGSIZE) } ∧
        mmap_page s' (s.next + 2 * k + 1) (s.next + 2 * k) (addr + k * PGSIZE) w) ∧
      (∀ x, x < s.next →
        s'.entries x = s.entries x ∧
        { s'.pages x with mapped_page_count := 0 }
          = { s.pages x with mapped_page_count := 0 }) := by
  intro n
  induction n with
  | zero =>
    intro fuel s rb addr off a s' hn _ _ _ _ h
    have hrb : rb < PGSIZE := by
      unfold PGSIZE at hn ⊢
      omega
    have hmod : rb % PGSIZE = rb := Nat.mod_eq_of_lt hrb
    cases fuel with
    | zero => simp [do_mmap_loop] at h
    | succ fuel1 =>
      obtain ⟨s3, h3, hcur, hnext, hsc, hent, hento, hpg, hpgo⟩ :=
        do_mmap_loop_turn_inv f w start total fuel1 s rb (PGSIZE - rb % PGSIZE) addr off a s'
          (Or.inr (by rw [hmod]; omega)) h
      rw [if_pos hrb, hmod] at h3
      have h1 : u64 ((rb : Int) - rb) = 0 := by unfold u64; omega
      have h2 : u64 (((PGSIZE - rb : Nat) : Int) - ((PGSIZE - rb : Nat) : Int)) = 0 := by
        unfold u64; omega
      rw [h1, h2] at h3
      cases fuel1 with
      | zero => simp [do_mmap_loop] at h3
      | succ fuel2 =>
        rw [do_mmap_loop] at h3
        simp only [gt_iff_lt, Nat.lt_irrefl, or_self, if_false, Option.some.injEq,
          Prod.mk.injEq] at h3
        obtain ⟨-, rfl⟩ := h3
        refine ⟨hcur, hnext, ?_, ?_, ?_⟩
        · rw [hsc]
          rfl
        · intro k hk
          have hk0 : k = 0 := by omega
          subst hk0
          rw [if_pos hrb] at hent
          refine ⟨?_, ?_⟩
          · rw [Nat.mul_zero, Nat.add_zero, hent]
            simp only [Nat.zero_mul, Nat.sub_zero, Nat.cast_zero, Int.add_zero,
              Nat.min_eq_right (Nat.le_of_lt hrb)]
          · simpa using hpg
        · intro x hx
          exact ⟨hento x (by omega), hpgo x (by omega)⟩
  | succ n ih =>
    intro fuel s rb addr off a s' hn hrb64 hwrap hoff0 hoff1 h
    have hrb : ¬ rb < PGSIZE := by
      intro hlt
      rw [Nat.div_eq_of_lt hlt] at hn
      cases hn
    cases fuel with
    | zero => simp [do_mmap_loop] at h
    | succ fuel1 =>
      have hn' : (rb - PGSIZE) / PGSIZE = n := by
        unfold PGSIZE at hn hrb ⊢
        omega
      have hw' : addr + PGSIZE + (n + 1) * PGSIZE < 2 ^ 64 := by
        unfold PGSIZE at hwrap ⊢
        omega
      have hlo' : -2147483648 ≤ off + (PGSIZE : Int) := by
        unfold PGSIZE
        omega
      have hhi' : off + (PGSIZE : Int) + ((rb - PGSIZE : Nat) : Int) < 2147483648 := by
        unfold PGSIZE at hrb ⊢
        omega
      have hr' : rb - PGSIZE < 2 ^ 64 := by omega
      have hmin0 : min PGSIZE (rb - 0 * PGSIZE) = PGSIZE := by
        rw [Nat.zero_mul, Nat.sub_zero]
        exact Nat.min_eq_left (Nat.le_of_not_lt hrb)
      obtain ⟨s3, h3, hcur, hnext, hsc, hent, hento, hpg, hpgo⟩ :=
        do_mmap_loop_turn_inv f w start total fuel1 s rb (PGSIZE - rb % PGSIZE) addr off a s'
          (Or.inl (by unfold PGSIZE at hrb; omega)) h
      rw [if_neg hrb] at h3 hent
      have h1 : u64 ((rb : Int) - PGSIZE) = rb - PGSIZE := by
        unfold u64
        unfold PGSIZE at hrb ⊢
        omega
      have h2 : u64 (((PGSIZE - rb % PGSIZE : Nat) : Int) - ((PGSIZE - PGSIZE : Nat) : Int))
          = PGSIZE - (rb - PGSIZE) % PGSIZE := by
        unfold u64
        unfold PGSIZE at hrb ⊢
        omega
      have h3a : u64 ((addr : Int) + PGSIZE) = addr + PGSIZE := by
        apply u64_add_page
        unfold PGSIZE at hwrap ⊢
        omega
      have h4 : i32 (u64 (off + PGSIZE)) = off + PGSIZE :=
        i32_u64_add_page hoff0 (by unfold PGSIZE at hrb ⊢; omega)
      rw [h1, h2, h3a, h4] at h3
      clear h1 h2 h3a h4
      obtain ⟨i1, i2, i3, i4, i5⟩ := ih fuel1 s3 (rb - PGSIZE) (addr + PGSIZE)
        (off + PGSIZE) a s' hn' hr' hw' hlo' hhi' h3
      refine ⟨i1.trans hcur, ?_, ?_, ?_, ?_⟩
      · rw [i2, hnext]
        ring
      · rw [hcur] at i3
        rw [i3, hsc, hnext, List.range_succ_eq_map (n + 1), List.map_cons, List.map_map,
          List.reverse_cons, List.append_assoc]
        have hmap : (fun k => s.next + 2 + 2 * k + 1)
            = (fun k => s.next + 2 * k + 1) ∘ Nat.succ := by
          funext k
          show s.next + 2 + 2 * k + 1 = s.next + 2 * (k + 1) + 1
          ring
        rw [hmap]
        rfl
      · intro k hk
        cases k with
        | zero =>
          have e := i5 s.next (by rw [hnext]; exact Nat.lt_add_of_pos_right (by decide))
          have p := i5 (s.next + 1) (by rw [hnext]; exact Nat.add_lt_add_left (by decide) _)
          refine ⟨?_, ?_⟩
          · rw [Nat.mul_zero, Nat.add_zero, e.1, hent, hmin0, Nat.zero_mul, Nat.cast_zero,
              Int.add_zero]
          · rw [Nat.mul_zero, Nat.add_zero, Nat.zero_mul, Nat.add_zero]
            exact mmap_page_congr p.2 hpg
        | succ j =>
          obtain ⟨e, p⟩ := i4 j (Nat.le_of_succ_le_succ hk)
          rw [hnext] at e p
          have ha1 : s.next + 2 + 2 * j = s.next + 2 * (j + 1) := by ring
          have ha3 : addr + PGSIZE + j * PGSIZE = addr + (j + 1) * PGSIZE := by ring
          have ha4 : rb - PGSIZE - j * PGSIZE = rb - (j + 1) * PGSIZE := by
            rw [Nat.sub_sub, Nat.add_mul, Nat.one_mul, Nat.add_comm]
          have ha5 : off + (PGSIZE : Int) + ((j * PGSIZE : Nat) : Int)
              = off + (((j + 1) * PGSIZE : Nat) : Int) := by
            push_cast
            ring
          rw [ha1, ha4, ha5] at e
          rw [ha1, ha3] at p
          exact ⟨e, p⟩
      · intro x hx
        have hx3 : x < s3.next := by
          rw [hnext]
          exact Nat.lt_add_right 2 hx
        obtain ⟨e, p⟩ := i5 x hx3
        exact ⟨e.trans (hento x (Nat.ne_of_lt hx)),
          p.trans (hpgo x (Nat.ne_of_lt (Nat.lt_succ_of_lt hx)))⟩

/-- The bytes to read of the pages of a mapping add up to the bytes of the
file range. -/
theorem mmap_read_bytes_sum :
    ∀ (n rb : Nat), rb / PGSIZE = n →
      ((List.range (n + 1)).map (fun k => min PGSIZE (rb - k * PGSIZE))).sum = rb := by
  intro n
  induction n with
  | zero =>
    intro rb hn
    have hrb : rb < PGSIZE := by
      unfold PGSIZE at hn ⊢
      omega
    rw [show List.range (0 + 1) = [0] from rfl]
    simp only [List.map_cons, List.map_nil, List.sum_cons, List.sum_nil, Nat.zero_mul,
      Nat.sub_zero, Nat.add_zero]
    exact Nat.min_eq_right (Nat.le_of_lt hrb)
  | succ n ih =>
    intro rb hn
    have hrb : PGSIZE ≤ rb := by
      unfold PGSIZE at hn ⊢
      omega
    rw [List.range_succ_eq_map (n + 1), List.map_cons, List.map_map, List.sum_cons]
    have hfun : (fun k => min PGSIZE (rb - k * PGSIZE)) ∘ Nat.succ
        = fun k => min PGSIZE ((rb - PGSIZE) - k * PGSIZE) := by
      funext k
      have hk : rb - (k + 1) * PGSIZE = rb - PGSIZE - k * PGSIZE := by
        unfold PGSIZE
        omega
      show min PGSIZE (rb - (k + 1) * PGSIZE) = _
      rw [hk]
    rw [hfun, ih (rb - PGSIZE) (by unfold PGSIZE at hn hrb ⊢; omega)]
    rw [Nat.zero_mul, Nat.sub_zero, Nat.min_eq_left hrb]
    unfold PGSIZE at hrb ⊢
    omega

/-- Claim C22, as stated, fails for the file offsets.  `mmap (0x1000, 5000,
1, 3, 0x7ffff000)` on a file of 5000 bytes succeeds with two pages; the page
at `0x1000` has the file offset `0x7ffff000` and 4096 bytes to read, and the
page at `0x2000` has 904 bytes to read and 3192 to zero, but its file offset
is `-2147483648`, not `0x7ffff000 + PGSIZE`: `offset` is an `off_t` of 32
bits. -/
theorem do_mmap_offset_wraps :
    ((0x7ffff000 : Int) % PGSIZE = 0 ∧ (0x7ffff000 : Int) + PGSIZE = 2147483648) ∧
    (mmap mmap_state 0x1000 5000 true 3 0x7ffff000).map
      (fun r => (r.1, (r.2.spt 0).map (fun p => ((r.2.pages p).va,
        (r.2.pages p).uninit.aux.map (fun e => ((r.2.entries e).offset,
          (r.2.entries e).read_bytes, (r.2.entries e).zero_bytes))))))
      = some (some 0x1000, [(0x2000, some (-2147483648, 904, 3192)),
                            (0x1000, some (0x7ffff000, 4096, 0))]) :=
  ⟨⟨by decide, by decide⟩, rfl⟩

/-- Claim C22, amended.  Let `rb` be the smaller of the file length and
`length`, with `addr` and `offset` page-aligned, the region within the 64-bit
address space, the file offsets `offset` to `offset + rb` within an `off_t`,
and no page allocation failing (the table of the running thread, whose pages
are allocated blocks, holds none of the addresses `addr + k * PGSIZE` for
`k <= rb / PGSIZE`).  Then `do_mmap` returns `addr` after its loop made
`rb / PGSIZE + 1` turns: the table gained exactly that many pages, in fresh
blocks; the page `k` is an uninitialized page at `addr + k * PGSIZE` whose
`struct vm_entry` has the file offset `offset + k * PGSIZE`,
`read_bytes = min (PGSIZE, rb - k * PGSIZE)` and
`zero_bytes = PGSIZE - read_bytes`; and the `read_bytes` of the pages add up
to `rb`. -/
theorem do_mmap_layout (s : KState) (addr length : Nat) (w : Bool) (file : Nat)
    (offset : Int) (rb : Nat)
    (hrb : rb = min (u64 (file_length s file)) length)
    (hal : pg_ofs addr = 0) (hoff : offset % PGSIZE = 0)
    (hwrap : addr + length + PGSIZE < 2 ^ 64)
    (hlo : -2147483648 ≤ offset) (hhi : offset + rb < 2147483648)
    (hfree : ∀ k, k ≤ rb / PGSIZE → spt_find_page s s.cur (addr + k * PGSIZE) = none)
    (hb : ∀ e ∈ s.spt s.cur, e < s.next) :
    ∃ s', do_mmap s addr length w file offset = some (some addr, s') ∧
      s'.spt s.cur
        = ((List.range (rb / PGSIZE + 1)).map (fun k => s.next + 2 * k + 2)).reverse
            ++ s.spt s.cur ∧
      (∀ k, k ≤ rb / PGSIZE →
        mmap_page s' (s.next + 2 * k + 2) (s.next + 2 * k + 1) (addr + k * PGSIZE) w ∧
        s'.entries (s.next + 2 * k + 1)
          = { f := s.next, offset := offset + ((k * PGSIZE : Nat) : Int),
              read_bytes := min PGSIZE (rb - k * PGSIZE),
              zero_bytes := PGSIZE - min PGSIZE (rb - k * PGSIZE) }) ∧
      ((List.range (rb / PGSIZE + 1)).map
        (fun k => (s'.entries (s.next + 2 * k + 1)).read_bytes)).sum = rb := by
  obtain ⟨s', hs'⟩ := do_mmap_returns s addr length w file offset hal hoff hwrap
    (by rw [← hrb]; exact hfree) hb
  refine ⟨s', hs', ?_⟩
  obtain ⟨f, s0, rb', total, hfr, hrb', -, -, -, hl⟩ := do_mmap_some hs'
  unfold file_reopen at hfr
  simp only [Prod.mk.injEq] at hfr
  obtain ⟨hf, hs0⟩ := hfr
  have hlen : file_length s0 f = file_length s file := by
    rw [← hs0, ← hf]
    simp [file_length]
  have hcur : s0.cur = s.cur := by rw [← hs0]
  have hspt : s0.spt = s.spt := by rw [← hs0]
  have hnext : s0.next = s.next + 1 := by rw [← hs0]
  have hrbeq : rb' = rb := by
    rw [hrb', hrb, hlen, Nat.min_def]
    split <;> split <;> omega
  subst hrbeq
  have hrble : rb' ≤ length := by rw [hrb]; exact Nat.min_le_right _ _
  have hdiv : rb' / PGSIZE * PGSIZE ≤ rb' := Nat.div_mul_le_self _ _
  obtain ⟨-, -, l3, l4, -⟩ := do_mmap_loop_layout f w addr total (rb' / PGSIZE)
    (rb' / PGSIZE + 2) s0 rb' addr offset addr s' rfl
    (by unfold PGSIZE at hwrap; omega)
    (by
      rw [Nat.add_mul]
      unfold PGSIZE at hwrap hdiv ⊢
      omega)
    hlo hhi hl
  rw [hcur, hspt, hnext] at l3
  have hidx : ∀ k, s.next + 1 + 2 * k = s.next + 2 * k + 1 := fun k => by omega
  have hidx2 : ∀ k, s.next + 1 + 2 * k + 1 = s.next + 2 * k + 2 := fun k => by omega
  have hent : ∀ k, k ≤ rb' / PGSIZE →
      s'.entries (s.next + 2 * k + 1)
        = { f := s.next, offset := offset + ((k * PGSIZE : Nat) : Int),
            read_bytes := min PGSIZE (rb' - k * PGSIZE),
            zero_bytes := PGSIZE - min PGSIZE (rb' - k * PGSIZE) } := by
    intro k hk
    have := (l4 k hk).1
    rw [hnext, hidx, ← hf] at this
    exact this
  refine ⟨?_, ?_, ?_⟩
  · rw [l3]
    have hmap : (fun k => s.next + 1 + 2 * k + 1) = (fun k => s.next + 2 * k + 2) :=
      funext hidx2
    rw [hmap]
  · intro k hk
    refine ⟨?_, hent k hk⟩
    have := (l4 k hk).2
    rw [hnext, hidx] at this
    exact this
  · refine Eq.trans ?_ (mmap_read_bytes_sum (rb' / PGSIZE) rb' rfl)
    apply congrArg List.sum
    apply List.map_congr_left
    intro k hk
    rw [List.mem_range] at hk
    rw [hent k (by omega)]

/-- The instance of the amended C22 on the mapping of the 5000 bytes of a
file at `0x1000`: two pages, of 4096 and 904 bytes to read. -/
theorem do_mmap_layout_witness :
    (5000 = min (u64 (file_length mmap_state 5)) 5000 ∧ pg_ofs 0x1000 = 0 ∧
      (0 : Int) % PGSIZE = 0 ∧ 0x1000 + 5000 + PGSIZE < 2 ^ 64 ∧
      (-2147483648 : Int) ≤ 0 ∧ (0 : Int) + (5000 : Nat) < 2147483648) ∧
    ∃ s', do_mmap mmap_state 0x1000 5000 true 5 0 = some (some 0x1000, s') ∧
      s'.spt mmap_state.cur
        = ((List.range (5000 / PGSIZE + 1)).map
            (fun k => mmap_state.next + 2 * k + 2)).reverse ++ mmap_state.spt mmap_state.cur ∧
      (∀ k, k ≤ 5000 / PGSIZE →
        mmap_page s' (mmap_state.next + 2 * k + 2) (mmap_state.next + 2 * k + 1)
          (0x1000 + k * PGSIZE) true ∧
        s'.entries (mmap_state.next + 2 * k + 1)
          = { f := mmap_state.next, offset := 0 + ((k * PGSIZE : Nat) : Int),
              read_bytes := min PGSIZE (5000 - k * PGSIZE),
              zero_bytes := PGSIZE - min PGSIZE (5000 - k * PGSIZE) }) ∧
      ((List.range (5000 / PGSIZE + 1)).map
        (fun k => (s'.entries (mmap_state.next + 2 * k + 1)).read_bytes)).sum = 5000 :=
  ⟨by decide,
   do_mmap_layout mmap_state 0x1000 5000 true 5 0 5000 (by decide) (by decide) (by decide)
     (by decide) (by decide) (by decide)
     (fun _ _ => by simp [spt_find_page, hash_find, mmap_state, boot])
     (fun e he => by simp [mmap_state, boot] at he)⟩

/-! ## The first claim of an anonymous page -/

/-- Claim C4.  For every page-aligned address `va`, when `vm_alloc_page
(VM_ANON, va, 1)` and then `vm_claim_page (va)` both return true (the first
does so only when the table had no page at `va`), `spt_find_page (va)`
returns a page that is resident, the page and its frame pointing at each
other, and every byte of the frame is zero, whether `vm_get_frame` took the
frame from the user pool or evicted it. -/
theorem claim_anon_page_zeroed (s s1 s2 : KState) (va : Nat)
    (hal : pg_ofs va = 0)
    (ha : vm_alloc_page s VM_ANON va true = some (true, s1))
    (hc : vm_claim_page s1 va = some (true, s2)) :
    ∃ p fr, spt_find_page s2 s2.cur va = some p ∧
      (s2.pages p).frame = some fr ∧ (s2.frames fr).page = some p ∧
      ∀ o, o < PGSIZE → s2.mem (s2.frames fr).kva o = 0 := by
  unfold vm_alloc_page at ha
  obtain ⟨-, -, hst, hsc, -, -, pi, hpi, hnew⟩ := vm_alloc_true ha
  have hpi' : pi = .anon_initializer := hpi (by decide)
  subst hpi'
  have hcur1 : s1.cur = s.cur := vm_alloc_cur ha
  have hfound : spt_find_page s1 s1.cur va = some s.next := by
    rw [hcur1]
    exact vm_alloc_true_found ha (pg_round_down_of_ofs hal)
  unfold vm_claim_page at hc
  rw [hfound] at hc
  simp only at hc
  obtain ⟨fr, t2, hgf, hs2⟩ := vm_do_claim_fresh_anon
    (by rw [hnew]) (by rw [hnew]) (by rw [hnew]) hc
  obtain ⟨hag, hspt2, hcur2⟩ := vm_get_frame_agree hgf
  have hs2cur : s2.cur = s.cur := by
    rw [hs2]
    simp only [set_page_cur, memset_zero_cur, pml4_put_cur]
    rw [set_links_state]
    exact hcur2.trans hcur1
  have hs2spt : s2.spt s.cur = s.next :: s.spt s.cur := by
    rw [hs2]
    simp only [set_page_spt, memset_zero_spt, pml4_put_spt]
    rw [set_links_state]
    show t2.spt s.cur = _
    rw [hspt2]
    exact hsc
  have hs2pg : (s2.pages s.next).va = va ∧ (s2.pages s.next).frame = some fr := by
    rw [hs2, set_page_pages_same, set_links_pages_same]
    refine ⟨?_, rfl⟩
    show (t2.pages s.next).va = _
    rw [(hag s.next).2.1, hnew]
  have hs2fr : s2.frames fr = { t2.frames fr with page := some s.next } := by
    rw [hs2]
    simp only [set_page_frames, memset_zero_frames, pml4_put_frames]
    exact set_links_frames_same _ _ _
  refine ⟨s.next, fr, ?_, hs2pg.2, by rw [hs2fr], ?_⟩
  · rw [hs2cur, spt_find_page_eq, hs2spt]
    simp [hash_find, page_less, hs2pg.1, pg_round_down_of_ofs hal]
  · intro o ho
    rw [hs2fr, hs2]
    simp [set_page, memset_zero, ho]

/-- The instance of C4 at `0x1000`, with an empty frame table and one free
page of the user pool, every byte of which is `0xcc` before the claim. -/
theorem claim_anon_page_zeroed_witness :
    pg_ofs 0x1000 = 0 ∧
    vm_alloc_page fresh_pool_state VM_ANON 0x1000 true
      = some (true, ((vm_alloc_page fresh_pool_state VM_ANON 0x1000 true).getD
          (false, boot)).2) ∧
    vm_claim_page ((vm_alloc_page fresh_pool_state VM_ANON 0x1000 true).getD
        (false, boot)).2 0x1000
      = some (true, ((vm_claim_page ((vm_alloc_page fresh_pool_state VM_ANON 0x1000
          true).getD (false, boot)).2 0x1000).getD (false, boot)).2) ∧
    ∃ p fr, spt_find_page ((vm_claim_page ((vm_alloc_page fresh_pool_state VM_ANON 0x1000
          true).getD (false, boot)).2 0x1000).getD (false, boot)).2
        ((vm_claim_page ((vm_alloc_page fresh_pool_state VM_ANON 0x1000
          true).getD (false, boot)).2 0x1000).getD (false, boot)).2.cur 0x1000 = some p ∧
      (((vm_claim_page ((vm_alloc_page fresh_pool_state VM_ANON 0x1000
          true).getD (false, boot)).2 0x1000).getD (false, boot)).2.pages p).frame = some fr ∧
      (((vm_claim_page ((vm_alloc_page fresh_pool_state VM_ANON 0x1000
          true).getD (false, boot)).2 0x1000).getD (false, boot)).2.frames fr).page = some p ∧
      ∀ o, o < PGSIZE →
        ((vm_claim_page ((vm_alloc_page fresh_pool_state VM_ANON 0x1000
            true).getD (false, boot)).2 0x1000).getD (false, boot)).2.mem
          (((vm_claim_page ((vm_alloc_page fresh_pool_state VM_ANON 0x1000
            true).getD (false, boot)).2 0x1000).getD (false, boot)).2.frames fr).kva o = 0 :=
  ⟨by decide, rfl, rfl, claim_anon_page_zeroed fresh_pool_state _ _ 0x1000 (by decide) rfl rfl⟩

/-! ## A frame table that cannot be evicted -/

end Pintos
